import Mathlib

/-! # igloo: matrix algebra, sphere intersection and mesh construction

A shallow embedding of `igloo/utility/matrix.hpp`, `igloo/surfaces/sphere.cpp` and
`igloo/surfaces/mesh.cpp` and of `look_at` of `cornell_box.cpp`, together with models of
`Scene.intersect` and of the path-tracing loop that follow the specification.

Conventions of the embedding.

* `float` is read in two ways. The embedding of the source replaces it by an arbitrary
  field `K` (exact arithmetic); the definitions are computable for a computable field
  such as `ℚ`, and theorems about square roots are instantiated over `ℝ`. The section
  on binary32 arithmetic reads it as IEEE-754 binary32, with rounding, underflow and
  overflow, for the arithmetic of `sphere::intersect` and of `z_radius`, `phi` and `u`
  in `sphere::parametric_geometry_at`. A theorem over `K` is a statement over exact
  arithmetic; where binary32 departs from it, a theorem on the binary32 definitions
  says so.
* Division is the field's total division (`x / 0 = 0`), where the source would
  produce an infinity or a NaN.
* The functions of `<cmath>` used by the source (`sqrt`, `atan2`, `acos`, `sin`) are
  parameters, gathered in the structure `cmath`; theorems that need the square root to
  be exact assume `IsSqrt`.
* The bounds of a ray interval are elements of `K`; an interval unbounded above is not
  represented.
-/

namespace Igloo

variable {K : Type}

/-! ## `igloo/utility/matrix.hpp` -/

/-- The class `matrix<T,3,3>`: nine members, declared in row-major order. -/
structure matrix3x3 (K : Type) where
  m00 : K
  m01 : K
  m02 : K
  m10 : K
  m11 : K
  m12 : K
  m20 : K
  m21 : K
  m22 : K
deriving DecidableEq, Repr

/-- The class `matrix<T,4,4>`: sixteen members, declared in row-major order. -/
structure matrix4x4 (K : Type) where
  m00 : K
  m01 : K
  m02 : K
  m03 : K
  m10 : K
  m11 : K
  m12 : K
  m13 : K
  m20 : K
  m21 : K
  m22 : K
  m23 : K
  m30 : K
  m31 : K
  m32 : K
  m33 : K
deriving DecidableEq, Repr

namespace matrix3x3

/-- The accessor `operator[](i)`: the `i`-th member in declaration order
(an index past the end, undefined in the source, reads `0`). -/
def idx [Zero K] (A : matrix3x3 K) : Nat → K
  | 0 => A.m00
  | 1 => A.m01
  | 2 => A.m02
  | 3 => A.m10
  | 4 => A.m11
  | 5 => A.m12
  | 6 => A.m20
  | 7 => A.m21
  | 8 => A.m22
  | _ => 0

/-- The accessor `operator()(i,j)`, which is `operator[](i * extent().second + j)`. -/
def elem [Zero K] (A : matrix3x3 K) (i j : Nat) : K := A.idx (i * 3 + j)

/-- Assignment through `operator[](i)`. -/
def setIdx (A : matrix3x3 K) (n : Nat) (v : K) : matrix3x3 K :=
  match n with
  | 0 => { A with m00 := v }
  | 1 => { A with m01 := v }
  | 2 => { A with m02 := v }
  | 3 => { A with m10 := v }
  | 4 => { A with m11 := v }
  | 5 => { A with m12 := v }
  | 6 => { A with m20 := v }
  | 7 => { A with m21 := v }
  | 8 => { A with m22 := v }
  | _ => A

/-- Assignment through `operator()(i,j)`. -/
def setElem (A : matrix3x3 K) (i j : Nat) (v : K) : matrix3x3 K := A.setIdx (i * 3 + j) v

/-- The constructor `matrix_facade(value_type v)`: `std::fill` of every element. -/
def fill (v : K) : matrix3x3 K := ⟨v, v, v, v, v, v, v, v, v⟩

/-- A matrix whose every element `(i,j)` is assigned `f i j`, as the loops over
`result(i,j) = ...` do. -/
def ofFn (f : Nat → Nat → K) : matrix3x3 K :=
  ⟨f 0 0, f 0 1, f 0 2, f 1 0, f 1 1, f 1 2, f 2 0, f 2 1, f 2 2⟩

/-- The two-row helper `minor_(r0, r1, c0, c1)`. -/
def minor_ [Ring K] (A : matrix3x3 K) (r0 r1 c0 c1 : Nat) : K :=
  A.elem r0 c0 * A.elem r1 c1 - A.elem r1 c0 * A.elem r0 c1

/-- The specialisation `detail::adjoint<3,3>::do_it`. -/
def adjoint [Ring K] (A : matrix3x3 K) : matrix3x3 K :=
  { m00 := A.minor_ 1 2 1 2
    m01 := -A.minor_ 0 2 1 2
    m02 := A.minor_ 0 1 1 2
    m10 := -A.minor_ 1 2 0 2
    m11 := A.minor_ 0 2 0 2
    m12 := -A.minor_ 0 1 0 2
    m20 := A.minor_ 1 2 0 1
    m21 := -A.minor_ 0 2 0 1
    m22 := A.minor_ 0 1 0 1 }

/-- The specialisation `detail::determinant<3>::do_it`. -/
def determinant [Ring K] (A : matrix3x3 K) : K :=
  A.elem 0 0 * A.minor_ 1 2 1 2 -
  A.elem 0 1 * A.minor_ 1 2 0 2 +
  A.elem 0 2 * A.minor_ 1 2 0 1

/-- The matrix product `operator*`: element `(i,j)` accumulates
`temp += lhs(i,k) * rhs(k,j)` for `k = 0, 1, 2`, starting from `temp = 0`. -/
def mul [Ring K] (lhs rhs : matrix3x3 K) : matrix3x3 K :=
  ofFn fun i j => (List.range 3).foldl (fun temp k => temp + lhs.elem i k * rhs.elem k j) 0

/-- The scaling `operator*=(value_type rhs)`: every element is multiplied by `rhs`. -/
def scale [Ring K] (A : matrix3x3 K) (rhs : K) : matrix3x3 K :=
  (List.range 9).foldl (fun r i => r.setIdx i (r.idx i * rhs)) A

/-- The division `operator/(value_type d)`, through `operator/=`: scaling by the
reciprocal `value_type(1) / d`. -/
def div [Field K] (A : matrix3x3 K) (d : K) : matrix3x3 K :=
  let reciprocal := 1 / d
  A.scale reciprocal

/-- The member `inverse()`: `adjoint() / determinant()`. -/
def inverse [Field K] (A : matrix3x3 K) : matrix3x3 K := A.adjoint.div A.determinant

/-- The static member `square_matrix::identity()`: filled with `0`, then `1` is
assigned on the diagonal. -/
def identity [Ring K] : matrix3x3 K :=
  (List.range 3).foldl (fun r i => r.setElem i i 1) (fill 0)

end matrix3x3

namespace matrix4x4

/-- The accessor `operator[](i)`: the `i`-th member in declaration order
(an index past the end, undefined in the source, reads `0`). -/
def idx [Zero K] (A : matrix4x4 K) : Nat → K
  | 0 => A.m00
  | 1 => A.m01
  | 2 => A.m02
  | 3 => A.m03
  | 4 => A.m10
  | 5 => A.m11
  | 6 => A.m12
  | 7 => A.m13
  | 8 => A.m20
  | 9 => A.m21
  | 10 => A.m22
  | 11 => A.m23
  | 12 => A.m30
  | 13 => A.m31
  | 14 => A.m32
  | 15 => A.m33
  | _ => 0

/-- The accessor `operator()(i,j)`, which is `operator[](i * extent().second + j)`. -/
def elem [Zero K] (A : matrix4x4 K) (i j : Nat) : K := A.idx (i * 4 + j)

/-- Assignment through `operator[](i)`. -/
def setIdx (A : matrix4x4 K) (n : Nat) (v : K) : matrix4x4 K :=
  match n with
  | 0 => { A with m00 := v }
  | 1 => { A with m01 := v }
  | 2 => { A with m02 := v }
  | 3 => { A with m03 := v }
  | 4 => { A with m10 := v }
  | 5 => { A with m11 := v }
  | 6 => { A with m12 := v }
  | 7 => { A with m13 := v }
  | 8 => { A with m20 := v }
  | 9 => { A with m21 := v }
  | 10 => { A with m22 := v }
  | 11 => { A with m23 := v }
  | 12 => { A with m30 := v }
  | 13 => { A with m31 := v }
  | 14 => { A with m32 := v }
  | 15 => { A with m33 := v }
  | _ => A

/-- Assignment through `operator()(i,j)`. -/
def setElem (A : matrix4x4 K) (i j : Nat) (v : K) : matrix4x4 K := A.setIdx (i * 4 + j) v

/-- The constructor `matrix_facade(value_type v)`: `std::fill` of every element. -/
def fill (v : K) : matrix4x4 K := ⟨v, v, v, v, v, v, v, v, v, v, v, v, v, v, v, v⟩

/-- A matrix whose every element `(i,j)` is assigned `f i j`, as the loops over
`result(i,j) = ...` do. -/
def ofFn (f : Nat → Nat → K) : matrix4x4 K :=
  ⟨f 0 0, f 0 1, f 0 2, f 0 3, f 1 0, f 1 1, f 1 2, f 1 3,
   f 2 0, f 2 1, f 2 2, f 2 3, f 3 0, f 3 1, f 3 2, f 3 3⟩

/-- The three-row helper `minor_(r0, r1, r2, c0, c1, c2)`. -/
def minor_ [Ring K] (A : matrix4x4 K) (r0 r1 r2 c0 c1 c2 : Nat) : K :=
  A.elem r0 c0 * (A.elem r1 c1 * A.elem r2 c2 - A.elem r2 c1 * A.elem r1 c2) -
  A.elem r0 c1 * (A.elem r1 c0 * A.elem r2 c2 - A.elem r2 c0 * A.elem r1 c2) +
  A.elem r0 c2 * (A.elem r1 c0 * A.elem r2 c1 - A.elem r2 c0 * A.elem r1 c1)

/-- The specialisation `detail::adjoint<4,4>::do_it`. -/
def adjoint [Ring K] (A : matrix4x4 K) : matrix4x4 K :=
  { m00 := A.minor_ 1 2 3 1 2 3
    m01 := -A.minor_ 0 2 3 1 2 3
    m02 := A.minor_ 0 1 3 1 2 3
    m03 := -A.minor_ 0 1 2 1 2 3
    m10 := -A.minor_ 1 2 3 0 2 3
    m11 := A.minor_ 0 2 3 0 2 3
    m12 := -A.minor_ 0 1 3 0 2 3
    m13 := A.minor_ 0 1 2 0 2 3
    m20 := A.minor_ 1 2 3 0 1 3
    m21 := -A.minor_ 0 2 3 0 1 3
    m22 := A.minor_ 0 1 3 0 1 3
    m23 := -A.minor_ 0 1 2 0 1 3
    m30 := -A.minor_ 1 2 3 0 1 2
    m31 := A.minor_ 0 2 3 0 1 2
    m32 := -A.minor_ 0 1 3 0 1 2
    m33 := A.minor_ 0 1 2 0 1 2 }

/-- The specialisation `detail::determinant<4>::do_it`. -/
def determinant [Ring K] (A : matrix4x4 K) : K :=
  A.elem 0 0 * A.minor_ 1 2 3 1 2 3 -
  A.elem 0 1 * A.minor_ 1 2 3 0 2 3 +
  A.elem 0 2 * A.minor_ 1 2 3 0 1 3 -
  A.elem 0 3 * A.minor_ 1 2 3 0 1 2

/-- The matrix product `operator*`: element `(i,j)` accumulates
`temp += lhs(i,k) * rhs(k,j)` for `k = 0, 1, 2, 3`, starting from `temp = 0`. -/
def mul [Ring K] (lhs rhs : matrix4x4 K) : matrix4x4 K :=
  ofFn fun i j => (List.range 4).foldl (fun temp k => temp + lhs.elem i k * rhs.elem k j) 0

/-- The scaling `operator*=(value_type rhs)`: every element is multiplied by `rhs`. -/
def scale [Ring K] (A : matrix4x4 K) (rhs : K) : matrix4x4 K :=
  (List.range 16).foldl (fun r i => r.setIdx i (r.idx i * rhs)) A

/-- The division `operator/(value_type d)`, through `operator/=`: scaling by the
reciprocal `value_type(1) / d`. -/
def div [Field K] (A : matrix4x4 K) (d : K) : matrix4x4 K :=
  let reciprocal := 1 / d
  A.scale reciprocal

/-- The member `inverse()`: `adjoint() / determinant()`. -/
def inverse [Field K] (A : matrix4x4 K) : matrix4x4 K := A.adjoint.div A.determinant

/-- The static member `square_matrix::identity()`: filled with `0`, then `1` is
assigned on the diagonal. -/
def identity [Ring K] : matrix4x4 K :=
  (List.range 4).foldl (fun r i => r.setElem i i 1) (fill 0)

end matrix4x4

/-! ## Geometry value types

The headers `igloo/utility/math_vector.hpp` and `igloo/geometry/*.hpp` are not part of
the sources at hand; the types and operations below are the ones their users in
`sphere.cpp`, `mesh.cpp` and `cornell_box.cpp` rely on. -/

/-- Modelled from the spec: the two-component value type behind `parametric` (members
`x`, `y`; the `(u,v)` pair) and behind the ray's `interval()` (`x` is `tmin`, `y` is
`tmax`); `math_vector.hpp` is missing. -/
@[ext]
structure float2 (K : Type) where
  x : K
  y : K
deriving DecidableEq, Repr

/-- Modelled from the spec: the three-component value type `float3` behind `point`,
`vector` and `normal` (members `x`, `y`, `z`, also read as `p[0]`, `p[1]`, `p[2]`);
`math_vector.hpp` is missing. -/
@[ext]
structure float3 (K : Type) where
  x : K
  y : K
  z : K
deriving DecidableEq, Repr

/-- The type `parametric`. -/
abbrev parametric (K : Type) := float2 K

/-- The type `point`. -/
abbrev point (K : Type) := float3 K

/-- The type `vector`. -/
abbrev vector (K : Type) := float3 K

/-- The type `normal`. -/
abbrev normal (K : Type) := float3 K

namespace float3

/-- Modelled from the spec: component-wise sum (`math_vector.hpp` is missing). -/
def add [Add K] (a b : float3 K) : float3 K := ⟨a.x + b.x, a.y + b.y, a.z + b.z⟩

/-- Modelled from the spec: component-wise difference (`math_vector.hpp` is missing). -/
def sub [Sub K] (a b : float3 K) : float3 K := ⟨a.x - b.x, a.y - b.y, a.z - b.z⟩

/-- Modelled from the spec: component-wise negation (`math_vector.hpp` is missing). -/
def neg [Neg K] (a : float3 K) : float3 K := ⟨-a.x, -a.y, -a.z⟩

/-- Modelled from the spec: the product `s * v` of a scalar and a vector
(`math_vector.hpp` is missing). -/
def smul [Mul K] (s : K) (a : float3 K) : float3 K := ⟨s * a.x, s * a.y, s * a.z⟩

/-- Modelled from the spec: the dot product (`math_vector.hpp` is missing). -/
def dot [Add K] [Mul K] (a b : float3 K) : K := a.x * b.x + a.y * b.y + a.z * b.z

/-- Modelled from the spec: the squared length `norm2()` (`math_vector.hpp` is missing). -/
def norm2 [Add K] [Mul K] (a : float3 K) : K := dot a a

/-- Modelled from the spec: the cross product (`math_vector.hpp` is missing). -/
def cross [Sub K] [Mul K] (a b : float3 K) : float3 K :=
  ⟨a.y * b.z - a.z * b.y, a.z * b.x - a.x * b.z, a.x * b.y - a.y * b.x⟩

/-- Modelled from the spec: `normalize`, the vector divided by its length, the length
being the square root of `norm2()` (`math_vector.hpp` is missing). -/
def normalize [Add K] [Mul K] [Div K] (sqrt : K → K) (a : float3 K) : float3 K :=
  let len := sqrt (norm2 a)
  ⟨a.x / len, a.y / len, a.z / len⟩

end float3

/-- The functions of `<cmath>` the sources call. -/
structure cmath (K : Type) where
  sqrt : K → K
  atan2 : K → K → K
  acos : K → K
  sin : K → K

/-- The constants `pi`, `two_pi`, `max_phi`, `min_theta` and `max_theta` read by
`sphere.cpp`; their declarations are not part of the sources at hand. -/
structure constants (K : Type) where
  pi : K
  two_pi : K
  max_phi : K
  min_theta : K
  max_theta : K

/-- Modelled from the spec: a `ray` has an origin, a direction and a parameter interval
`[interval().x, interval().y]` (`igloo/geometry/ray.hpp` is missing). -/
structure ray (K : Type) where
  origin : point K
  direction : vector K
  interval : float2 K
deriving DecidableEq, Repr

/-- Modelled from the spec: the point `r(t) = origin + t * direction` of a ray
(`igloo/geometry/ray.hpp` is missing). -/
def ray.at [Add K] [Mul K] (r : ray K) (t : K) : point K :=
  float3.add r.origin (float3.smul t r.direction)

/-- Modelled from the spec: `differential_geometry(x, uv, dpdu, dpdv, n)`
(`igloo/geometry/differential_geometry.hpp` is missing). -/
structure differential_geometry (K : Type) where
  point : point K
  uv : parametric K
  dpdu : vector K
  dpdv : vector K
  normal : normal K
deriving DecidableEq, Repr

/-- Modelled from the spec: `intersection(t, dg)`, the hit parameter and the
differential geometry at the hit. -/
structure intersection (K : Type) where
  t : K
  dg : differential_geometry K
deriving DecidableEq, Repr

/-! ## `igloo/surfaces/sphere.cpp` -/

/-- The class `sphere`: members `m_center` and `m_radius`. -/
structure sphere (K : Type) where
  center : point K
  radius : K
deriving DecidableEq, Repr

namespace sphere

variable [LinearOrderedField K]

/-- The static member `sphere::solve_quadratic`, over exact arithmetic
(`solve_quadratic32` is its binary32 reading). The pair `(NaN, NaN)` the source
returns when it assigns no root is `none`; over exact arithmetic no other NaN arises. -/
def solve_quadratic (m : cmath K) (a b c : K) : Option (K × K) :=
  let denom := 2 * a
  if denom ≠ 0 then
    let root := b * b - 4 * a * c
    if root = 0 then
      some (-b / denom, -b / denom)
    else if root > 0 then
      let root := m.sqrt root
      let x0 := (-b - root) / denom
      let x1 := (-b + root) / denom
      if x0 > x1 then some (x1, x0) else some (x0, x1)
    else none
  else none

/-- The local `phi` of `sphere::parametric_geometry_at`, over exact arithmetic (`phi32`
is its binary32 reading): `atan2(n.y, n.x)`, to which `two_pi` is added when it is
negative. -/
def phi (m : cmath K) (k : constants K) (n : normal K) : K :=
  let phi := m.atan2 n.y n.x
  if phi < 0 then phi + k.two_pi else phi

/-- The local `theta` of `sphere::parametric_geometry_at`: `acos(n.x)`. -/
def theta (m : cmath K) (n : normal K) : K := m.acos n.x

/-- The member `sphere::parametric_geometry_at`. -/
def parametric_geometry_at (m : cmath K) (k : constants K) (s : sphere K) (n : normal K) :
    parametric K × vector K × vector K :=
  let p : vector K := float3.smul s.radius n
  let phi := phi m k n
  let theta := theta m n
  let uv : parametric K := ⟨phi / k.max_phi, (theta - k.min_theta) / (k.max_theta - k.min_theta)⟩
  let z_radius := m.sqrt (p.x * p.x + p.y * p.y)
  let inv_z_radius := 1 / z_radius
  let cos_phi := p.x * inv_z_radius
  let sin_phi := p.y * inv_z_radius
  let dpdu : vector K := ⟨-k.max_phi * p.y, k.max_phi * p.x, 0⟩
  let dpdv : vector K :=
    float3.smul (k.max_theta - k.min_theta)
      ⟨p.z * cos_phi, p.z * sin_phi, -s.radius * m.sin theta⟩
  (uv, dpdu, dpdv)

/-- The tail of `sphere::intersect` once the parameter `t` is chosen: the hit point,
the normal and the parametric geometry. -/
def hit (m : cmath K) (k : constants K) (s : sphere K) (r : ray K) (t : K) :
    intersection K :=
  let x := r.at t
  let n := float3.normalize m.sqrt (float3.sub x s.center)
  let g := s.parametric_geometry_at m k n
  ⟨t, ⟨x, g.1, g.2.1, g.2.2, n⟩⟩

/-- The member `sphere::intersect`, over exact arithmetic (`intersect_t32` is the binary32
reading of its choice of `t`); `nullopt` is `none`. -/
def intersect (m : cmath K) (k : constants K) (s : sphere K) (r : ray K) :
    Option (intersection K) :=
  let diff := float3.sub r.origin s.center
  let a := float3.norm2 r.direction
  let b := 2 * float3.dot r.direction diff
  let c := float3.norm2 diff - s.radius * s.radius
  match solve_quadratic m a b c with
  | none => none
  | some (root0, root1) =>
    if root0 > r.interval.y ∨ root1 < r.interval.x then none
    else
      let t := root0
      if t < r.interval.x then
        let t := root1
        if t > r.interval.y then none
        else some (s.hit m k r t)
      else some (s.hit m k r t)

/-- The member `sphere::area`: `4.f * pi * radius() * radius()`. -/
def area (k : constants K) (s : sphere K) : K := 4 * k.pi * s.radius * s.radius

end sphere

/-! ## `igloo/surfaces/mesh.cpp` -/

/-- The index triple `uint3` of a triangle. -/
structure uint3 where
  i0 : Nat
  i1 : Nat
  i2 : Nat
deriving DecidableEq, Repr

/-- The lambda of `face_normals`: the normal of one triangle. The unchecked reads
`points[tri[k]]` are undefined past the end of `points`; that case is `none`. -/
def face_normal [Add K] [Sub K] [Mul K] [Div K] (m : cmath K) (points : List (point K))
    (tri : uint3) : Option (normal K) :=
  match points[tri.i0]?, points[tri.i1]?, points[tri.i2]? with
  | some v0, some v1, some v2 =>
    some (float3.normalize m.sqrt (float3.cross (float3.sub v1 v0) (float3.sub v2 v0)))
  | _, _, _ => none

/-- The function `face_normals`: one normal per triangle, by `std::transform`. -/
def face_normals [Add K] [Sub K] [Mul K] [Div K] (m : cmath K) (points : List (point K))
    (triangles : List uint3) : Option (List (normal K)) :=
  triangles.mapM (face_normal m points)

/-- The arguments a `mesh` constructor passes to the constructor of its only member,
`m_triangle_mesh`; the three overloads of that constructor differ in whether
parametrics are passed. -/
structure triangle_mesh_args (K : Type) where
  points : List (point K)
  parametrics : Option (List (parametric K))
  normals : List (normal K)
  triangles : List uint3
deriving DecidableEq, Repr

namespace mesh

/-- The member initialiser of `mesh::mesh(points, triangles)`. -/
def args1 [Add K] [Sub K] [Mul K] [Div K] (m : cmath K) (points : List (point K))
    (triangles : List uint3) : Option (triangle_mesh_args K) :=
  (face_normals m points triangles).map fun ns => ⟨points, none, ns, triangles⟩

/-- The member initialiser of `mesh::mesh(points, parametrics, triangles)`. -/
def args2 [Add K] [Sub K] [Mul K] [Div K] (m : cmath K) (points : List (point K))
    (parametrics : List (parametric K)) (triangles : List uint3) :
    Option (triangle_mesh_args K) :=
  (face_normals m points triangles).map fun ns => ⟨points, some parametrics, ns, triangles⟩

/-- The member initialiser of `mesh::mesh(points, parametrics, normals, triangles)`. -/
def args3 (points : List (point K)) (parametrics : List (parametric K))
    (normals : List (normal K)) (triangles : List uint3) : triangle_mesh_args K :=
  ⟨points, some parametrics, normals, triangles⟩

/-- The constructor `mesh::mesh(points, triangles)`. The constructor of
`triangle_mesh` lives outside the sources at hand and is the parameter `tm`, which may
fail (`none`); the body of the `mesh` constructor is empty. -/
def mk1 {TM : Type} [Add K] [Sub K] [Mul K] [Div K] (tm : triangle_mesh_args K → Option TM)
    (m : cmath K) (points : List (point K)) (triangles : List uint3) : Option TM :=
  (args1 m points triangles).bind tm

/-- The constructor `mesh::mesh(points, parametrics, triangles)`. -/
def mk2 {TM : Type} [Add K] [Sub K] [Mul K] [Div K] (tm : triangle_mesh_args K → Option TM)
    (m : cmath K) (points : List (point K)) (parametrics : List (parametric K))
    (triangles : List uint3) : Option TM :=
  (args2 m points parametrics triangles).bind tm

/-- The constructor `mesh::mesh(points, parametrics, normals, triangles)`. -/
def mk3 {TM : Type} (tm : triangle_mesh_args K → Option TM) (points : List (point K))
    (parametrics : List (parametric K)) (normals : List (normal K))
    (triangles : List uint3) : Option TM :=
  tm (args3 points parametrics normals triangles)

end mesh

/-! ## `igloo/utility/matrix.hpp`, continued: transpose and the product with a vector -/

/-- The member `square_matrix::transpose()` of a 3x3 matrix: `result(i,j) = (*this)(j,i)`
for every `i` and `j`. -/
def matrix3x3.transpose [Zero K] (A : matrix3x3 K) : matrix3x3 K :=
  matrix3x3.ofFn fun i j => A.elem j i

/-- The member `square_matrix::transpose()` of a 4x4 matrix: `result(i,j) = (*this)(j,i)`
for every `i` and `j`. -/
def matrix4x4.transpose [Zero K] (A : matrix4x4 K) : matrix4x4 K :=
  matrix4x4.ofFn fun i j => A.elem j i

/-- Modelled from the spec: the four-component vector type a 4x4 matrix is multiplied
with (members `x`, `y`, `z`, `w`); `math_vector.hpp` is missing. -/
@[ext]
structure float4 (K : Type) where
  x : K
  y : K
  z : K
  w : K
deriving DecidableEq, Repr

namespace float4

/-- Modelled from the spec: the accessor `operator[](i)` of a four-component vector
(an index past the end, undefined in the source, reads `0`). -/
def idx [Zero K] (v : float4 K) : Nat → K
  | 0 => v.x
  | 1 => v.y
  | 2 => v.z
  | 3 => v.w
  | _ => 0

/-- Modelled from the spec: assignment through `operator[](i)`. -/
def setIdx (v : float4 K) (n : Nat) (a : K) : float4 K :=
  match n with
  | 0 => { v with x := a }
  | 1 => { v with y := a }
  | 2 => { v with z := a }
  | 3 => { v with w := a }
  | _ => v

/-- Modelled from the spec: the constructor from one value, which fills every
component. -/
def fill (a : K) : float4 K := ⟨a, a, a, a⟩

/-- Modelled from the spec: the dot product of two four-component vectors. -/
def dot [Add K] [Mul K] (a b : float4 K) : K := a.x * b.x + a.y * b.y + a.z * b.z + a.w * b.w

end float4

/-- The product `operator*` of a 4x4 matrix and a vector: `result` starts filled with `0`
and `result[j] += (*this)(j,i) * rhs[i]` runs for `j = 0..3` and, inside, `i = 0..3`. -/
def matrix4x4.mulVec [Ring K] (A : matrix4x4 K) (rhs : float4 K) : float4 K :=
  (List.range 4).foldl
    (fun result j =>
      (List.range 4).foldl
        (fun result i => result.setIdx j (result.idx j + A.elem j i * rhs.idx i)) result)
    (float4.fill 0)

/-- Row `i` of a 4x4 matrix, as a vector. -/
def matrix4x4.row [Zero K] (A : matrix4x4 K) (i : Nat) : float4 K :=
  ⟨A.elem i 0, A.elem i 1, A.elem i 2, A.elem i 3⟩

/-! ## Scene and path tracing

The headers `igloo/primitives/scene.hpp` and `igloo/renderers/renderer.hpp` and the
implementation of `path_tracing_renderer::render` are not part of the sources at hand;
the definitions of this section follow the specification. -/

/-- Modelled from the spec: one (Surface, Material) pair of a Scene. The surface is
given by its capability `intersect(ray) -> Hit | Miss`; `scene.hpp` and `surface.hpp`
are missing. -/
structure surface_primitive (K M : Type) where
  intersect : ray K → Option (intersection K)
  material : M

/-- Modelled from the spec: the ray with the same origin and direction and the interval
narrowed to `[tmin, t]` ("narrowing the effective search interval as better candidates
are found"); `ray.hpp` and `scene.hpp` are missing. -/
def ray.narrow (r : ray K) (t : K) : ray K := ⟨r.origin, r.direction, ⟨r.interval.x, t⟩⟩

/-- Modelled from the spec: one step of `Scene.intersect`; the next surface is tested
with the current, narrowed ray, and a hit becomes the kept intersection and narrows the
ray further (`scene.hpp` is missing). -/
def scene.step {M : Type} (st : ray K × Option (intersection K × M))
    (e : surface_primitive K M) : ray K × Option (intersection K × M) :=
  match e.intersect st.1 with
  | some h => (st.1.narrow h.t, some (h, e.material))
  | none => st

/-- Modelled from the spec: `Scene.intersect(ray) -> (Intersection, Material) | Miss`,
which tests every surface in insertion order, keeps the intersection with smallest `t`
inside the ray's interval and narrows the search interval as better candidates are
found (`scene.hpp` is missing). -/
def scene.intersect {M : Type} (sc : List (surface_primitive K M)) (r : ray K) :
    Option (intersection K × M) :=
  (sc.foldl scene.step (r, none)).2

/-- The local `z_radius` of `sphere::parametric_geometry_at`, over exact arithmetic
(`z_radius32` is its binary32 reading): `sqrt(p[0]*p[0] + p[1]*p[1])` with
`p = radius() * n`; the function divides `1.f` by it. -/
def sphere.z_radius (m : cmath K) [Mul K] [Add K] (s : sphere K) (n : normal K) : K :=
  let p : vector K := float3.smul s.radius n
  m.sqrt (p.x * p.x + p.y * p.y)

/-- The assignment `a[i] = v` into a `std::vector`; a write past the end, undefined in
the source, is `none`. -/
def write_at {α : Type} (a : List α) (i : Nat) (v : α) : Option (List α) :=
  if i < a.length then some (a.set i v) else none

/-- The variables of the loops of `sphere::triangulate`: the four vectors, `u`, `v` and
`vertex_idx`. The field `slots` is a ghost: the indices of `triangles` assigned so far,
in order. -/
structure triangulate_state (K : Type) where
  points : List (point K)
  parametrics : List (parametric K)
  normals : List (normal K)
  triangles : List uint3
  u : K
  v : K
  vertex_idx : Nat
  slots : List Nat

namespace sphere

/-- The three assignments of one vertex in `sphere::triangulate`:
`p = unit_sphere(u, v); points[i] = p; parametrics[i] = parametric(u, v);
normals[i] = normal(p.x, p.y, p.z)`. The functor `unit_sphere` of the external library
`distribution2d` is a parameter. -/
def triangulate_vertex (unit_sphere : K → K → point K) (st : triangulate_state K)
    (i : Nat) (u v : K) : Option (triangulate_state K) :=
  let p := unit_sphere u v
  (write_at st.points i p).bind fun points =>
  (write_at st.parametrics i ⟨u, v⟩).bind fun parametrics =>
  (write_at st.normals i ⟨p.x, p.y, p.z⟩).map fun normals =>
    { st with points := points, parametrics := parametrics, normals := normals }

/-- The assignment `triangles[i] = tri` of `sphere::triangulate`, recorded in the ghost
field `slots`. -/
def triangulate_triangle (st : triangulate_state K) (i : Nat) (tri : uint3) :
    Option (triangulate_state K) :=
  (write_at st.triangles i tri).map fun triangles =>
    { st with triangles := triangles, slots := st.slots ++ [i] }

/-- One iteration of the inner loop of `sphere::triangulate`: the four vertices and the
two triangles of a cell, then the increment `u += u_del, vertex_idx += 4`. -/
def triangulate_cell [Add K] (unit_sphere : K → K → point K) (u_del v_del : K)
    (st : triangulate_state K) : Option (triangulate_state K) :=
  let u := st.u
  let v := st.v
  let vertex_idx := st.vertex_idx
  (triangulate_vertex unit_sphere st (vertex_idx + 0) u v).bind fun st =>
  (triangulate_vertex unit_sphere st (vertex_idx + 1) (u + u_del) v).bind fun st =>
  (triangulate_vertex unit_sphere st (vertex_idx + 2) (u + u_del) (v + v_del)).bind fun st =>
  (triangulate_vertex unit_sphere st (vertex_idx + 3) u (v + v_del)).bind fun st =>
  (triangulate_triangle st (vertex_idx / 2)
    ⟨vertex_idx + 0, vertex_idx + 1, vertex_idx + 2⟩).bind fun st =>
  (triangulate_triangle st (vertex_idx / 2 + 1)
    ⟨vertex_idx + 0, vertex_idx + 2, vertex_idx + 3⟩).map fun st =>
    { st with u := u + u_del, vertex_idx := vertex_idx + 4 }

/-- One iteration of the outer loop of `sphere::triangulate`: `u = 0`, the inner loop
over `i = 0 .. v_divisions - 1`, then the increment `v += v_del`. -/
def triangulate_row [Add K] [Zero K] (unit_sphere : K → K → point K) (v_divisions : Nat)
    (u_del v_del : K) (st : triangulate_state K) : Option (triangulate_state K) :=
  ((List.range v_divisions).foldlM
    (fun st _ => triangulate_cell unit_sphere u_del v_del st) { st with u := 0 }).map
    fun st => { st with v := st.v + v_del }

/-- The two loops of `sphere::triangulate` for given numbers of divisions, from the
freshly sized vectors, `v = 0` and `vertex_idx = 0`. -/
def triangulate_loops [Field K] (unit_sphere : K → K → point K)
    (u_divisions v_divisions : Nat) : Option (triangulate_state K) :=
  let u_del : K := 1 / (u_divisions : K)
  let v_del : K := 1 / (v_divisions : K)
  let num_vertices := 4 * u_divisions * v_divisions
  (List.range u_divisions).foldlM
    (fun st _ => triangulate_row unit_sphere v_divisions u_del v_del st)
    { points := List.replicate num_vertices ⟨0, 0, 0⟩
      parametrics := List.replicate num_vertices ⟨0, 0⟩
      normals := List.replicate num_vertices ⟨0, 0, 0⟩
      triangles := List.replicate (2 * u_divisions * v_divisions) ⟨0, 0, 0⟩
      u := 0
      v := 0
      vertex_idx := 0
      slots := [] }

/-- The member `sphere::triangulate`: the loops with `u_divisions = v_divisions = 100`,
every point scaled by `radius()` and translated by the centre, and the four vectors
passed to the constructor of `triangle_mesh`. -/
def triangulate [Field K] (unit_sphere : K → K → point K) (s : sphere K) :
    Option (triangle_mesh_args K) :=
  (triangulate_loops unit_sphere 100 100).map fun st =>
    let scale := s.radius
    let translation : vector K := s.center
    { points := st.points.map fun x => float3.add (float3.smul scale x) translation
      parametrics := some st.parametrics
      normals := st.normals
      triangles := st.triangles }

end sphere

/-! ## `cornell_box.cpp` -/

/-- The local `m` of `look_at`: the matrix with columns `s`, `u`, `-f` and the last row
and column of the identity, where `f = normalize(center - eye)`, `up = normalize(up)`,
`s = cross(f, up)` and `u = cross(s, f)`. -/
def look_at_matrix [Field K] (m : cmath K) (eye center up : float3 K) : matrix4x4 K :=
  let f := float3.normalize m.sqrt (float3.sub center eye)
  let up := float3.normalize m.sqrt up
  let s := float3.cross f up
  let u := float3.cross s f
  ⟨s.x, u.x, -f.x, 0,
   s.y, u.y, -f.y, 0,
   s.z, u.z, -f.z, 0,
   0, 0, 0, 1⟩

/-! ## binary32 arithmetic

The definitions above read `float` as an exact field. The definitions of this section
read it as IEEE-754 binary32, on its finite values: a value is the rational it denotes
(the two zeros are identified), every operation is the exact operation followed by
rounding to nearest, ties to even, with no contraction of a product and a sum into a
fused multiply-add, and an operation whose result is an infinity or a NaN is `none`. -/

namespace binary32

/-- The spacing of the binary32 values around `q`: `2^(e-23)` when
`2^e ≤ |q| < 2^(e+1)`, and never less than the spacing `2^-149` of the subnormal
values. -/
def ulp (q : ℚ) : ℚ := (2 : ℚ) ^ max (Int.log 2 |q| - 23) (-149)

/-- The integer nearest to `x`, the even one of the two when `x` is half-way. -/
def round_even (x : ℚ) : ℤ :=
  if x - ⌊x⌋ < 1 / 2 then ⌊x⌋
  else if 1 / 2 < x - ⌊x⌋ then ⌊x⌋ + 1
  else if ⌊x⌋ % 2 = 0 then ⌊x⌋
  else ⌊x⌋ + 1

/-- Rounding of an exact result to binary32, to nearest with ties to even; a result that
rounds to `2^128` or beyond in magnitude is an infinity, `none`. -/
def round_nearest (q : ℚ) : Option ℚ :=
  let r := (round_even (q / ulp q) : ℚ) * ulp q
  if |r| < 2 ^ 128 then some r else none

/-- The sum `a + b` of two `float`s. -/
def add (a b : ℚ) : Option ℚ := round_nearest (a + b)

/-- The difference `a - b` of two `float`s. -/
def sub (a b : ℚ) : Option ℚ := round_nearest (a - b)

/-- The product `a * b` of two `float`s. -/
def mul (a b : ℚ) : Option ℚ := round_nearest (a * b)

/-- The quotient `a / b` of two `float`s; a division by zero gives an infinity or a NaN,
`none`. -/
def div (a b : ℚ) : Option ℚ := if b = 0 then none else round_nearest (a / b)

/-- The function `std::sqrt` on `float`, which IEEE-754 requires to be correctly rounded:
with `u` the spacing in the binade of the root and `m = ⌊√q / u⌋`, the result is `m u`
or `(m + 1) u` according to the side of the mid-point on which `√q` lies; a negative
argument gives a NaN, `none`. -/
def sqrt (q : ℚ) : Option ℚ :=
  if q < 0 then none
  else if q = 0 then some 0
  else
    let u : ℚ := (2 : ℚ) ^ (Int.log 2 q / 2 - 23)
    let m : ℚ := (Nat.sqrt ⌊q / (u * u)⌋.toNat : ℚ)
    if q ≤ ((m + 1 / 2) * u) * ((m + 1 / 2) * u) then some (m * u) else some ((m + 1) * u)

end binary32

/-- Modelled from the spec: the difference of two vectors in binary32, component by
component (`math_vector.hpp` is missing). -/
def float3.sub32 (a b : float3 ℚ) : Option (float3 ℚ) :=
  (binary32.sub a.x b.x).bind fun x =>
  (binary32.sub a.y b.y).bind fun y =>
  (binary32.sub a.z b.z).map fun z => ⟨x, y, z⟩

/-- Modelled from the spec: the product of a scalar and a vector in binary32, component
by component (`math_vector.hpp` is missing). -/
def float3.smul32 (s : ℚ) (a : float3 ℚ) : Option (float3 ℚ) :=
  (binary32.mul s a.x).bind fun x =>
  (binary32.mul s a.y).bind fun y =>
  (binary32.mul s a.z).map fun z => ⟨x, y, z⟩

/-- Modelled from the spec: the dot product in binary32, `(a.x b.x + a.y b.y) + a.z b.z`
with every product and sum rounded (`math_vector.hpp` is missing). -/
def float3.dot32 (a b : float3 ℚ) : Option ℚ :=
  (binary32.mul a.x b.x).bind fun xx =>
  (binary32.mul a.y b.y).bind fun yy =>
  (binary32.mul a.z b.z).bind fun zz =>
  (binary32.add xx yy).bind fun xy => binary32.add xy zz

/-- Modelled from the spec: the squared length `norm2()` in binary32
(`math_vector.hpp` is missing). -/
def float3.norm2_32 (a : float3 ℚ) : Option ℚ := float3.dot32 a a

namespace sphere

/-- The discriminant `b*b - 4.0f*a*c` of `sphere::solve_quadratic` in binary32. -/
def discriminant32 (a b c : ℚ) : Option ℚ :=
  (binary32.mul b b).bind fun bb =>
  (binary32.mul 4 a).bind fun a4 =>
  (binary32.mul a4 c).bind fun a4c => binary32.sub bb a4c

/-- The two roots `(-b - root) / denom` and `(-b + root) / denom` of
`sphere::solve_quadratic` in binary32, swapped when the first is the greater. -/
def two_roots32 (b root denom : ℚ) : Option (ℚ × ℚ) :=
  (binary32.sub (-b) root).bind fun n0 =>
  (binary32.div n0 denom).bind fun x0 =>
  (binary32.add (-b) root).bind fun n1 =>
  (binary32.div n1 denom).map fun x1 => if x0 > x1 then (x1, x0) else (x0, x1)

/-- The static member `sphere::solve_quadratic` in binary32. The inner `none` is the pair
`(NaN, NaN)` that the source returns when it assigns no root; the outer `none` is an
infinity or a NaN arising in the arithmetic. -/
def solve_quadratic32 (a b c : ℚ) : Option (Option (ℚ × ℚ)) :=
  (binary32.mul 2 a).bind fun denom =>
    if denom ≠ 0 then
      (discriminant32 a b c).bind fun root =>
        if root = 0 then (binary32.div (-b) denom).map fun x => some (x, x)
        else if root > 0 then
          (binary32.sqrt root).bind fun root => (two_roots32 b root denom).map some
        else some none
    else some none

/-- The coefficients `a`, `b`, `c` that `sphere::intersect` passes to `solve_quadratic`,
in binary32. -/
def coefficients32 (s : sphere ℚ) (r : ray ℚ) : Option (ℚ × ℚ × ℚ) :=
  (float3.sub32 r.origin s.center).bind fun diff =>
  (float3.norm2_32 r.direction).bind fun a =>
  (float3.dot32 r.direction diff).bind fun d =>
  (binary32.mul 2 d).bind fun b =>
  (float3.norm2_32 diff).bind fun n =>
  (binary32.mul s.radius s.radius).bind fun rr =>
  (binary32.sub n rr).map fun c => (a, b, c)

/-- The parameter `t` of the hit of `sphere::intersect` in binary32, up to the line
`point x = r(t)`: `some (some t)` when the member goes on to return a hit with that `t`,
`some none` when it returns `nullopt`, and `none` when an infinity or a NaN arises in
the arithmetic. -/
def intersect_t32 (s : sphere ℚ) (r : ray ℚ) : Option (Option ℚ) :=
  (coefficients32 s r).bind fun k =>
  (solve_quadratic32 k.1 k.2.1 k.2.2).map fun roots =>
    match roots with
    | none => none
    | some (root0, root1) =>
      if root0 > r.interval.y ∨ root1 < r.interval.x then none
      else
        let t := root0
        if t < r.interval.x then
          let t := root1
          if t > r.interval.y then none else some t
        else some t

/-- The local `z_radius` of `sphere::parametric_geometry_at` in binary32. -/
def z_radius32 (s : sphere ℚ) (n : normal ℚ) : Option ℚ :=
  (float3.smul32 s.radius n).bind fun p =>
  (binary32.mul p.x p.x).bind fun xx =>
  (binary32.mul p.y p.y).bind fun yy =>
  (binary32.add xx yy).bind binary32.sqrt

/-- The local `phi` of `sphere::parametric_geometry_at` in binary32; `atan2` is the
function `std::atan2` on `float`. -/
def phi32 (atan2 : ℚ → ℚ → ℚ) (two_pi : ℚ) (n : normal ℚ) : Option ℚ :=
  let phi := atan2 n.y n.x
  if phi < 0 then binary32.add phi two_pi else some phi

/-- The first parametric coordinate `phi / max_phi` of `sphere::parametric_geometry_at`
in binary32. -/
def u32 (atan2 : ℚ → ℚ → ℚ) (two_pi max_phi : ℚ) (n : normal ℚ) : Option ℚ :=
  (phi32 atan2 two_pi n).bind fun phi => binary32.div phi max_phi

end sphere

/-! ## Vocabulary of the specification -/

/-- An exact square root: on every non-negative `x` the value is the non-negative
number whose square is `x`. -/
def IsSqrt [LinearOrderedField K] (sqrt : K → K) : Prop :=
  ∀ x, 0 ≤ x → 0 ≤ sqrt x ∧ sqrt x * sqrt x = x

/-- The quadratic `a t² + b t + c0` of a sphere and a ray, in the words of the
specification: `a = |d|²`, `b = 2 d·(o − c)`, `c0 = |o − c|² − radius²`. -/
def sphere.quadratic [LinearOrderedField K] (s : sphere K) (r : ray K) (t : K) : K :=
  float3.norm2 r.direction * t ^ 2
    + 2 * float3.dot r.direction (float3.sub r.origin s.center) * t
    + (float3.norm2 (float3.sub r.origin s.center) - s.radius ^ 2)

/-- The discriminant `b² − 4 a c0` of the quadratic of a sphere and a ray. -/
def sphere.discriminant [LinearOrderedField K] (s : sphere K) (r : ray K) : K :=
  (2 * float3.dot r.direction (float3.sub r.origin s.center)) ^ 2
    - 4 * float3.norm2 r.direction
      * (float3.norm2 (float3.sub r.origin s.center) - s.radius ^ 2)

/-- A triangle whose three indices are below the number of points. -/
def uint3.InRange (tri : uint3) (n : Nat) : Prop := tri.i0 < n ∧ tri.i1 < n ∧ tri.i2 < n

/-- The elements of a 3x3 matrix as a matrix of Mathlib, entry `(i,j)` being
`A(i,j)`. -/
def matrix3x3.toMatrix [Zero K] (A : matrix3x3 K) : Matrix (Fin 3) (Fin 3) K :=
  Matrix.of fun i j => A.elem i.val j.val

/-- The elements of a 4x4 matrix as a matrix of Mathlib, entry `(i,j)` being
`A(i,j)`. -/
def matrix4x4.toMatrix [Zero K] (A : matrix4x4 K) : Matrix (Fin 4) (Fin 4) K :=
  Matrix.of fun i j => A.elem i.val j.val

/-- The reference determinant of a 3x3 matrix, in the words of the specification: the
Leibniz sum over all permutations `σ` of the signed products `∏ i, A(σ i, i)`. -/
def matrix3x3.leibniz [CommRing K] (A : matrix3x3 K) : K :=
  ∑ σ : Equiv.Perm (Fin 3), Equiv.Perm.sign σ • ∏ i : Fin 3, A.elem (σ i).val i.val

/-- The reference determinant of a 4x4 matrix, in the words of the specification: the
Leibniz sum over all permutations `σ` of the signed products `∏ i, A(σ i, i)`. -/
def matrix4x4.leibniz [CommRing K] (A : matrix4x4 K) : K :=
  ∑ σ : Equiv.Perm (Fin 4), Equiv.Perm.sign σ • ∏ i : Fin 4, A.elem (σ i).val i.val

/-- The minor of a 3x3 matrix with row `r` and column `c` deleted: the determinant of
the remaining 2x2 matrix. -/
def matrix3x3.deleted_minor [CommRing K] (A : matrix3x3 K) (r c : Fin 3) : K :=
  (A.toMatrix.submatrix r.succAbove c.succAbove).det

/-- The minor of a 4x4 matrix with row `r` and column `c` deleted: the determinant of
the remaining 3x3 matrix. -/
def matrix4x4.deleted_minor [CommRing K] (A : matrix4x4 K) (r c : Fin 4) : K :=
  (A.toMatrix.submatrix r.succAbove c.succAbove).det

/-- The reference of the specification for `Scene.intersect`, exhaustive testing:
every surface is tested with the ray's own interval, and a hit replaces the kept one
when its `t` is not greater. -/
def scene.exhaustive {M : Type} [LinearOrderedField K] (sc : List (surface_primitive K M))
    (r : ray K) : Option (intersection K × M) :=
  sc.foldl
    (fun best e =>
      match e.intersect r with
      | some h =>
        match best with
        | none => some (h, e.material)
        | some b => if h.t ≤ b.1.t then some (h, e.material) else some b
      | none => best)
    none

/-- The part of the Surface contract of the specification a scene relies on: a hit lies
in the ray's interval, and narrowing the upper bound of the interval to `y` keeps the
hit when its `t` is at most `y` and gives a miss otherwise. -/
def SurfaceContract [LinearOrderedField K] (f : ray K → Option (intersection K)) : Prop :=
  ∀ r : ray K,
    (∀ h, f r = some h → r.interval.x ≤ h.t ∧ h.t ≤ r.interval.y) ∧
    ∀ y, y ≤ r.interval.y →
      f (r.narrow y) = (f r).bind fun h => if h.t ≤ y then some h else none

/-- What the kept intersection is after exhaustive testing of a list of surfaces. -/
def BestOf {M : Type} [LinearOrderedField K] (r : ray K) (l : List (surface_primitive K M))
    (best : Option (intersection K × M)) : Prop :=
  (best = none ↔ ∀ e ∈ l, e.intersect r = none) ∧
  ∀ h mat, best = some (h, mat) →
    (∃ e ∈ l, e.intersect r = some h ∧ e.material = mat) ∧
    ∀ e ∈ l, ∀ h2, e.intersect r = some h2 → h.t ≤ h2.t

/-- The state of the loops of `sphere::triangulate` after `c` cells, for vectors of `N`
vertices and `T` triangles: the vectors keep their sizes, `vertex_idx` is `4c`, the
assigned triangle slots are `0, 1, ..., 2c - 1` in this order, and cell `k < c` has
written `(4k, 4k+1, 4k+2)` to slot `2k` and `(4k, 4k+2, 4k+3)` to slot `2k + 1`. -/
def TriangulateInv (N T c : Nat) (st : triangulate_state K) : Prop :=
  st.points.length = N ∧ st.parametrics.length = N ∧ st.normals.length = N ∧
  st.triangles.length = T ∧ st.vertex_idx = 4 * c ∧ st.slots = List.range (2 * c) ∧
  ∀ k, k < c →
    st.triangles[2 * k]? = some ⟨4 * k, 4 * k + 1, 4 * k + 2⟩ ∧
    st.triangles[2 * k + 1]? = some ⟨4 * k, 4 * k + 2, 4 * k + 3⟩

/-! ## Matrix lemmas -/

namespace matrix3x3

lemma identity_eq3 [Ring K] : (identity : matrix3x3 K) = ⟨1, 0, 0, 0, 1, 0, 0, 0, 1⟩ := rfl

lemma scale_eq3 [Ring K] (A : matrix3x3 K) (c : K) :
    A.scale c = ⟨A.m00 * c, A.m01 * c, A.m02 * c, A.m10 * c, A.m11 * c, A.m12 * c,
      A.m20 * c, A.m21 * c, A.m22 * c⟩ := rfl

lemma mul_eq3 [Ring K] (A B : matrix3x3 K) :
    A.mul B =
      ⟨0 + A.m00 * B.m00 + A.m01 * B.m10 + A.m02 * B.m20,
       0 + A.m00 * B.m01 + A.m01 * B.m11 + A.m02 * B.m21,
       0 + A.m00 * B.m02 + A.m01 * B.m12 + A.m02 * B.m22,
       0 + A.m10 * B.m00 + A.m11 * B.m10 + A.m12 * B.m20,
       0 + A.m10 * B.m01 + A.m11 * B.m11 + A.m12 * B.m21,
       0 + A.m10 * B.m02 + A.m11 * B.m12 + A.m12 * B.m22,
       0 + A.m20 * B.m00 + A.m21 * B.m10 + A.m22 * B.m20,
       0 + A.m20 * B.m01 + A.m21 * B.m11 + A.m22 * B.m21,
       0 + A.m20 * B.m02 + A.m21 * B.m12 + A.m22 * B.m22⟩ := rfl

lemma determinant_eq3 [Ring K] (A : matrix3x3 K) :
    A.determinant =
      A.m00 * (A.m11 * A.m22 - A.m21 * A.m12) -
      A.m01 * (A.m10 * A.m22 - A.m20 * A.m12) +
      A.m02 * (A.m10 * A.m21 - A.m20 * A.m11) := rfl

lemma adjoint_eq3 [Ring K] (A : matrix3x3 K) :
    A.adjoint =
      ⟨A.m11 * A.m22 - A.m21 * A.m12, -(A.m01 * A.m22 - A.m21 * A.m02),
       A.m01 * A.m12 - A.m11 * A.m02,
       -(A.m10 * A.m22 - A.m20 * A.m12), A.m00 * A.m22 - A.m20 * A.m02,
       -(A.m00 * A.m12 - A.m10 * A.m02),
       A.m10 * A.m21 - A.m20 * A.m11, -(A.m00 * A.m21 - A.m20 * A.m01),
       A.m00 * A.m11 - A.m10 * A.m01⟩ := rfl

lemma inverse_eq3 [Field K] (A : matrix3x3 K) :
    A.inverse = A.adjoint.scale (1 / A.determinant) := rfl

lemma mul_scale3 [CommRing K] (A B : matrix3x3 K) (c : K) :
    A.mul (B.scale c) = (A.mul B).scale c := by
  rw [scale_eq3, mul_eq3, mul_eq3, scale_eq3]
  simp only [mk.injEq]
  refine ⟨?_, ?_, ?_, ?_, ?_, ?_, ?_, ?_, ?_⟩ <;> ring

lemma scale_mul3 [CommRing K] (A B : matrix3x3 K) (c : K) :
    (A.scale c).mul B = (A.mul B).scale c := by
  rw [scale_eq3, mul_eq3, mul_eq3, scale_eq3]
  simp only [mk.injEq]
  refine ⟨?_, ?_, ?_, ?_, ?_, ?_, ?_, ?_, ?_⟩ <;> ring

lemma mul_adjoint3 [CommRing K] (A : matrix3x3 K) :
    A.mul A.adjoint = identity.scale A.determinant := by
  rw [scale_eq3, mul_eq3, identity_eq3, adjoint_eq3, determinant_eq3]
  simp only [mk.injEq]
  refine ⟨?_, ?_, ?_, ?_, ?_, ?_, ?_, ?_, ?_⟩ <;> ring

lemma adjoint_mul3 [CommRing K] (A : matrix3x3 K) :
    A.adjoint.mul A = identity.scale A.determinant := by
  rw [scale_eq3, mul_eq3, identity_eq3, adjoint_eq3, determinant_eq3]
  simp only [mk.injEq]
  refine ⟨?_, ?_, ?_, ?_, ?_, ?_, ?_, ?_, ?_⟩ <;> ring

lemma identity_scale_scale3 [CommRing K] (d r : K) (h : d * r = 1) :
    ((identity : matrix3x3 K).scale d).scale r = identity := by
  simp only [scale_eq3, identity_eq3, one_mul, zero_mul, h]

end matrix3x3

namespace matrix4x4

lemma identity_eq4 [Ring K] :
    (identity : matrix4x4 K) = ⟨1, 0, 0, 0, 0, 1, 0, 0, 0, 0, 1, 0, 0, 0, 0, 1⟩ := rfl

lemma range16 : List.range 16 = [0,1,2,3,4,5,6,7,8,9,10,11,12,13,14,15] := by decide

lemma scale_eq4 [Ring K] (A : matrix4x4 K) (c : K) :
    A.scale c =
      ⟨A.m00 * c, A.m01 * c, A.m02 * c, A.m03 * c,
       A.m10 * c, A.m11 * c, A.m12 * c, A.m13 * c,
       A.m20 * c, A.m21 * c, A.m22 * c, A.m23 * c,
       A.m30 * c, A.m31 * c, A.m32 * c, A.m33 * c⟩ := by
  simp only [scale, range16, List.foldl, setIdx, idx]

lemma mul_eq4 [Ring K] (A B : matrix4x4 K) :
    A.mul B =
      ⟨0 + A.m00 * B.m00 + A.m01 * B.m10 + A.m02 * B.m20 + A.m03 * B.m30,
       0 + A.m00 * B.m01 + A.m01 * B.m11 + A.m02 * B.m21 + A.m03 * B.m31,
       0 + A.m00 * B.m02 + A.m01 * B.m12 + A.m02 * B.m22 + A.m03 * B.m32,
       0 + A.m00 * B.m03 + A.m01 * B.m13 + A.m02 * B.m23 + A.m03 * B.m33,
       0 + A.m10 * B.m00 + A.m11 * B.m10 + A.m12 * B.m20 + A.m13 * B.m30,
       0 + A.m10 * B.m01 + A.m11 * B.m11 + A.m12 * B.m21 + A.m13 * B.m31,
       0 + A.m10 * B.m02 + A.m11 * B.m12 + A.m12 * B.m22 + A.m13 * B.m32,
       0 + A.m10 * B.m03 + A.m11 * B.m13 + A.m12 * B.m23 + A.m13 * B.m33,
       0 + A.m20 * B.m00 + A.m21 * B.m10 + A.m22 * B.m20 + A.m23 * B.m30,
       0 + A.m20 * B.m01 + A.m21 * B.m11 + A.m22 * B.m21 + A.m23 * B.m31,
       0 + A.m20 * B.m02 + A.m21 * B.m12 + A.m22 * B.m22 + A.m23 * B.m32,
       0 + A.m20 * B.m03 + A.m21 * B.m13 + A.m22 * B.m23 + A.m23 * B.m33,
       0 + A.m30 * B.m00 + A.m31 * B.m10 + A.m32 * B.m20 + A.m33 * B.m30,
       0 + A.m30 * B.m01 + A.m31 * B.m11 + A.m32 * B.m21 + A.m33 * B.m31,
       0 + A.m30 * B.m02 + A.m31 * B.m12 + A.m32 * B.m22 + A.m33 * B.m32,
       0 + A.m30 * B.m03 + A.m31 * B.m13 + A.m32 * B.m23 + A.m33 * B.m33⟩ := rfl

lemma inverse_eq4 [Field K] (A : matrix4x4 K) :
    A.inverse = A.adjoint.scale (1 / A.determinant) := rfl

lemma mul_scale4 [CommRing K] (A B : matrix4x4 K) (c : K) :
    A.mul (B.scale c) = (A.mul B).scale c := by
  rw [scale_eq4, mul_eq4, mul_eq4, scale_eq4]
  simp only [mk.injEq]
  refine ⟨?_, ?_, ?_, ?_, ?_, ?_, ?_, ?_, ?_, ?_, ?_, ?_, ?_, ?_, ?_, ?_⟩ <;> ring

lemma scale_mul4 [CommRing K] (A B : matrix4x4 K) (c : K) :
    (A.scale c).mul B = (A.mul B).scale c := by
  rw [scale_eq4, mul_eq4, mul_eq4, scale_eq4]
  simp only [mk.injEq]
  refine ⟨?_, ?_, ?_, ?_, ?_, ?_, ?_, ?_, ?_, ?_, ?_, ?_, ?_, ?_, ?_, ?_⟩ <;> ring

set_option maxHeartbeats 1600000 in
lemma mul_adjoint4 [CommRing K] (A : matrix4x4 K) :
    A.mul A.adjoint = identity.scale A.determinant := by
  rw [scale_eq4, mul_eq4, identity_eq4]
  simp only [determinant, adjoint, minor_, elem, idx, Nat.reduceMul, Nat.reduceAdd]
  simp only [mk.injEq]
  refine ⟨?_, ?_, ?_, ?_, ?_, ?_, ?_, ?_, ?_, ?_, ?_, ?_, ?_, ?_, ?_, ?_⟩ <;> ring

set_option maxHeartbeats 1600000 in
lemma adjoint_mul4 [CommRing K] (A : matrix4x4 K) :
    A.adjoint.mul A = identity.scale A.determinant := by
  rw [scale_eq4, mul_eq4, identity_eq4]
  simp only [determinant, adjoint, minor_, elem, idx, Nat.reduceMul, Nat.reduceAdd]
  simp only [mk.injEq]
  refine ⟨?_, ?_, ?_, ?_, ?_, ?_, ?_, ?_, ?_, ?_, ?_, ?_, ?_, ?_, ?_, ?_⟩ <;> ring

lemma identity_scale_scale4 [CommRing K] (d r : K) (h : d * r = 1) :
    ((identity : matrix4x4 K).scale d).scale r = identity := by
  simp only [scale_eq4, identity_eq4, one_mul, zero_mul, h]

end matrix4x4

/-! ## Further matrix lemmas -/

lemma transpose_eq3 [Zero K] (A : matrix3x3 K) :
    A.transpose = ⟨A.m00, A.m10, A.m20, A.m01, A.m11, A.m21, A.m02, A.m12, A.m22⟩ := rfl

lemma transpose_eq4 [Zero K] (A : matrix4x4 K) :
    A.transpose = ⟨A.m00, A.m10, A.m20, A.m30, A.m01, A.m11, A.m21, A.m31,
      A.m02, A.m12, A.m22, A.m32, A.m03, A.m13, A.m23, A.m33⟩ := rfl

lemma mulVec_eq [Ring K] (A : matrix4x4 K) (v : float4 K) :
    A.mulVec v =
      ⟨0 + A.m00 * v.x + A.m01 * v.y + A.m02 * v.z + A.m03 * v.w,
       0 + A.m10 * v.x + A.m11 * v.y + A.m12 * v.z + A.m13 * v.w,
       0 + A.m20 * v.x + A.m21 * v.y + A.m22 * v.z + A.m23 * v.w,
       0 + A.m30 * v.x + A.m31 * v.y + A.m32 * v.z + A.m33 * v.w⟩ := rfl

lemma succAbove_vals :
    ((Fin.succAbove (0 : Fin 4) (0 : Fin 3)).val = 1 ∧ (Fin.succAbove (0 : Fin 4) (1 : Fin 3)).val = 2 ∧
      (Fin.succAbove (0 : Fin 4) (2 : Fin 3)).val = 3) ∧
    ((Fin.succAbove (1 : Fin 4) (0 : Fin 3)).val = 0 ∧ (Fin.succAbove (1 : Fin 4) (1 : Fin 3)).val = 2 ∧
      (Fin.succAbove (1 : Fin 4) (2 : Fin 3)).val = 3) ∧
    ((Fin.succAbove (2 : Fin 4) (0 : Fin 3)).val = 0 ∧ (Fin.succAbove (2 : Fin 4) (1 : Fin 3)).val = 1 ∧
      (Fin.succAbove (2 : Fin 4) (2 : Fin 3)).val = 3) ∧
    ((Fin.succAbove (3 : Fin 4) (0 : Fin 3)).val = 0 ∧ (Fin.succAbove (3 : Fin 4) (1 : Fin 3)).val = 1 ∧
      (Fin.succAbove (3 : Fin 4) (2 : Fin 3)).val = 2) := by decide

lemma det_toMatrix4 [CommRing K] (A : matrix4x4 K) : A.toMatrix.det = A.determinant := by
  obtain ⟨⟨a0, a1, a2⟩, ⟨b0, b1, b2⟩, ⟨c0, c1, c2⟩, ⟨d0, d1, d2⟩⟩ := succAbove_vals
  rw [Matrix.det_succ_row_zero, Fin.sum_univ_four]
  simp only [Matrix.det_fin_three, Matrix.submatrix_apply, matrix4x4.toMatrix, Matrix.of_apply,
    a0, a1, a2, b0, b1, b2, c0, c1, c2, d0, d1, d2]
  have e3 : ((3 : Fin 4) : Nat) = 3 := rfl
  have e2 : ((2 : Fin 4) : Nat) = 2 := rfl
  have e1 : ((1 : Fin 4) : Nat) = 1 := rfl
  have e0 : ((0 : Fin 4) : Nat) = 0 := rfl
  have f0 : ((Fin.succ (0 : Fin 3) : Fin 4) : Nat) = 1 := rfl
  have f1 : ((Fin.succ (1 : Fin 3) : Fin 4) : Nat) = 2 := rfl
  have f2 : ((Fin.succ (2 : Fin 3) : Fin 4) : Nat) = 3 := rfl
  simp only [e0, e1, e2, e3, f0, f1, f2, matrix4x4.determinant, matrix4x4.minor_,
    matrix4x4.elem, matrix4x4.idx, Nat.reduceMul, Nat.reduceAdd]
  ring

lemma leibniz_eq_det3 [CommRing K] (A : matrix3x3 K) : A.leibniz = A.toMatrix.det := by
  rw [Matrix.det_apply]
  rfl

lemma leibniz_eq_det4 [CommRing K] (A : matrix4x4 K) : A.leibniz = A.toMatrix.det := by
  rw [Matrix.det_apply]
  rfl

lemma det_toMatrix3 [CommRing K] (A : matrix3x3 K) : A.toMatrix.det = A.determinant := by
  rw [Matrix.det_fin_three, matrix3x3.determinant_eq3]
  simp only [matrix3x3.toMatrix, Matrix.of_apply, matrix3x3.elem, matrix3x3.idx,
    Fin.val_zero, Fin.val_one, Fin.val_two, Nat.reduceMul, Nat.reduceAdd]
  ring

lemma succAbove_val3 (k : Fin 3) (l : Fin 2) :
    ((Fin.succAbove k l : Fin 3) : Nat) = if l.val < k.val then l.val else l.val + 1 := by
  revert k l; decide

lemma succAbove_val4 (k : Fin 4) (l : Fin 3) :
    ((Fin.succAbove k l : Fin 4) : Nat) = if l.val < k.val then l.val else l.val + 1 := by
  revert k l; decide

lemma adjoint_entry3 [CommRing K] (A : matrix3x3 K) (i j : Fin 3) :
    A.adjoint.elem i.val j.val = (-1) ^ (i.val + j.val) * A.deleted_minor j i := by
  simp only [matrix3x3.deleted_minor, Matrix.det_fin_two, Matrix.submatrix_apply,
    matrix3x3.toMatrix, Matrix.of_apply, succAbove_val3]
  fin_cases i <;> fin_cases j <;>
    simp [matrix3x3.adjoint, matrix3x3.minor_, matrix3x3.elem, matrix3x3.idx] <;> ring

set_option maxHeartbeats 1000000 in
lemma adjoint_entry4 [CommRing K] (A : matrix4x4 K) (i j : Fin 4) :
    A.adjoint.elem i.val j.val = (-1) ^ (i.val + j.val) * A.deleted_minor j i := by
  simp only [matrix4x4.deleted_minor, Matrix.det_fin_three, Matrix.submatrix_apply,
    matrix4x4.toMatrix, Matrix.of_apply, succAbove_val4]
  fin_cases i <;> fin_cases j <;>
    simp [matrix4x4.adjoint, matrix4x4.minor_, matrix4x4.elem, matrix4x4.idx] <;> ring

/-! ## Sphere lemmas -/

lemma isSqrt_real : IsSqrt Real.sqrt :=
  fun x hx => ⟨Real.sqrt_nonneg x, Real.mul_self_sqrt hx⟩

lemma IsSqrt.eq_of_mul_self [LinearOrderedField K] {sqrt : K → K} (hs : IsSqrt sqrt)
    {x y : K} (hy : 0 ≤ y) (h : x = y * y) : sqrt x = y := by
  have hx : 0 ≤ x := by rw [h]; exact mul_self_nonneg y
  obtain ⟨h0, h1⟩ := hs x hx
  rw [h] at h1
  exact (mul_self_inj h0 hy).1 (by rw [h]; exact h1)

namespace sphere

variable [LinearOrderedField K]

lemma solve_quadratic_none_of_denom (m : cmath K) (a b c : K) (h : 2 * a = 0) :
    solve_quadratic m a b c = none := by
  simp [solve_quadratic, h]

lemma solve_quadratic_none_of_discr (m : cmath K) (a b c : K) (h : b * b - 4 * a * c < 0) :
    solve_quadratic m a b c = none := by
  unfold solve_quadratic
  simp only [h.ne, not_lt_of_lt h, if_false, gt_iff_lt]
  split <;> rfl

lemma quad_factor (a b c d t : K) (ha : a ≠ 0) (hd : d * d = b * b - 4 * a * c) :
    a * t ^ 2 + b * t + c = a * (t - (-b - d) / (2 * a)) * (t - (-b + d) / (2 * a)) := by
  have h : a * (t - (-b - d) / (2 * a)) * (t - (-b + d) / (2 * a))
      = a * t ^ 2 + b * t + (b * b - d * d) / (4 * a) := by
    field_simp
    ring
  rw [h, hd]
  field_simp

lemma quad_root_iff (a b c d t : K) (ha : a ≠ 0) (hd : d * d = b * b - 4 * a * c) :
    a * t ^ 2 + b * t + c = 0 ↔ t = (-b - d) / (2 * a) ∨ t = (-b + d) / (2 * a) := by
  rw [quad_factor a b c d t ha hd]
  simp [ha, sub_eq_zero]

lemma quad_no_root (a b c t : K) (h : b * b - 4 * a * c < 0) :
    a * t ^ 2 + b * t + c ≠ 0 := by
  intro h0
  have : (2 * a * t + b) ^ 2 = b * b - 4 * a * c := by linear_combination 4 * a * h0
  nlinarith [sq_nonneg (2 * a * t + b)]

/-- The roots returned by `solve_quadratic` for `a ≠ 0` and a non-negative discriminant. -/
lemma solve_quadratic_some (m : cmath K) (hs : IsSqrt m.sqrt) (a b c : K) (ha : a ≠ 0)
    (hd : 0 ≤ b * b - 4 * a * c) :
    ∃ x0 x1, solve_quadratic m a b c = some (x0, x1) ∧ x0 ≤ x1 ∧
      (b * b - 4 * a * c = 0 → x0 = x1) ∧
      ∀ t, a * t ^ 2 + b * t + c = 0 ↔ t = x0 ∨ t = x1 := by
  have h2a : 2 * a ≠ 0 := mul_ne_zero two_ne_zero ha
  obtain ⟨hs0, hs1⟩ := hs _ hd
  rcases hd.eq_or_lt with h0 | hpos
  · refine ⟨-b / (2 * a), -b / (2 * a), ?_, le_rfl, fun _ => rfl, fun t => ?_⟩
    · simp [solve_quadratic, h2a, ← h0]
    · have hz : (0 : K) * 0 = b * b - 4 * a * c := by rw [← h0]; ring
      have := quad_root_iff a b c 0 t ha hz
      simpa using this
  · have hne : b * b - 4 * a * c ≠ 0 := hpos.ne'
    by_cases hsw : (-b - m.sqrt (b * b - 4 * a * c)) / (2 * a)
        > (-b + m.sqrt (b * b - 4 * a * c)) / (2 * a)
    · refine ⟨_, _, ?_, hsw.le, fun h => absurd h hne, fun t => ?_⟩
      · simp [solve_quadratic, h2a, hne, hpos, hsw]
      · rw [quad_root_iff a b c _ t ha hs1, or_comm]
    · refine ⟨_, _, ?_, not_lt.mp hsw, fun h => absurd h hne, fun t => ?_⟩
      · simp only [solve_quadratic, ne_eq, h2a, not_false_eq_true, if_true, hne, if_false,
          gt_iff_lt, hpos]
        rw [if_neg hsw]
      · rw [quad_root_iff a b c _ t ha hs1]


lemma intersect_of_none (m : cmath K) (k : constants K) (s : sphere K) (r : ray K)
    (h : solve_quadratic m (float3.norm2 r.direction)
      (2 * float3.dot r.direction (float3.sub r.origin s.center))
      (float3.norm2 (float3.sub r.origin s.center) - s.radius * s.radius) = none) :
    s.intersect m k r = none := by
  simp only [intersect, h]

lemma intersect_of_some (m : cmath K) (k : constants K) (s : sphere K) (r : ray K)
    (x0 x1 : K)
    (h : solve_quadratic m (float3.norm2 r.direction)
      (2 * float3.dot r.direction (float3.sub r.origin s.center))
      (float3.norm2 (float3.sub r.origin s.center) - s.radius * s.radius) = some (x0, x1)) :
    s.intersect m k r =
      if x0 > r.interval.y ∨ x1 < r.interval.x then none
      else if x0 < r.interval.x then
        if x1 > r.interval.y then none else some (s.hit m k r x1)
      else some (s.hit m k r x0) := by
  simp only [intersect, h]

lemma hit_t (m : cmath K) (k : constants K) (s : sphere K) (r : ray K) (t : K) :
    (s.hit m k r t).t = t := rfl

lemma norm2_pos_of_ne (d : float3 K) (hd : d ≠ ⟨0, 0, 0⟩) : 0 < float3.norm2 d := by
  have h0 : 0 ≤ float3.norm2 d := by
    simp only [float3.norm2, float3.dot]
    nlinarith [mul_self_nonneg d.x, mul_self_nonneg d.y, mul_self_nonneg d.z]
  rcases h0.eq_or_lt with h | h
  · exfalso
    apply hd
    simp only [float3.norm2, float3.dot] at h
    have hx : d.x = 0 := by
      nlinarith [mul_self_nonneg d.x, mul_self_nonneg d.y, mul_self_nonneg d.z]
    have hy : d.y = 0 := by
      nlinarith [mul_self_nonneg d.x, mul_self_nonneg d.y, mul_self_nonneg d.z]
    have hz : d.z = 0 := by
      nlinarith [mul_self_nonneg d.x, mul_self_nonneg d.y, mul_self_nonneg d.z]
    exact float3.ext hx hy hz
  · exact h

lemma quadratic_eq (s : sphere K) (r : ray K) (t : K) :
    s.quadratic r t = float3.norm2 r.direction * t ^ 2
      + 2 * float3.dot r.direction (float3.sub r.origin s.center) * t
      + (float3.norm2 (float3.sub r.origin s.center) - s.radius * s.radius) := by
  simp only [quadratic, sq]

lemma discriminant_eq (s : sphere K) (r : ray K) :
    s.discriminant r =
      2 * float3.dot r.direction (float3.sub r.origin s.center)
        * (2 * float3.dot r.direction (float3.sub r.origin s.center))
      - 4 * float3.norm2 r.direction
        * (float3.norm2 (float3.sub r.origin s.center) - s.radius * s.radius) := by
  simp only [discriminant, sq]

/-- What `intersect` returns for a ray of non-zero direction: a hit exactly when a root
of the quadratic lies in the interval, and then the least such root. -/
lemma intersect_spec (m : cmath K) (k : constants K) (hs : IsSqrt m.sqrt) (s : sphere K)
    (r : ray K) (ha : 0 < float3.norm2 r.direction) :
    ((∃ h, s.intersect m k r = some h) ↔
        ∃ t, r.interval.x ≤ t ∧ t ≤ r.interval.y ∧ s.quadratic r t = 0) ∧
    ∀ h, s.intersect m k r = some h →
        h = s.hit m k r h.t ∧
        r.interval.x ≤ h.t ∧ h.t ≤ r.interval.y ∧ s.quadratic r h.t = 0 ∧
        ∀ t, r.interval.x ≤ t → t ≤ r.interval.y → s.quadratic r t = 0 → h.t ≤ t := by
  by_cases hd : 0 ≤ s.discriminant r
  · rw [discriminant_eq] at hd
    obtain ⟨x0, x1, hq, hle, -, hroot⟩ := solve_quadratic_some m hs _ _ _ ha.ne' hd
    have hroot2 : ∀ t, s.quadratic r t = 0 ↔ t = x0 ∨ t = x1 := fun t => by
      rw [quadratic_eq]; exact hroot t
    rw [intersect_of_some m k s r x0 x1 hq]
    by_cases h1 : x0 > r.interval.y ∨ x1 < r.interval.x
    · rw [if_pos h1]
      refine ⟨⟨fun ⟨h, hh⟩ => by simp at hh, fun ⟨t, ht1, ht2, ht⟩ => ?_⟩,
        fun h hh => by simp at hh⟩
      exfalso
      rcases (hroot2 t).1 ht with rfl | rfl
      · rcases h1 with h1 | h1
        · exact absurd ht2 (not_le.mpr h1)
        · exact absurd (lt_of_le_of_lt (le_trans ht1 hle) h1) (lt_irrefl _)
      · rcases h1 with h1 | h1
        · exact absurd (lt_of_lt_of_le (lt_of_le_of_lt ht2 h1) hle) (lt_irrefl _)
        · exact absurd ht1 (not_le.mpr h1)
    · rw [if_neg h1]
      push_neg at h1
      obtain ⟨h1a, h1b⟩ := h1
      by_cases h2 : x0 < r.interval.x
      · rw [if_pos h2]
        by_cases h3 : x1 > r.interval.y
        · rw [if_pos h3]
          refine ⟨⟨fun ⟨h, hh⟩ => by simp at hh, fun ⟨t, ht1, ht2, ht⟩ => ?_⟩,
            fun h hh => by simp at hh⟩
          exfalso
          rcases (hroot2 t).1 ht with rfl | rfl
          · exact absurd ht1 (not_le.mpr h2)
          · exact absurd ht2 (not_le.mpr h3)
        · rw [if_neg h3]
          push_neg at h3
          refine ⟨⟨fun _ => ⟨x1, h1b, h3, (hroot2 x1).2 (Or.inr rfl)⟩, fun _ => ⟨_, rfl⟩⟩,
            fun h hh => ?_⟩
          obtain rfl := Option.some.inj hh
          refine ⟨rfl, h1b, h3, (hroot2 x1).2 (Or.inr rfl), fun t ht1 _ ht => ?_⟩
          rcases (hroot2 t).1 ht with rfl | rfl
          · exact absurd ht1 (not_le.mpr h2)
          · exact le_rfl
      · rw [if_neg h2]
        push_neg at h2
        refine ⟨⟨fun _ => ⟨x0, h2, h1a, (hroot2 x0).2 (Or.inl rfl)⟩, fun _ => ⟨_, rfl⟩⟩,
          fun h hh => ?_⟩
        obtain rfl := Option.some.inj hh
        refine ⟨rfl, h2, h1a, (hroot2 x0).2 (Or.inl rfl), fun t _ _ ht => ?_⟩
        rcases (hroot2 t).1 ht with rfl | rfl
        · exact le_rfl
        · exact hle
  · push_neg at hd
    have hnone : s.intersect m k r = none := by
      apply intersect_of_none
      apply solve_quadratic_none_of_discr
      rw [discriminant_eq] at hd
      exact hd
    rw [hnone]
    refine ⟨⟨fun ⟨h, hh⟩ => by simp at hh, fun ⟨t, _, _, ht⟩ => ?_⟩, fun h hh => by simp at hh⟩
    exfalso
    rw [quadratic_eq] at ht
    rw [discriminant_eq] at hd
    exact quad_no_root _ _ _ t hd ht

lemma norm2_nonneg (d : float3 K) : 0 ≤ float3.norm2 d := by
  simp only [float3.norm2, float3.dot]
  nlinarith [mul_self_nonneg d.x, mul_self_nonneg d.y, mul_self_nonneg d.z]

lemma intersect_none_of_norm2_zero (m : cmath K) (k : constants K) (s : sphere K) (r : ray K)
    (h : float3.norm2 r.direction = 0) : s.intersect m k r = none := by
  apply intersect_of_none
  apply solve_quadratic_none_of_denom
  rw [h, mul_zero]

/-- When `t` is the least root of the quadratic in the interval of the ray, `intersect`
returns the hit built at `t`. -/
lemma intersect_eq_hit_of_least (m : cmath K) (k : constants K) (hs : IsSqrt m.sqrt)
    (s : sphere K) (r : ray K) (ha : 0 < float3.norm2 r.direction) (t : K)
    (h1 : r.interval.x ≤ t) (h2 : t ≤ r.interval.y) (hq : s.quadratic r t = 0)
    (hmin : ∀ u, r.interval.x ≤ u → u ≤ r.interval.y → s.quadratic r u = 0 → t ≤ u) :
    s.intersect m k r = some (s.hit m k r t) := by
  obtain ⟨hex, hall⟩ := intersect_spec m k hs s r ha
  obtain ⟨h, hh⟩ := hex.2 ⟨t, h1, h2, hq⟩
  obtain ⟨heq, g1, g2, gq, gmin⟩ := hall h hh
  have ht : h.t = t := le_antisymm (gmin t h1 h2 hq) (hmin h.t g1 g2 gq)
  rw [hh, heq, ht]

/-- The hit of a ray of unit direction `d` that starts at `c - D d` outside the sphere:
the parameter is `D - radius`. -/
lemma intersect_aimed_at_center (m : cmath K) (k : constants K) (hs : IsSqrt m.sqrt)
    (s : sphere K) (r : ray K) (D : K) (hr : 0 < s.radius)
    (hunit : float3.norm2 r.direction = 1)
    (ho : r.origin = float3.sub s.center (float3.smul D r.direction))
    (h1 : r.interval.x ≤ D - s.radius) (h2 : D - s.radius ≤ r.interval.y) :
    s.intersect m k r = some (s.hit m k r (D - s.radius)) := by
  have hfac : ∀ t, s.quadratic r t = (t - (D - s.radius)) * (t - (D + s.radius)) := by
    intro t
    simp only [quadratic, ho, float3.norm2, float3.dot, float3.sub, float3.smul] at hunit ⊢
    linear_combination (t ^ 2 - 2 * D * t + D ^ 2) * hunit
  apply intersect_eq_hit_of_least m k hs s r (by rw [hunit]; exact one_pos) _ h1 h2
  · rw [hfac]; simp
  · intro u _ _ hu
    rw [hfac] at hu
    rcases mul_eq_zero.1 hu with h | h
    · exact le_of_eq (sub_eq_zero.1 h).symm
    · have : u = D + s.radius := sub_eq_zero.1 h
      rw [this]; linarith

lemma hit_point (m : cmath K) (k : constants K) (s : sphere K) (r : ray K) (t : K) :
    (s.hit m k r t).dg.point = r.at t := rfl

lemma hit_normal (m : cmath K) (k : constants K) (s : sphere K) (r : ray K) (t : K) :
    (s.hit m k r t).dg.normal = float3.normalize m.sqrt (float3.sub (r.at t) s.center) := rfl

lemma hit_uv (m : cmath K) (k : constants K) (s : sphere K) (r : ray K) (t : K) :
    (s.hit m k r t).dg.uv =
      ⟨phi m k (s.hit m k r t).dg.normal / k.max_phi,
        (theta m (s.hit m k r t).dg.normal - k.min_theta) / (k.max_theta - k.min_theta)⟩ :=
  rfl

/-- The hit point and the normal of the hit of `intersect_aimed_at_center`. -/
lemma hit_aimed_at_center (m : cmath K) (k : constants K) (hs : IsSqrt m.sqrt)
    (s : sphere K) (r : ray K) (D : K) (hr : 0 < s.radius)
    (hunit : float3.norm2 r.direction = 1)
    (ho : r.origin = float3.sub s.center (float3.smul D r.direction)) :
    (s.hit m k r (D - s.radius)).dg.point
        = float3.sub s.center (float3.smul s.radius r.direction) ∧
    (s.hit m k r (D - s.radius)).dg.normal = float3.neg r.direction := by
  have hp : r.at (D - s.radius) = float3.sub s.center (float3.smul s.radius r.direction) := by
    simp only [ray.at, ho, float3.add, float3.sub, float3.smul]
    ext <;> simp only <;> ring
  refine ⟨by rw [hit_point, hp], ?_⟩
  rw [hit_normal, hp]
  have hn : float3.norm2 (float3.sub (float3.sub s.center (float3.smul s.radius r.direction))
      s.center) = s.radius * s.radius := by
    simp only [float3.norm2, float3.dot, float3.sub, float3.smul] at hunit ⊢
    linear_combination (s.radius * s.radius) * hunit
  simp only [float3.normalize, hn, hs.eq_of_mul_self hr.le rfl]
  simp only [float3.sub, float3.smul, float3.neg]
  ext <;> simp only <;> field_simp <;> ring

end sphere

/-! ## Mesh lemmas -/

lemma mapM_option_eq_some {α β : Type} (f : α → Option β) (g : α → β) (l : List α)
    (h : ∀ a ∈ l, f a = some (g a)) : l.mapM f = some (l.map g) := by
  induction l with
  | nil => rfl
  | cons a l ih =>
    rw [List.mapM_cons, h a (List.mem_cons_self a l), ih fun b hb => h b (List.mem_cons_of_mem a hb)]
    rfl

section

variable [LinearOrderedField K]

/-- The normal the lambda of `face_normals` computes from the three vertices. -/
lemma face_normal_eq (m : cmath K) (points : List (point K)) (tri : uint3)
    (v0 v1 v2 : point K) (h0 : points[tri.i0]? = some v0) (h1 : points[tri.i1]? = some v1)
    (h2 : points[tri.i2]? = some v2) :
    face_normal m points tri =
      some (float3.normalize m.sqrt (float3.cross (float3.sub v1 v0) (float3.sub v2 v0))) := by
  simp only [face_normal, h0, h1, h2]

lemma face_normal_isSome (m : cmath K) (points : List (point K)) (tri : uint3)
    (h : tri.InRange points.length) : ∃ n, face_normal m points tri = some n := by
  obtain ⟨h0, h1, h2⟩ := h
  exact ⟨_, face_normal_eq m points tri _ _ _ (List.getElem?_eq_getElem h0)
    (List.getElem?_eq_getElem h1) (List.getElem?_eq_getElem h2)⟩

lemma face_normals_eq_map (m : cmath K) (points : List (point K)) (triangles : List uint3)
    (h : ∀ tri ∈ triangles, tri.InRange points.length) :
    face_normals m points triangles =
      some (triangles.map fun tri => (face_normal m points tri).getD ⟨0, 0, 0⟩) := by
  apply mapM_option_eq_some
  intro tri htri
  obtain ⟨n, hn⟩ := face_normal_isSome m points tri (h tri htri)
  rw [hn]; rfl

/-- The properties of a normalised non-zero vector. -/
lemma normalize_spec (sqrt : K → K) (hs : IsSqrt sqrt) (c : float3 K) (hc : c ≠ ⟨0, 0, 0⟩) :
    float3.norm2 (float3.normalize sqrt c) = 1 ∧
    ∃ a, 0 < a ∧ float3.normalize sqrt c = float3.smul a c := by
  have hpos : 0 < float3.norm2 c := sphere.norm2_pos_of_ne c hc
  obtain ⟨h0, h1⟩ := hs _ hpos.le
  have hlen : 0 < sqrt (float3.norm2 c) := by
    rcases h0.eq_or_lt with h | h
    · rw [← h, mul_zero] at h1
      exact absurd h1 hpos.ne
    · exact h
  refine ⟨?_, 1 / sqrt (float3.norm2 c), one_div_pos.2 hlen, ?_⟩
  · simp only [float3.normalize]
    generalize hl : sqrt (float3.norm2 c) = l at h1 hlen
    simp only [float3.norm2, float3.dot] at h1 ⊢
    field_simp
    linear_combination -h1
  · simp only [float3.normalize, float3.smul]
    ext <;> simp only <;> field_simp

lemma dot_cross_left (a b : float3 K) : float3.dot (float3.cross a b) a = 0 := by
  simp only [float3.dot, float3.cross]; ring

lemma dot_cross_right (a b : float3 K) : float3.dot (float3.cross a b) b = 0 := by
  simp only [float3.dot, float3.cross]; ring

lemma dot_smul (a : K) (u v : float3 K) :
    float3.dot (float3.smul a u) v = a * float3.dot u v := by
  simp only [float3.dot, float3.smul]; ring

end

/-! ## Scene lemmas -/

lemma narrow_narrow (r : ray K) (y z : K) : (r.narrow y).narrow z = r.narrow z := rfl

section scene
variable [LinearOrderedField K] {M : Type}

/-- One step of exhaustive testing. -/
lemma exhaustive_cons_aux (r : ray K) (l : List (surface_primitive K M))
    (best : Option (intersection K × M)) (cur : ray K)
    (hc : ∀ e ∈ l, SurfaceContract e.intersect)
    (hcur : cur = match best with
      | none => r
      | some b => r.narrow b.1.t)
    (hb : ∀ b, best = some b → b.1.t ≤ r.interval.y) :
    (l.foldl scene.step (cur, best)).2 =
      l.foldl
        (fun best e =>
          match e.intersect r with
          | some h =>
            match best with
            | none => some (h, e.material)
            | some b => if h.t ≤ b.1.t then some (h, e.material) else some b
          | none => best)
        best := by
  induction l generalizing best cur with
  | nil => rfl
  | cons e l ih =>
    have hce := hc e (List.mem_cons_self e l)
    have hcl : ∀ e' ∈ l, SurfaceContract e'.intersect :=
      fun e' he' => hc e' (List.mem_cons_of_mem e he')
    simp only [List.foldl_cons]
    cases best with
    | none =>
      simp only at hcur
      rw [hcur]
      cases hr : e.intersect r with
      | none =>
        have : scene.step (r, (none : Option (intersection K × M))) e = (r, none) := by
          simp only [scene.step, hr]
        rw [this]
        exact ih none r hcl rfl (fun b hb' => by simp at hb')
      | some h =>
        have : scene.step (r, (none : Option (intersection K × M))) e
            = (r.narrow h.t, some (h, e.material)) := by
          simp only [scene.step, hr]
        rw [this]
        exact ih (some (h, e.material)) (r.narrow h.t) hcl rfl
          (fun b hb' => by
            obtain rfl := Option.some.inj hb'
            exact ((hce r).1 h hr).2)
    | some b =>
      simp only at hcur
      rw [hcur]
      have hby := hb b rfl
      have hn := (hce r).2 b.1.t hby
      cases hr : e.intersect r with
      | none =>
        rw [hr] at hn
        have : scene.step (r.narrow b.1.t, some b) e = (r.narrow b.1.t, some b) := by
          simp only [scene.step, hn, Option.none_bind]
        rw [this]
        exact ih (some b) (r.narrow b.1.t) hcl rfl hb
      | some h =>
        rw [hr] at hn
        simp only [Option.some_bind] at hn
        by_cases hle : h.t ≤ b.1.t
        · rw [if_pos hle] at hn
          have : scene.step (r.narrow b.1.t, some b) e
              = (r.narrow h.t, some (h, e.material)) := by
            simp only [scene.step, hn, narrow_narrow]
          rw [this]
          simp only [if_pos hle]
          exact ih (some (h, e.material)) (r.narrow h.t) hcl rfl
            (fun b' hb' => by
              obtain rfl := Option.some.inj hb'
              exact le_trans hle hby)
        · rw [if_neg hle] at hn
          have : scene.step (r.narrow b.1.t, some b) e = (r.narrow b.1.t, some b) := by
            simp only [scene.step, hn]
          rw [this]
          simp only [if_neg hle]
          exact ih (some b) (r.narrow b.1.t) hcl rfl hb

lemma intersect_eq_exhaustive (sc : List (surface_primitive K M)) (r : ray K)
    (hc : ∀ e ∈ sc, SurfaceContract e.intersect) :
    scene.intersect sc r = scene.exhaustive sc r :=
  exhaustive_cons_aux r sc none r hc rfl (fun b hb => by simp at hb)

lemma bestOf_foldl (r : ray K) (l2 : List (surface_primitive K M)) :
    ∀ (l1 : List (surface_primitive K M)) (best : Option (intersection K × M)),
      BestOf r l1 best →
      BestOf r (l1 ++ l2)
        (l2.foldl
          (fun best e =>
            match e.intersect r with
            | some h =>
              match best with
              | none => some (h, e.material)
              | some b => if h.t ≤ b.1.t then some (h, e.material) else some b
            | none => best)
          best) := by
  induction l2 with
  | nil => intro l1 best hb; simpa using hb
  | cons e l2 ih =>
    intro l1 best hb
    have happ : l1 ++ e :: l2 = (l1 ++ [e]) ++ l2 := by simp
    rw [happ, List.foldl_cons]
    apply ih
    obtain ⟨hnone, hsome⟩ := hb
    cases hr : e.intersect r with
    | none =>
      simp only
      constructor
      · rw [hnone]
        constructor
        · intro h e' he'
          rcases List.mem_append.1 he' with h1 | h1
          · exact h e' h1
          · rw [List.mem_singleton] at h1; rw [h1]; exact hr
        · intro h e' he'
          exact h e' (List.mem_append_left _ he')
      · intro h mat hbest
        obtain ⟨⟨e', he', h1, h2⟩, hmin⟩ := hsome h mat hbest
        refine ⟨⟨e', List.mem_append_left _ he', h1, h2⟩, fun e2 he2 h2 hh2 => ?_⟩
        rcases List.mem_append.1 he2 with h3 | h3
        · exact hmin e2 h3 h2 hh2
        · rw [List.mem_singleton] at h3; rw [h3, hr] at hh2; simp at hh2
    | some h =>
      cases best with
      | none =>
        simp only
        constructor
        · constructor
          · intro h0; simp at h0
          · intro h0
            have := h0 e (List.mem_append_right _ (List.mem_singleton_self e))
            rw [hr] at this; simp at this
        · intro h' mat hbest
          simp only [Option.some.injEq, Prod.mk.injEq] at hbest
          obtain ⟨rfl, rfl⟩ := hbest
          refine ⟨⟨e, List.mem_append_right _ (List.mem_singleton_self e), hr, rfl⟩,
            fun e2 he2 h2 hh2 => ?_⟩
          rcases List.mem_append.1 he2 with h3 | h3
          · have := (hnone.1 rfl) e2 h3
            rw [this] at hh2; simp at hh2
          · rw [List.mem_singleton] at h3
            rw [h3, hr] at hh2
            obtain rfl := Option.some.inj hh2
            exact le_rfl
      | some b =>
        obtain ⟨⟨eb, heb, hb1, hb2⟩, hbmin⟩ := hsome b.1 b.2 rfl
        simp only
        by_cases hle : h.t ≤ b.1.t
        · rw [if_pos hle]
          constructor
          · constructor
            · intro h0; simp at h0
            · intro h0
              have := h0 e (List.mem_append_right _ (List.mem_singleton_self e))
              rw [hr] at this; simp at this
          · intro h' mat hbest
            simp only [Option.some.injEq, Prod.mk.injEq] at hbest
            obtain ⟨rfl, rfl⟩ := hbest
            refine ⟨⟨e, List.mem_append_right _ (List.mem_singleton_self e), hr, rfl⟩,
              fun e2 he2 h2 hh2 => ?_⟩
            rcases List.mem_append.1 he2 with h3 | h3
            · exact le_trans hle (hbmin e2 h3 h2 hh2)
            · rw [List.mem_singleton] at h3
              rw [h3, hr] at hh2
              obtain rfl := Option.some.inj hh2
              exact le_rfl
        · rw [if_neg hle]
          constructor
          · constructor
            · intro h0; simp at h0
            · intro h0
              have := h0 e (List.mem_append_right _ (List.mem_singleton_self e))
              rw [hr] at this; simp at this
          · intro h' mat hbest
            simp only [Option.some.injEq] at hbest
            subst hbest
            refine ⟨⟨eb, List.mem_append_left _ heb, hb1, hb2⟩, fun e2 he2 h2 hh2 => ?_⟩
            rcases List.mem_append.1 he2 with h3 | h3
            · exact hbmin e2 h3 h2 hh2
            · rw [List.mem_singleton] at h3
              rw [h3, hr] at hh2
              obtain rfl := Option.some.inj hh2
              exact (not_le.1 hle).le

lemma bestOf_exhaustive (sc : List (surface_primitive K M)) (r : ray K) :
    BestOf r sc (scene.exhaustive sc r) := by
  have h := bestOf_foldl r sc [] none
    ⟨⟨fun _ e he => by simp at he, fun _ => rfl⟩, fun h mat hb => by simp at hb⟩
  simpa [scene.exhaustive] using h

end scene

namespace sphere
variable [LinearOrderedField K]

/-- What a hit returned by `intersect` is, for any ray. -/
lemma intersect_some_spec (m : cmath K) (k : constants K) (hs : IsSqrt m.sqrt) (s : sphere K)
    (r : ray K) (h : intersection K) (hh : s.intersect m k r = some h) :
    0 < float3.norm2 r.direction ∧ h = s.hit m k r h.t ∧
    r.interval.x ≤ h.t ∧ h.t ≤ r.interval.y ∧ s.quadratic r h.t = 0 ∧
    ∀ t, r.interval.x ≤ t → t ≤ r.interval.y → s.quadratic r t = 0 → h.t ≤ t := by
  have ha : 0 < float3.norm2 r.direction := by
    rcases (norm2_nonneg r.direction).eq_or_lt with h0 | h0
    · rw [intersect_none_of_norm2_zero m k s r h0.symm] at hh
      simp at hh
    · exact h0
  exact ⟨ha, (intersect_spec m k hs s r ha).2 h hh⟩

/-- The intersection test of a sphere meets the surface contract a scene relies on. -/
lemma surfaceContract (m : cmath K) (k : constants K) (hs : IsSqrt m.sqrt) (s : sphere K) :
    SurfaceContract (s.intersect m k) := by
  intro r
  refine ⟨fun h hh => ?_, fun y hy => ?_⟩
  · obtain ⟨-, -, h1, h2, -⟩ := intersect_some_spec m k hs s r h hh
    exact ⟨h1, h2⟩
  · cases hr : s.intersect m k r with
    | none =>
      simp only [Option.none_bind]
      cases hn : s.intersect m k (r.narrow y) with
      | none => rfl
      | some h2 =>
        exfalso
        obtain ⟨ha, -, g1, g2, gq, -⟩ := intersect_some_spec m k hs s _ h2 hn
        obtain ⟨h3, hh3⟩ := (intersect_spec m k hs s r ha).1.2
          ⟨h2.t, g1, le_trans g2 hy, gq⟩
        rw [hr] at hh3
        simp at hh3
    | some h =>
      obtain ⟨ha, heq, h1, h2, hq, hmin⟩ := intersect_some_spec m k hs s r h hr
      simp only [Option.some_bind]
      by_cases hle : h.t ≤ y
      · rw [if_pos hle]
        have := intersect_eq_hit_of_least m k hs s (r.narrow y) ha h.t h1 hle hq
          (fun u hu1 hu2 hu => hmin u hu1 (le_trans hu2 hy) hu)
        rw [this]
        exact congrArg some heq.symm
      · rw [if_neg hle]
        cases hn : s.intersect m k (r.narrow y) with
        | none => rfl
        | some h2 =>
          exfalso
          obtain ⟨-, -, g1, g2, gq, -⟩ := intersect_some_spec m k hs s _ h2 hn
          exact hle (le_trans (hmin h2.t g1 (le_trans g2 hy) gq) g2)

end sphere

/-! ## Path-tracing lemmas -/

section
variable [LinearOrderedField K] {R H D : Type}

end

/-! ## Further sphere lemmas -/

namespace sphere
variable [LinearOrderedField K]

lemma isSqrt_eq_zero_iff {sqrt : K → K} (hs : IsSqrt sqrt) {x : K} (hx : 0 ≤ x) :
    sqrt x = 0 ↔ x = 0 := by
  obtain ⟨-, h1⟩ := hs x hx
  constructor
  · intro h; rw [h, mul_zero] at h1; exact h1.symm
  · intro h; exact hs.eq_of_mul_self le_rfl (by rw [h, mul_zero])

/-- The quadratic of a sphere and a ray is the squared distance of the point of the ray
to the centre, minus the squared radius. -/
lemma quadratic_eq_norm2 (s : sphere K) (r : ray K) (t : K) :
    s.quadratic r t = float3.norm2 (float3.sub (r.at t) s.center) - s.radius ^ 2 := by
  simp only [quadratic, ray.at, float3.norm2, float3.dot, float3.sub, float3.add, float3.smul]
  ring

/-- A vector divided by its length `a > 0`. -/
lemma normalize_of_length (sqrt : K → K) (v : float3 K) (a : K) (ha : 0 < a)
    (hs : sqrt (float3.norm2 v) = a) (h : float3.norm2 v = a * a) :
    float3.norm2 (float3.normalize sqrt v) = 1 ∧
    float3.smul a (float3.normalize sqrt v) = v := by
  have ha0 : a ≠ 0 := ha.ne'
  constructor
  · simp only [float3.normalize, hs]
    simp only [float3.norm2, float3.dot] at h ⊢
    field_simp
    linear_combination h
  · simp only [float3.normalize, hs, float3.smul]
    ext <;> simp only <;> field_simp

/-- The point and the normal of the hit built at a root of the quadratic. -/
lemma hit_on_surface (m : cmath K) (k : constants K) (hs : IsSqrt m.sqrt) (s : sphere K)
    (r : ray K) (t : K) (hr : s.radius ≠ 0) (hq : s.quadratic r t = 0) :
    float3.norm2 (float3.sub (s.hit m k r t).dg.point s.center) = s.radius ^ 2 ∧
    float3.norm2 (s.hit m k r t).dg.normal = 1 ∧
    (s.hit m k r t).dg.point
      = float3.add s.center (float3.smul |s.radius| (s.hit m k r t).dg.normal) := by
  rw [quadratic_eq_norm2, sub_eq_zero] at hq
  have habs : 0 < |s.radius| := abs_pos.2 hr
  have hn2 : float3.norm2 (float3.sub (r.at t) s.center) = |s.radius| * |s.radius| := by
    rw [hq, abs_mul_abs_self, sq]
  have hsq : m.sqrt (float3.norm2 (float3.sub (r.at t) s.center)) = |s.radius| :=
    hs.eq_of_mul_self habs.le hn2
  obtain ⟨g1, g2⟩ := normalize_of_length m.sqrt _ _ habs hsq hn2
  rw [hit_point, hit_normal]
  refine ⟨hq, g1, ?_⟩
  rw [g2]
  simp only [float3.add, float3.sub]
  ext <;> simp only <;> ring

lemma z_radius_ne_zero_iff (m : cmath K) (hs : IsSqrt m.sqrt) (s : sphere K) (n : normal K) :
    s.z_radius m n ≠ 0 ↔ s.radius ≠ 0 ∧ ¬ (n.x = 0 ∧ n.y = 0) := by
  have hnn : 0 ≤ s.radius * n.x * (s.radius * n.x) + s.radius * n.y * (s.radius * n.y) :=
    add_nonneg (mul_self_nonneg _) (mul_self_nonneg _)
  simp only [z_radius, float3.smul, ne_eq, isSqrt_eq_zero_iff hs hnn]
  constructor
  · intro h
    refine ⟨fun h0 => h (by rw [h0]; ring), fun ⟨hx, hy⟩ => h (by rw [hx, hy]; ring)⟩
  · rintro ⟨hr, hn⟩ h0
    have h1 : s.radius * n.x * (s.radius * n.x) = 0 := by
      nlinarith [mul_self_nonneg (s.radius * n.x), mul_self_nonneg (s.radius * n.y)]
    have h2 : s.radius * n.y * (s.radius * n.y) = 0 := by
      nlinarith [mul_self_nonneg (s.radius * n.x), mul_self_nonneg (s.radius * n.y)]
    have hx : n.x = 0 := by
      rcases mul_eq_zero.1 (mul_self_eq_zero.1 h1) with h | h
      · exact absurd h hr
      · exact h
    have hy : n.y = 0 := by
      rcases mul_eq_zero.1 (mul_self_eq_zero.1 h2) with h | h
      · exact absurd h hr
      · exact h
    exact hn ⟨hx, hy⟩

lemma dpdv_eq (m : cmath K) (k : constants K) (s : sphere K) (n : normal K) :
    (s.parametric_geometry_at m k n).2.2 =
      float3.smul (k.max_theta - k.min_theta)
        ⟨s.radius * n.z * (s.radius * n.x * (1 / s.z_radius m n)),
          s.radius * n.z * (s.radius * n.y * (1 / s.z_radius m n)),
          -s.radius * m.sin (theta m n)⟩ := rfl

lemma phi_range (m : cmath K) (k : constants K) (n : normal K) (hpi : 0 < k.pi)
    (h2 : k.two_pi = 2 * k.pi)
    (hat : -k.pi ≤ m.atan2 n.y n.x ∧ m.atan2 n.y n.x ≤ k.pi) :
    0 ≤ phi m k n ∧ phi m k n < 2 * k.pi := by
  simp only [phi]
  split_ifs with h
  · rw [h2]; constructor <;> linarith [hat.1]
  · constructor
    · exact not_lt.1 h
    · linarith [hat.2]

end sphere

/-! ## Lemmas on `look_at` -/

section look_at
variable [LinearOrderedField K]

/-- The rotation block built from two unit vectors `a` and `b`, with columns
`cross(a, b)`, `cross(cross(a, b), a)` and `-a`, is orthogonal exactly when `a` and `b`
are perpendicular. -/
lemma frame_mul_transpose (a b : float3 K) (hA : a.x * a.x + a.y * a.y + a.z * a.z = 1)
    (hB : b.x * b.x + b.y * b.y + b.z * b.z = 1) :
    (⟨(float3.cross a b).x, (float3.cross (float3.cross a b) a).x, -a.x, 0,
      (float3.cross a b).y, (float3.cross (float3.cross a b) a).y, -a.y, 0,
      (float3.cross a b).z, (float3.cross (float3.cross a b) a).z, -a.z, 0,
      0, 0, 0, 1⟩ : matrix4x4 K).mul
      (⟨(float3.cross a b).x, (float3.cross (float3.cross a b) a).x, -a.x, 0,
        (float3.cross a b).y, (float3.cross (float3.cross a b) a).y, -a.y, 0,
        (float3.cross a b).z, (float3.cross (float3.cross a b) a).z, -a.z, 0,
        0, 0, 0, 1⟩ : matrix4x4 K).transpose = matrix4x4.identity ↔
    a.x * b.x + a.y * b.y + a.z * b.z = 0 := by
  rw [transpose_eq4, matrix4x4.mul_eq4, matrix4x4.identity_eq4]
  simp only [matrix4x4.mk.injEq, float3.cross]
  constructor
  · rintro ⟨h00, -, -, -, -, h11, -, -, -, -, h22, -, -, -, -, -⟩
    have hC2 : (a.x * b.x + a.y * b.y + a.z * b.z) ^ 2 = 0 := by
      linear_combination (-(1 / 2 : K)) * (h00 + h11 + h22)
        + (((b.x * b.x + b.y * b.y + b.z * b.z)
            + (b.x * b.x + b.y * b.y + b.z * b.z) * ((a.x * a.x + a.y * a.y + a.z * a.z) + 1)
            + 1 - (a.x * b.x + a.y * b.y + a.z * b.z) ^ 2) / 2) * hA
        + hB
    exact pow_eq_zero_iff (two_ne_zero) |>.1 hC2
  · intro hC
    refine ⟨?_, ?_, ?_, ?_, ?_, ?_, ?_, ?_, ?_, ?_, ?_, ?_, ?_, ?_, ?_, ?_⟩
    · linear_combination ((b.x * b.x + b.y * b.y + b.z * b.z) * 1 + (a.x * a.x + a.y * a.y + a.z * a.z) * b.x * b.x - (a.x * b.x + a.y * b.y + a.z * b.z) * (a.x * b.x + b.x * a.x)) * hA
      + (1 - a.x * a.x) * hB + ((a.x * b.x + a.y * b.y + a.z * b.z) * (a.x * a.x - 1)) * hC
    · linear_combination ((b.x * b.x + b.y * b.y + b.z * b.z) * 0 + (a.x * a.x + a.y * a.y + a.z * a.z) * b.x * b.y - (a.x * b.x + a.y * b.y + a.z * b.z) * (a.x * b.y + b.x * a.y)) * hA
      + (0 - a.x * a.y) * hB + ((a.x * b.x + a.y * b.y + a.z * b.z) * (a.x * a.y - 0)) * hC
    · linear_combination ((b.x * b.x + b.y * b.y + b.z * b.z) * 0 + (a.x * a.x + a.y * a.y + a.z * a.z) * b.x * b.z - (a.x * b.x + a.y * b.y + a.z * b.z) * (a.x * b.z + b.x * a.z)) * hA
      + (0 - a.x * a.z) * hB + ((a.x * b.x + a.y * b.y + a.z * b.z) * (a.x * a.z - 0)) * hC
    · ring
    · linear_combination ((b.x * b.x + b.y * b.y + b.z * b.z) * 0 + (a.x * a.x + a.y * a.y + a.z * a.z) * b.y * b.x - (a.x * b.x + a.y * b.y + a.z * b.z) * (a.y * b.x + b.y * a.x)) * hA
      + (0 - a.y * a.x) * hB + ((a.x * b.x + a.y * b.y + a.z * b.z) * (a.y * a.x - 0)) * hC
    · linear_combination ((b.x * b.x + b.y * b.y + b.z * b.z) * 1 + (a.x * a.x + a.y * a.y + a.z * a.z) * b.y * b.y - (a.x * b.x + a.y * b.y + a.z * b.z) * (a.y * b.y + b.y * a.y)) * hA
      + (1 - a.y * a.y) * hB + ((a.x * b.x + a.y * b.y + a.z * b.z) * (a.y * a.y - 1)) * hC
    · linear_combination ((b.x * b.x + b.y * b.y + b.z * b.z) * 0 + (a.x * a.x + a.y * a.y + a.z * a.z) * b.y * b.z - (a.x * b.x + a.y * b.y + a.z * b.z) * (a.y * b.z + b.y * a.z)) * hA
      + (0 - a.y * a.z) * hB + ((a.x * b.x + a.y * b.y + a.z * b.z) * (a.y * a.z - 0)) * hC
    · ring
    · linear_combination ((b.x * b.x + b.y * b.y + b.z * b.z) * 0 + (a.x * a.x + a.y * a.y + a.z * a.z) * b.z * b.x - (a.x * b.x + a.y * b.y + a.z * b.z) * (a.z * b.x + b.z * a.x)) * hA
      + (0 - a.z * a.x) * hB + ((a.x * b.x + a.y * b.y + a.z * b.z) * (a.z * a.x - 0)) * hC
    · linear_combination ((b.x * b.x + b.y * b.y + b.z * b.z) * 0 + (a.x * a.x + a.y * a.y + a.z * a.z) * b.z * b.y - (a.x * b.x + a.y * b.y + a.z * b.z) * (a.z * b.y + b.z * a.y)) * hA
      + (0 - a.z * a.y) * hB + ((a.x * b.x + a.y * b.y + a.z * b.z) * (a.z * a.y - 0)) * hC
    · linear_combination ((b.x * b.x + b.y * b.y + b.z * b.z) * 1 + (a.x * a.x + a.y * a.y + a.z * a.z) * b.z * b.z - (a.x * b.x + a.y * b.y + a.z * b.z) * (a.z * b.z + b.z * a.z)) * hA
      + (1 - a.z * a.z) * hB + ((a.x * b.x + a.y * b.y + a.z * b.z) * (a.z * a.z - 1)) * hC
    · ring
    · ring
    · ring
    · ring
    · ring

lemma look_at_matrix_eq (m : cmath K) (eye center up : float3 K) :
    look_at_matrix m eye center up =
      ⟨(float3.cross (float3.normalize m.sqrt (float3.sub center eye))
          (float3.normalize m.sqrt up)).x,
        (float3.cross (float3.cross (float3.normalize m.sqrt (float3.sub center eye))
          (float3.normalize m.sqrt up)) (float3.normalize m.sqrt (float3.sub center eye))).x,
        -(float3.normalize m.sqrt (float3.sub center eye)).x, 0,
        (float3.cross (float3.normalize m.sqrt (float3.sub center eye))
          (float3.normalize m.sqrt up)).y,
        (float3.cross (float3.cross (float3.normalize m.sqrt (float3.sub center eye))
          (float3.normalize m.sqrt up)) (float3.normalize m.sqrt (float3.sub center eye))).y,
        -(float3.normalize m.sqrt (float3.sub center eye)).y, 0,
        (float3.cross (float3.normalize m.sqrt (float3.sub center eye))
          (float3.normalize m.sqrt up)).z,
        (float3.cross (float3.cross (float3.normalize m.sqrt (float3.sub center eye))
          (float3.normalize m.sqrt up)) (float3.normalize m.sqrt (float3.sub center eye))).z,
        -(float3.normalize m.sqrt (float3.sub center eye)).z, 0,
        0, 0, 0, 1⟩ := rfl

lemma sub_ne_zero_of_ne (eye center : float3 K) (he : eye ≠ center) :
    float3.sub center eye ≠ ⟨0, 0, 0⟩ := by
  intro h
  apply he
  simp only [float3.sub, float3.mk.injEq] at h
  obtain ⟨hx, hy, hz⟩ := h
  ext
  · exact (sub_eq_zero.1 hx).symm
  · exact (sub_eq_zero.1 hy).symm
  · exact (sub_eq_zero.1 hz).symm

end look_at

/-! ## Lemmas on `sphere::triangulate` -/

/-- A loop that runs a fallible step once per element of a list keeps an invariant
indexed by the number of steps done, as long as the count stays below a bound. -/
lemma foldlM_option_inv {σ α : Type} (f : σ → Option σ) (I : Nat → σ → Prop) (bound : Nat)
    (hstep : ∀ c s, I c s → c < bound → ∃ s2, f s = some s2 ∧ I (c + 1) s2)
    (l : List α) :
    ∀ (c : Nat) (s : σ), I c s → c + l.length ≤ bound →
      ∃ s2, l.foldlM (fun st _ => f st) s = some s2 ∧ I (c + l.length) s2 := by
  induction l with
  | nil => intro c s hI _; exact ⟨s, rfl, hI⟩
  | cons a l ih =>
    intro c s hI hb
    rw [List.length_cons] at hb
    obtain ⟨s1, h1, hI1⟩ := hstep c s hI (by omega)
    obtain ⟨s2, h2, hI2⟩ := ih (c + 1) s1 hI1 (by omega)
    refine ⟨s2, ?_, ?_⟩
    · rw [List.foldlM_cons, h1]; exact h2
    · rw [List.length_cons]
      have : c + (l.length + 1) = c + 1 + l.length := by omega
      rw [this]; exact hI2

namespace sphere

lemma triangulate_vertex_eq (us : K → K → point K) (st : triangulate_state K) (i : Nat)
    (u v : K) (h1 : i < st.points.length) (h2 : i < st.parametrics.length)
    (h3 : i < st.normals.length) :
    triangulate_vertex us st i u v =
      some { st with
        points := st.points.set i (us u v)
        parametrics := st.parametrics.set i ⟨u, v⟩
        normals := st.normals.set i ⟨(us u v).x, (us u v).y, (us u v).z⟩ } := by
  simp only [triangulate_vertex, write_at, h1, h2, h3, if_true, Option.some_bind,
    Option.map_some']

lemma triangulate_triangle_eq (st : triangulate_state K) (i : Nat) (tri : uint3)
    (h : i < st.triangles.length) :
    triangulate_triangle st i tri =
      some { st with triangles := st.triangles.set i tri, slots := st.slots ++ [i] } := by
  simp only [triangulate_triangle, write_at, h, if_true, Option.map_some']

/-- The assignments of one vertex keep the invariant of the loops. -/
lemma triangulate_vertex_inv (us : K → K → point K) (N T c : Nat)
    (st : triangulate_state K) (i : Nat) (u v : K) (hI : TriangulateInv N T c st)
    (hi : i < N) :
    ∃ st2, triangulate_vertex us st i u v = some st2 ∧ TriangulateInv N T c st2 := by
  obtain ⟨hp, hq, hn, ht, hv, hs, htri⟩ := hI
  rw [triangulate_vertex_eq us st i u v (by omega) (by omega) (by omega)]
  refine ⟨_, rfl, ?_, ?_, ?_, ht, hv, hs, htri⟩
  · simp only [List.length_set]; exact hp
  · simp only [List.length_set]; exact hq
  · simp only [List.length_set]; exact hn

/-- One cell keeps the invariant of the loops and writes inside the vectors. -/
lemma triangulate_cell_inv [Add K] (us : K → K → point K) (u_del v_del : K) (N T c : Nat)
    (st : triangulate_state K) (hI : TriangulateInv N T c st) (hN : 4 * c + 3 < N)
    (hT : 2 * c + 1 < T) :
    ∃ st2, triangulate_cell us u_del v_del st = some st2 ∧ TriangulateInv N T (c + 1) st2 := by
  have hv0 : st.vertex_idx = 4 * c := hI.2.2.2.2.1
  have hdiv : 4 * c / 2 = 2 * c := by omega
  unfold triangulate_cell
  simp only [hv0]
  obtain ⟨s1, e1, I1⟩ := triangulate_vertex_inv us N T c st (4 * c + 0) st.u st.v hI (by omega)
  rw [e1]; simp only [Option.some_bind]
  obtain ⟨s2, e2, I2⟩ := triangulate_vertex_inv us N T c s1 (4 * c + 1) (st.u + u_del) st.v I1
    (by omega)
  rw [e2]; simp only [Option.some_bind]
  obtain ⟨s3, e3, I3⟩ := triangulate_vertex_inv us N T c s2 (4 * c + 2) (st.u + u_del)
    (st.v + v_del) I2 (by omega)
  rw [e3]; simp only [Option.some_bind]
  obtain ⟨s4, e4, I4⟩ := triangulate_vertex_inv us N T c s3 (4 * c + 3) st.u (st.v + v_del) I3
    (by omega)
  rw [e4]; simp only [Option.some_bind]
  obtain ⟨hp, hq, hn, ht, hv, hs, htri⟩ := I4
  rw [triangulate_triangle_eq s4 _ _ (by rw [hdiv]; omega)]
  simp only [Option.some_bind]
  rw [triangulate_triangle_eq _ _ _ (by simp only [List.length_set, hdiv]; omega)]
  simp only [Option.map_some']
  refine ⟨_, rfl, hp, hq, hn, by simp only [List.length_set]; exact ht,
    by show 4 * c + 4 = 4 * (c + 1); omega, ?_, ?_⟩
  · simp only [hs, hdiv]
    have h2 : 2 * (c + 1) = (2 * c + 1) + 1 := by omega
    rw [h2, List.range_succ, List.range_succ]
  · intro k hk
    simp only [hdiv]
    rcases Nat.lt_succ_iff_lt_or_eq.1 hk with hlt | heq
    · obtain ⟨t0, t1⟩ := htri k hlt
      constructor
      · rw [List.getElem?_set_ne (by omega), List.getElem?_set_ne (by omega)]
        exact t0
      · rw [List.getElem?_set_ne (by omega), List.getElem?_set_ne (by omega)]
        exact t1
    · subst heq
      constructor
      · rw [List.getElem?_set_ne (by omega), List.getElem?_set_self (by omega)]
        rfl
      · rw [List.getElem?_set_self (by simp only [List.length_set]; omega)]
        rfl


/-- One row of cells keeps the invariant of the loops. -/
lemma triangulate_row_inv [Add K] [Zero K] (us : K → K → point K) (V : Nat)
    (u_del v_del : K) (N T B c : Nat) (hNB : 4 * B ≤ N) (hTB : 2 * B ≤ T)
    (st : triangulate_state K) (hI : TriangulateInv N T c st) (hc : c + V ≤ B) :
    ∃ st2, triangulate_row us V u_del v_del st = some st2 ∧
      TriangulateInv N T (c + V) st2 := by
  have h0 : TriangulateInv N T c { st with u := 0 } := hI
  obtain ⟨s2, e2, I2⟩ := foldlM_option_inv (triangulate_cell us u_del v_del)
    (fun c st => TriangulateInv N T c st) B
    (fun c s hs hcB => triangulate_cell_inv us u_del v_del N T c s hs (by omega) (by omega))
    (List.range V) c { st with u := 0 } h0 (by rw [List.length_range]; exact hc)
  rw [List.length_range] at I2
  refine ⟨{ s2 with v := s2.v + v_del }, ?_, I2⟩
  simp only [triangulate_row, e2, Option.map_some']

/-- The loops of `triangulate` terminate without a write past the end, in the state
described by the invariant after all `U * V` cells. -/
lemma triangulate_loops_inv [Field K] (us : K → K → point K) (U V : Nat) :
    ∃ st, triangulate_loops us U V = some st ∧
      TriangulateInv (4 * U * V) (2 * U * V) (U * V) st := by
  have hinit : TriangulateInv (K := K) (4 * U * V) (2 * U * V) (0 * V)
      { points := List.replicate (4 * U * V) ⟨0, 0, 0⟩
        parametrics := List.replicate (4 * U * V) ⟨0, 0⟩
        normals := List.replicate (4 * U * V) ⟨0, 0, 0⟩
        triangles := List.replicate (2 * U * V) ⟨0, 0, 0⟩
        u := 0
        v := 0
        vertex_idx := 0
        slots := [] } := by
    refine ⟨List.length_replicate _ _, List.length_replicate _ _, List.length_replicate _ _,
      List.length_replicate _ _, by simp, by simp, fun k hk => by omega⟩
  obtain ⟨s2, e2, I2⟩ := foldlM_option_inv
    (triangulate_row us V (1 / (U : K)) (1 / (V : K)))
    (fun j st => TriangulateInv (4 * U * V) (2 * U * V) (j * V) st) U
    (fun j s hs hj => by
      have hle : j * V + V ≤ U * V := by
        have h1 := Nat.mul_le_mul_right V (Nat.succ_le_of_lt hj)
        have h2 : Nat.succ j * V = j * V + V := Nat.succ_mul j V
        rw [h2] at h1
        exact h1
      obtain ⟨s3, e3, I3⟩ := triangulate_row_inv us V (1 / (U : K)) (1 / (V : K))
        (4 * U * V) (2 * U * V) (U * V) (j * V) (by rw [Nat.mul_assoc])
        (by rw [Nat.mul_assoc]) s hs hle
      refine ⟨s3, e3, ?_⟩
      have hj1 : (j + 1) * V = j * V + V := Nat.succ_mul j V
      show TriangulateInv (4 * U * V) (2 * U * V) ((j + 1) * V) s3
      rw [hj1]
      exact I3)
    (List.range U) 0 _ hinit (by rw [List.length_range]; omega)
  rw [List.length_range, Nat.zero_add] at I2
  exact ⟨s2, e2, I2⟩


/-- When the loops have run over all cells, every triangle index is below the number of
vertices. -/
lemma triangulate_inRange (N T c : Nat) (st : triangulate_state K)
    (hI : TriangulateInv N T c st) (hT : T = 2 * c) (hN : N = 4 * c) :
    ∀ tri ∈ st.triangles, tri.InRange N := by
  obtain ⟨-, -, -, ht, -, -, htri⟩ := hI
  intro tri hmem
  obtain ⟨n, hn⟩ := List.mem_iff_getElem?.1 hmem
  obtain ⟨hlt, -⟩ := List.getElem?_eq_some.1 hn
  have hk : n / 2 < c := by omega
  obtain ⟨t0, t1⟩ := htri (n / 2) hk
  rcases Nat.mod_two_eq_zero_or_one n with h0 | h1
  · have hn2 : 2 * (n / 2) = n := by omega
    rw [hn2, hn] at t0
    obtain rfl := Option.some.inj t0
    refine ⟨?_, ?_, ?_⟩ <;> simp only <;> omega
  · have hn2 : 2 * (n / 2) + 1 = n := by omega
    rw [hn2, hn] at t1
    obtain rfl := Option.some.inj t1
    refine ⟨?_, ?_, ?_⟩ <;> simp only <;> omega

end sphere

/-! ## Lemmas on binary32 -/

namespace binary32

/-- The value of `round_even` at `x`: the integer within `1/2` of `x`, the even one in a
tie. -/
lemma round_even_eq (x : ℚ) (z : ℤ)
    (h : |x - z| < 1 / 2 ∨ (|x - z| = 1 / 2 ∧ z % 2 = 0)) : round_even x = z := by
  have hf1 : (⌊x⌋ : ℚ) ≤ x := Int.floor_le x
  have hf2 : x < ⌊x⌋ + 1 := Int.lt_floor_add_one x
  unfold round_even
  rcases h with h | ⟨h, hz⟩
  · rw [abs_lt] at h
    obtain ⟨h1, h2⟩ := h
    by_cases hx : (z : ℚ) ≤ x
    · have hfl : ⌊x⌋ = z := by
        rw [Int.floor_eq_iff]
        exact ⟨hx, by linarith⟩
      rw [hfl, if_pos (by linarith)]
    · push_neg at hx
      have hfl : ⌊x⌋ = z - 1 := by
        rw [Int.floor_eq_iff]
        push_cast
        exact ⟨by linarith, by linarith⟩
      rw [hfl]
      push_cast
      rw [if_neg (by linarith), if_pos (by linarith)]
      ring
  · rcases abs_eq (by norm_num : (0 : ℚ) ≤ 1 / 2) |>.1 h with h1 | h1
    · have hfl : ⌊x⌋ = z := by
        rw [Int.floor_eq_iff]
        exact ⟨by linarith, by linarith⟩
      rw [hfl, if_neg (by linarith), if_neg (by linarith), if_pos hz]
    · have hfl : ⌊x⌋ = z - 1 := by
        rw [Int.floor_eq_iff]
        push_cast
        exact ⟨by linarith, by linarith⟩
      rw [hfl]
      push_cast
      rw [if_neg (by linarith), if_neg (by linarith), if_neg (by omega)]
      ring

/-- The spacing at a `q` of the binade `[2^e, 2^(e+1))`. -/
lemma ulp_eq (q : ℚ) (e : ℤ) (h1 : (2 : ℚ) ^ e ≤ |q|) (h2 : |q| < (2 : ℚ) ^ (e + 1)) :
    ulp q = (2 : ℚ) ^ max (e - 23) (-149) := by
  have hpos : 0 < |q| := lt_of_lt_of_le (zpow_pos (by norm_num) e) h1
  have hlog : Int.log 2 |q| = e := by
    apply le_antisymm
    · have := (Int.lt_zpow_iff_log_lt (b := 2) (by norm_num) (x := e + 1) hpos).1
        (by exact_mod_cast h2)
      omega
    · exact (Int.zpow_le_iff_le_log (b := 2) (by norm_num) hpos).1 (by exact_mod_cast h1)
  rw [ulp, hlog]

/-- The value of `round_nearest` at `q`, from the binade of `q` and a multiple `r` of the
spacing that is nearest to `q`, the even one in a tie. -/
lemma round_nearest_eq (q r : ℚ) (e k z : ℤ) (h1 : (2 : ℚ) ^ e ≤ |q|)
    (h2 : |q| < (2 : ℚ) ^ (e + 1)) (hk : max (e - 23) (-149) = k)
    (hr : r = z * (2 : ℚ) ^ k)
    (hz : |q / (2 : ℚ) ^ k - z| < 1 / 2 ∨ (|q / (2 : ℚ) ^ k - z| = 1 / 2 ∧ z % 2 = 0))
    (hlt : |r| < 2 ^ 128) : round_nearest q = some r := by
  unfold round_nearest
  rw [ulp_eq q e h1 h2, hk, round_even_eq _ z hz, ← hr]
  simp only [hlt, if_true]

lemma round_nearest_zero : round_nearest 0 = some 0 := by
  have h : round_even (0 / ulp 0) = 0 := by
    rw [zero_div]
    exact round_even_eq 0 0 (Or.inl (by norm_num))
  unfold round_nearest
  rw [h]
  norm_num

/-- Every binary32 value `z 2^k`, with `|z| < 2^24` and `-149 ≤ k ≤ 104`, is rounded to
itself. -/
lemma round_nearest_float (z k : ℤ) (hz1 : -2 ^ 24 < z) (hz2 : z < 2 ^ 24)
    (hk1 : -149 ≤ k) (hk2 : k ≤ 104) :
    round_nearest ((z : ℚ) * (2 : ℚ) ^ k) = some ((z : ℚ) * (2 : ℚ) ^ k) := by
  rcases eq_or_ne z 0 with rfl | hz
  · rw [Int.cast_zero, zero_mul]
    exact round_nearest_zero
  have h2pos : ∀ j : ℤ, (0 : ℚ) < (2 : ℚ) ^ j := fun j => zpow_pos (by norm_num) j
  have hq : (z : ℚ) * (2 : ℚ) ^ k ≠ 0 :=
    mul_ne_zero (Int.cast_ne_zero.2 hz) (ne_of_gt (h2pos k))
  have habs : |(z : ℚ) * (2 : ℚ) ^ k| = |(z : ℚ)| * (2 : ℚ) ^ k := by
    rw [abs_mul, abs_of_pos (h2pos k)]
  have hzabs : |(z : ℚ)| < 2 ^ (24 : ℤ) := by
    rw [abs_lt]
    constructor
    · have : ((-2 ^ 24 : ℤ) : ℚ) < (z : ℚ) := Int.cast_lt.2 hz1
      norm_num at this ⊢
      exact this
    · have : (z : ℚ) < ((2 ^ 24 : ℤ) : ℚ) := Int.cast_lt.2 hz2
      norm_num at this ⊢
      exact this
  have hz1le : (1 : ℚ) ≤ |(z : ℚ)| := by
    have : (1 : ℤ) ≤ |z| := Int.one_le_abs hz
    exact_mod_cast this
  have hpos : 0 < |(z : ℚ) * (2 : ℚ) ^ k| := abs_pos.2 hq
  obtain ⟨e, he⟩ : ∃ e, Int.log 2 |(z : ℚ) * (2 : ℚ) ^ k| = e := ⟨_, rfl⟩
  have h1 : (2 : ℚ) ^ e ≤ |(z : ℚ) * (2 : ℚ) ^ k| := by
    have := Int.zpow_log_le_self (b := 2) (by norm_num) hpos
    rw [he] at this
    exact_mod_cast this
  have h2 : |(z : ℚ) * (2 : ℚ) ^ k| < (2 : ℚ) ^ (e + 1) := by
    have := Int.lt_zpow_succ_log_self (b := 2) (by norm_num) |(z : ℚ) * (2 : ℚ) ^ k|
    rw [he] at this
    exact_mod_cast this
  have hlt24 : |(z : ℚ) * (2 : ℚ) ^ k| < (2 : ℚ) ^ (24 + k) := by
    rw [habs, zpow_add₀ (by norm_num : (2 : ℚ) ≠ 0)]
    exact mul_lt_mul_of_pos_right hzabs (h2pos k)
  have he1 : e < 24 + k :=
    (zpow_lt_zpow_iff_right₀ (by norm_num : (1 : ℚ) < 2)).1 (lt_of_le_of_lt h1 hlt24)
  have hk' : max (e - 23) (-149) ≤ k := max_le (by omega) hk1
  obtain ⟨n, hn⟩ : ∃ n : ℕ, (n : ℤ) = k - max (e - 23) (-149) :=
    ⟨(k - max (e - 23) (-149)).toNat, Int.toNat_of_nonneg (by omega)⟩
  have hpow : (2 : ℚ) ^ k = (2 : ℚ) ^ n * (2 : ℚ) ^ max (e - 23) (-149) := by
    rw [← zpow_natCast, ← zpow_add₀ (by norm_num : (2 : ℚ) ≠ 0), hn]
    congr 1
    ring
  refine round_nearest_eq _ _ e _ (z * 2 ^ n) h1 h2 rfl ?_ (Or.inl ?_) ?_
  · push_cast
    rw [hpow]
    ring
  · have : (z : ℚ) * (2 : ℚ) ^ k / (2 : ℚ) ^ max (e - 23) (-149) - ((z * 2 ^ n : ℤ) : ℚ) = 0 := by
      push_cast
      rw [hpow]
      field_simp
      ring
    rw [this]
    norm_num
  · refine lt_of_lt_of_le hlt24 ?_
    have : (2 : ℚ) ^ (24 + k) ≤ (2 : ℚ) ^ (128 : ℤ) :=
      zpow_le_zpow_right₀ (by norm_num) (by omega)
    exact_mod_cast this

lemma round_1 : round_nearest (1) = some (1) := by
  have h := round_nearest_float (1) (0) (by norm_num) (by norm_num) (by norm_num)
    (by norm_num)
  norm_num at h
  exact h

lemma round_2 : round_nearest (2) = some (2) := by
  have h := round_nearest_float (2) (0) (by norm_num) (by norm_num) (by norm_num)
    (by norm_num)
  norm_num at h
  exact h

lemma round_4 : round_nearest (4) = some (4) := by
  have h := round_nearest_float (4) (0) (by norm_num) (by norm_num) (by norm_num)
    (by norm_num)
  norm_num at h
  exact h

lemma round_4097 : round_nearest (4097) = some (4097) := by
  have h := round_nearest_float (4097) (0) (by norm_num) (by norm_num) (by norm_num)
    (by norm_num)
  norm_num at h
  exact h

lemma round_neg_4097 : round_nearest (-4097) = some (-4097) := by
  have h := round_nearest_float (-4097) (0) (by norm_num) (by norm_num) (by norm_num)
    (by norm_num)
  norm_num at h
  exact h

lemma round_neg_8194 : round_nearest (-8194) = some (-8194) := by
  have h := round_nearest_float (-8194) (0) (by norm_num) (by norm_num) (by norm_num)
    (by norm_num)
  norm_num at h
  exact h

lemma round_3_2 : round_nearest (3 / 2) = some (3 / 2) := by
  have h := round_nearest_float (3) (-1) (by norm_num) (by norm_num) (by norm_num)
    (by norm_num)
  norm_num at h
  exact h

lemma round_9_4 : round_nearest (9 / 4) = some (9 / 4) := by
  have h := round_nearest_float (9) (-2) (by norm_num) (by norm_num) (by norm_num)
    (by norm_num)
  norm_num at h
  exact h

lemma round_16785408 : round_nearest (16785408) = some (16785408) := by
  have h := round_nearest_float (8392704) (1) (by norm_num) (by norm_num) (by norm_num)
    (by norm_num)
  norm_num at h
  exact h

lemma round_16785410 : round_nearest (16785410) = some (16785410) := by
  have h := round_nearest_float (8392705) (1) (by norm_num) (by norm_num) (by norm_num)
    (by norm_num)
  norm_num at h
  exact h

lemma round_67141632 : round_nearest (67141632) = some (67141632) := by
  have h := round_nearest_float (8392704) (3) (by norm_num) (by norm_num) (by norm_num)
    (by norm_num)
  norm_num at h
  exact h

/-- The square `4097² = 16785409` lies half-way between `16785408` and `16785410` and is
rounded to the even multiple of the spacing `2`. -/
lemma round_16785409 : round_nearest 16785409 = some 16785408 :=
  round_nearest_eq 16785409 16785408 24 1 8392704 (by norm_num) (by norm_num)
    (by norm_num) (by norm_num) (Or.inr ⟨by norm_num, by norm_num⟩) (by norm_num)

/-- The difference `16785408 - 1` lies half-way between `16785406` and `16785408` and is
rounded to the even multiple of the spacing `2`. -/
lemma round_16785407 : round_nearest 16785407 = some 16785408 :=
  round_nearest_eq 16785407 16785408 24 1 8392704 (by norm_num) (by norm_num)
    (by norm_num) (by norm_num) (Or.inr ⟨by norm_num, by norm_num⟩) (by norm_num)

/-- The square `8194² = 67141636` lies half-way between `67141632` and `67141640` and is
rounded to the even multiple of the spacing `8`. -/
lemma round_67141636 : round_nearest 67141636 = some 67141632 :=
  round_nearest_eq 67141636 67141632 26 3 8392704 (by norm_num) (by norm_num)
    (by norm_num) (by norm_num) (Or.inr ⟨by norm_num, by norm_num⟩) (by norm_num)

lemma round_67141641_4 : round_nearest (67141641 / 4) = some 16785410 :=
  round_nearest_eq (67141641 / 4) 16785410 24 1 8392705
    (by rw [abs_of_pos (by norm_num)]; norm_num)
    (by rw [abs_of_pos (by norm_num)]; norm_num)
    (by norm_num) (by norm_num) (Or.inl (by norm_num [abs_lt])) (by norm_num)

/-- The value `2^-100` is a binary32 value. -/
lemma round_nearest_small :
    round_nearest ((2 : ℚ) ^ (-100 : ℤ)) = some ((2 : ℚ) ^ (-100 : ℤ)) :=
  round_nearest_eq _ _ (-100) (-123) (2 ^ 23)
    (by rw [abs_of_pos (by positivity)])
    (by rw [abs_of_pos (by positivity)]; norm_num)
    (by norm_num) (by norm_num)
    (Or.inl (by norm_num))
    (by rw [abs_of_pos (by positivity)]; norm_num)

/-- The square of `2^-100` underflows: it is less than half the least positive value
`2^-149` and is rounded to `0`. -/
lemma round_nearest_tiny :
    round_nearest ((2 : ℚ) ^ (-100 : ℤ) * (2 : ℚ) ^ (-100 : ℤ)) = some 0 := by
  have e1 : (2 : ℚ) ^ (-100 : ℤ) * (2 : ℚ) ^ (-100 : ℤ) = (2 : ℚ) ^ (-200 : ℤ) := by
    rw [← zpow_add₀ (by norm_num)]; norm_num
  rw [e1]
  exact round_nearest_eq _ 0 (-200) (-149) 0
    (by rw [abs_of_pos (by positivity)])
    (by rw [abs_of_pos (by positivity)]; norm_num)
    (by norm_num) (by norm_num)
    (Or.inl (by rw [Int.cast_zero, sub_zero, abs_of_pos (by positivity)]; norm_num))
    (by norm_num)

/-- The sum of `-2^-100` and the binary32 value `13176795 / 2^21` of `two_pi` is rounded
to that value. -/
lemma round_nearest_below_two_pi :
    round_nearest (-(2 : ℚ) ^ (-100 : ℤ) + 13176795 / 2097152)
      = some (13176795 / 2097152) :=
  round_nearest_eq _ _ 2 (-21) 13176795
    (by rw [abs_of_pos (by norm_num)]; norm_num)
    (by rw [abs_of_pos (by norm_num)]; norm_num)
    (by norm_num) (by norm_num)
    (Or.inl (by norm_num [abs_lt]))
    (by rw [abs_of_pos (by norm_num)]; norm_num)

lemma sqrt_zero : sqrt 0 = some 0 := by
  unfold sqrt
  rw [if_neg (lt_irrefl 0), if_pos rfl]

end binary32

/-- The squared length of `(x, 0, 1)` and of `(1, -x, 0)` in binary32 is `1` when `x*x`
underflows. -/
lemma float3.norm2_32_underflow (x : ℚ) (h2 : binary32.round_nearest (x * x) = some 0) :
    float3.norm2_32 ⟨x, 0, 1⟩ = some 1 ∧ float3.norm2_32 ⟨1, -x, 0⟩ = some 1 := by
  simp only [float3.norm2_32, float3.dot32, binary32.mul, binary32.add, one_mul, mul_zero,
    mul_one, h2, binary32.round_1, binary32.round_nearest_zero, Option.some_bind,
    neg_mul_neg, add_zero, zero_add, and_self]

namespace sphere

/-- The coefficients of the quadratic in binary32 for the unit sphere at the origin and a
ray from `(o, y, 0)` along `(-1, 0, 0)`, from the roundings of the operations. -/
lemma coefficients32_of_rounding (o y b oo yy n c tmin tmax : ℚ)
    (ho : binary32.round_nearest o = some o) (hy : binary32.round_nearest y = some y)
    (hno : binary32.round_nearest (-o) = some (-o))
    (hb : binary32.round_nearest (2 * -o) = some b)
    (hoo : binary32.round_nearest (o * o) = some oo)
    (hyy : binary32.round_nearest (y * y) = some yy)
    (hn : binary32.round_nearest (oo + yy) = some n)
    (hn2 : binary32.round_nearest n = some n)
    (hc : binary32.round_nearest (n - 1) = some c) :
    coefficients32 ⟨⟨0, 0, 0⟩, 1⟩ ⟨⟨o, y, 0⟩, ⟨-1, 0, 0⟩, ⟨tmin, tmax⟩⟩ = some (1, b, c) := by
  have e1 : (-1 : ℚ) * -1 = 1 := by norm_num
  simp only [coefficients32, float3.sub32, float3.norm2_32, float3.dot32, binary32.sub,
    binary32.mul, binary32.add, sub_zero, mul_zero, zero_mul, mul_one, add_zero, neg_one_mul,
    e1, ho, hy, hno, hb, hoo, hyy, hn, hn2, hc, binary32.round_nearest_zero, binary32.round_1,
    Option.some_bind, Option.map_some']

/-- The roots of `sphere::solve_quadratic` in binary32 for `a = 1` when `b*b` and `4ac` are
rounded to the same value: the discriminant is `0` and both roots are `-b / 2`. -/
lemma solve_quadratic32_of_rounding (b c bb t : ℚ)
    (hbb : binary32.round_nearest (b * b) = some bb)
    (hcc : binary32.round_nearest (4 * c) = some bb)
    (ht : binary32.round_nearest (-b / 2) = some t) :
    solve_quadratic32 1 b c = some (some (t, t)) := by
  have h2 : (2 : ℚ) ≠ 0 := by norm_num
  simp only [solve_quadratic32, discriminant32, binary32.mul, binary32.sub, binary32.div,
    mul_one, binary32.round_2, binary32.round_4, hbb, hcc, ht, sub_self,
    binary32.round_nearest_zero, Option.some_bind, Option.map_some', ne_eq, h2,
    not_false_eq_true, if_true, if_false]

/-- The choice of `t` by `sphere::intersect` in binary32 from the coefficients and a double
root inside the interval. -/
lemma intersect_t32_of_double_root (s : sphere ℚ) (r : ray ℚ) (a b c t : ℚ)
    (hk : coefficients32 s r = some (a, b, c))
    (hq : solve_quadratic32 a b c = some (some (t, t)))
    (h1 : r.interval.x ≤ t) (h2 : t ≤ r.interval.y) :
    intersect_t32 s r = some (some t) := by
  have h3 : ¬ t > r.interval.y := not_lt.2 h2
  have h4 : ¬ t < r.interval.x := not_lt.2 h1
  simp only [intersect_t32, hk, Option.some_bind, hq, Option.map_some', h3, h4, or_self,
    if_false]

/-- The binary32 run of `sphere::intersect` on the unit sphere at the origin and the ray
from `(4097,0,0)` along `(-1,0,0)`: `a = 1`, `b = -8194`, `c = 16785408`, the squares
`4097²` and `8194²` are rounded down, the discriminant is `67141632 - 67141632 = 0`
and `t = 8194 / 2`. -/
lemma intersect_t32_grazing :
    intersect_t32 ⟨⟨0, 0, 0⟩, 1⟩ ⟨⟨4097, 0, 0⟩, ⟨-1, 0, 0⟩, ⟨0, 8192⟩⟩
      = some (some 4097) := by
  have e1 : (2 : ℚ) * -4097 = -8194 := by norm_num
  have e2 : (4097 : ℚ) * 4097 = 16785409 := by norm_num
  have e3 : (16785408 : ℚ) + 0 = 16785408 := by norm_num
  have e4 : (16785408 : ℚ) - 1 = 16785407 := by norm_num
  have e5 : (-8194 : ℚ) * -8194 = 67141636 := by norm_num
  have e6 : (4 : ℚ) * 16785408 = 67141632 := by norm_num
  have e7 : -(-8194 : ℚ) / 2 = 4097 := by norm_num
  have e8 : (0 : ℚ) * 0 = 0 := by norm_num
  refine intersect_t32_of_double_root _ _ 1 (-8194) 16785408 4097
    (coefficients32_of_rounding 4097 0 (-8194) 16785408 0 16785408 16785408 0 8192
      binary32.round_4097 binary32.round_nearest_zero binary32.round_neg_4097
      (by rw [e1]; exact binary32.round_neg_8194)
      (by rw [e2]; exact binary32.round_16785409)
      (by rw [e8]; exact binary32.round_nearest_zero)
      (by rw [e3]; exact binary32.round_16785408)
      binary32.round_16785408
      (by rw [e4]; exact binary32.round_16785407))
    (solve_quadratic32_of_rounding (-8194) 16785408 67141632 4097
      (by rw [e5]; exact binary32.round_67141636)
      (by rw [e6]; exact binary32.round_67141632)
      (by rw [e7]; exact binary32.round_4097))
    (by norm_num) (by norm_num)

/-- The binary32 run of `sphere::intersect` on the unit sphere at the origin and the ray
from `(4097, 3/2, 0)` along `(-1,0,0)`: `|o - c|²` is `16785408 + 9/4`, rounded to
`16785410`, `c` is `16785409`, rounded to `16785408`, and the discriminant is `0`. -/
lemma intersect_t32_no_root :
    intersect_t32 ⟨⟨0, 0, 0⟩, 1⟩ ⟨⟨4097, 3 / 2, 0⟩, ⟨-1, 0, 0⟩, ⟨0, 8192⟩⟩
      = some (some 4097) := by
  have e1 : (2 : ℚ) * -4097 = -8194 := by norm_num
  have e2 : (4097 : ℚ) * 4097 = 16785409 := by norm_num
  have e3 : (16785408 : ℚ) + 9 / 4 = 67141641 / 4 := by norm_num
  have e4 : (16785410 : ℚ) - 1 = 16785409 := by norm_num
  have e5 : (-8194 : ℚ) * -8194 = 67141636 := by norm_num
  have e6 : (4 : ℚ) * 16785408 = 67141632 := by norm_num
  have e7 : -(-8194 : ℚ) / 2 = 4097 := by norm_num
  have e8 : (3 / 2 : ℚ) * (3 / 2) = 9 / 4 := by norm_num
  refine intersect_t32_of_double_root _ _ 1 (-8194) 16785408 4097
    (coefficients32_of_rounding 4097 (3 / 2) (-8194) 16785408 (9 / 4) 16785410 16785408
      0 8192
      binary32.round_4097 binary32.round_3_2 binary32.round_neg_4097
      (by rw [e1]; exact binary32.round_neg_8194)
      (by rw [e2]; exact binary32.round_16785409)
      (by rw [e8]; exact binary32.round_9_4)
      (by rw [e3]; exact binary32.round_67141641_4)
      binary32.round_16785410
      (by rw [e4]; exact binary32.round_16785409))
    (solve_quadratic32_of_rounding (-8194) 16785408 67141632 4097
      (by rw [e5]; exact binary32.round_67141636)
      (by rw [e6]; exact binary32.round_67141632)
      (by rw [e7]; exact binary32.round_4097))
    (by norm_num) (by norm_num)

/-- In binary32 `z_radius` is `0` for the radius `1` and a normal `(x, 0, 1)` whose `x*x`
underflows. -/
lemma z_radius32_underflow (x : ℚ) (h1 : binary32.round_nearest x = some x)
    (h2 : binary32.round_nearest (x * x) = some 0) :
    z_radius32 ⟨⟨0, 0, 0⟩, 1⟩ ⟨x, 0, 1⟩ = some 0 := by
  simp only [z_radius32, float3.smul32, binary32.mul, binary32.add, one_mul, mul_zero,
    mul_one, h1, h2, binary32.round_1, binary32.round_nearest_zero, Option.some_bind,
    Option.map_some', add_zero, binary32.sqrt_zero]

/-- In binary32, with `atan2(-x, 1) = -x`: when `-x + two_pi` is rounded to `two_pi`,
`phi` is `two_pi` and `u` is `1`. -/
lemma u32_one (x tp : ℚ) (hx : 0 < x) (htp : tp ≠ 0)
    (h1 : binary32.round_nearest (-x + tp) = some tp) :
    phi32 (fun y _ => y) tp ⟨1, -x, 0⟩ = some tp ∧
    u32 (fun y _ => y) tp tp ⟨1, -x, 0⟩ = some 1 := by
  have hneg : -x < 0 := by linarith
  have hphi : phi32 (fun y _ => y) tp ⟨1, -x, 0⟩ = some tp := by
    simp only [phi32, hneg, if_true, binary32.add, h1]
  refine ⟨hphi, ?_⟩
  simp only [u32, hphi, Option.some_bind, binary32.div, htp, if_false, div_self htp,
    ne_eq, not_false_eq_true, binary32.round_1]

end sphere

/-! ## Claims on the matrix inverse -/

/-- C1: over a field, for every 4x4 matrix `M` whose `determinant()` is non-zero,
`M * M.inverse()` and `M.inverse() * M` both equal `identity()`, and `inverse()` is
`adjoint()` scaled by the reciprocal of `determinant()`. -/
theorem matrix4x4_mul_inverse [Field K] (M : matrix4x4 K) (h : M.determinant ≠ 0) :
    M.mul M.inverse = matrix4x4.identity ∧ M.inverse.mul M = matrix4x4.identity ∧
      M.inverse = M.adjoint.scale (1 / M.determinant) := by
  have hr : M.determinant * (1 / M.determinant) = 1 := mul_one_div_cancel h
  rw [matrix4x4.inverse_eq4, matrix4x4.mul_scale4, matrix4x4.scale_mul4, matrix4x4.mul_adjoint4,
    matrix4x4.adjoint_mul4, matrix4x4.identity_scale_scale4 _ _ hr]
  exact ⟨rfl, rfl, rfl⟩

/-- Witness of C1: a rational 4x4 matrix of determinant `2`. -/
theorem matrix4x4_mul_inverse_witness :
    (⟨1, 2, 0, 0, 0, 1, 0, 0, 0, 0, 2, 1, 0, 0, 0, 1⟩ : matrix4x4 ℚ).determinant ≠ 0 ∧
    ((⟨1, 2, 0, 0, 0, 1, 0, 0, 0, 0, 2, 1, 0, 0, 0, 1⟩ : matrix4x4 ℚ).mul
        (⟨1, 2, 0, 0, 0, 1, 0, 0, 0, 0, 2, 1, 0, 0, 0, 1⟩ : matrix4x4 ℚ).inverse
        = matrix4x4.identity ∧
      (⟨1, 2, 0, 0, 0, 1, 0, 0, 0, 0, 2, 1, 0, 0, 0, 1⟩ : matrix4x4 ℚ).inverse.mul
        (⟨1, 2, 0, 0, 0, 1, 0, 0, 0, 0, 2, 1, 0, 0, 0, 1⟩ : matrix4x4 ℚ)
        = matrix4x4.identity ∧
      (⟨1, 2, 0, 0, 0, 1, 0, 0, 0, 0, 2, 1, 0, 0, 0, 1⟩ : matrix4x4 ℚ).inverse
        = (⟨1, 2, 0, 0, 0, 1, 0, 0, 0, 0, 2, 1, 0, 0, 0, 1⟩ : matrix4x4 ℚ).adjoint.scale
          (1 / (⟨1, 2, 0, 0, 0, 1, 0, 0, 0, 0, 2, 1, 0, 0, 0, 1⟩
            : matrix4x4 ℚ).determinant)) :=
  ⟨by norm_num [matrix4x4.determinant, matrix4x4.minor_, matrix4x4.elem, matrix4x4.idx],
    matrix4x4_mul_inverse _
      (by norm_num [matrix4x4.determinant, matrix4x4.minor_, matrix4x4.elem, matrix4x4.idx])⟩

/-- C2: over a field, for every 3x3 matrix `M` whose `determinant()` is non-zero,
`M * M.inverse()` and `M.inverse() * M` both equal `identity()`. -/
theorem matrix3x3_mul_inverse [Field K] (M : matrix3x3 K) (h : M.determinant ≠ 0) :
    M.mul M.inverse = matrix3x3.identity ∧ M.inverse.mul M = matrix3x3.identity := by
  have hr : M.determinant * (1 / M.determinant) = 1 := mul_one_div_cancel h
  rw [matrix3x3.inverse_eq3, matrix3x3.mul_scale3, matrix3x3.scale_mul3, matrix3x3.mul_adjoint3,
    matrix3x3.adjoint_mul3, matrix3x3.identity_scale_scale3 _ _ hr]
  exact ⟨rfl, rfl⟩

/-- Witness of C2: a rational 3x3 matrix of determinant `7`. -/
theorem matrix3x3_mul_inverse_witness :
    (⟨1, 2, 3, 0, 1, 4, 1, 0, 2⟩ : matrix3x3 ℚ).determinant ≠ 0 ∧
    ((⟨1, 2, 3, 0, 1, 4, 1, 0, 2⟩ : matrix3x3 ℚ).mul
        (⟨1, 2, 3, 0, 1, 4, 1, 0, 2⟩ : matrix3x3 ℚ).inverse = matrix3x3.identity ∧
      (⟨1, 2, 3, 0, 1, 4, 1, 0, 2⟩ : matrix3x3 ℚ).inverse.mul
        (⟨1, 2, 3, 0, 1, 4, 1, 0, 2⟩ : matrix3x3 ℚ) = matrix3x3.identity) :=
  ⟨by norm_num [matrix3x3.determinant, matrix3x3.minor_, matrix3x3.elem, matrix3x3.idx],
    matrix3x3_mul_inverse _
      (by norm_num [matrix3x3.determinant, matrix3x3.minor_, matrix3x3.elem, matrix3x3.idx])⟩

/-! ## Claims on `sphere::intersect` -/

/-- Counterexample to C3 as stated, in binary32. For the unit sphere at the origin and
the ray from `(4097,0,0)` along `(-1,0,0)` with interval `[0, 8192]` the coefficients are
`a = 1`, `b = -8194`, `c = 16785408`; `b*b = 67141636` is rounded to `67141632 = 4ac`,
the discriminant is `0` and `sphere::intersect` returns a hit with `t = 4097`, which is
not a root of the quadratic (`4096`, in the interval, is). For the ray from
`(4097, 3/2, 0)` it returns a hit with `t = 4097` although the quadratic has no real
root. -/
theorem sphere_intersect_binary32_not_root :
    sphere.intersect_t32 ⟨⟨0, 0, 0⟩, 1⟩ ⟨⟨4097, 0, 0⟩, ⟨-1, 0, 0⟩, ⟨0, 8192⟩⟩
      = some (some 4097) ∧
    sphere.quadratic (⟨⟨0, 0, 0⟩, 1⟩ : sphere ℝ)
      ⟨⟨4097, 0, 0⟩, ⟨-1, 0, 0⟩, ⟨0, 8192⟩⟩ 4097 ≠ 0 ∧
    sphere.quadratic (⟨⟨0, 0, 0⟩, 1⟩ : sphere ℝ)
      ⟨⟨4097, 0, 0⟩, ⟨-1, 0, 0⟩, ⟨0, 8192⟩⟩ 4096 = 0 ∧
    sphere.intersect_t32 ⟨⟨0, 0, 0⟩, 1⟩ ⟨⟨4097, 3 / 2, 0⟩, ⟨-1, 0, 0⟩, ⟨0, 8192⟩⟩
      = some (some 4097) ∧
    ¬ ∃ t : ℝ, sphere.quadratic (⟨⟨0, 0, 0⟩, 1⟩ : sphere ℝ)
      ⟨⟨4097, 3 / 2, 0⟩, ⟨-1, 0, 0⟩, ⟨0, 8192⟩⟩ t = 0 := by
  refine ⟨sphere.intersect_t32_grazing, ?_, ?_, sphere.intersect_t32_no_root, ?_⟩
  · norm_num [sphere.quadratic, float3.norm2, float3.dot, float3.sub]
  · norm_num [sphere.quadratic, float3.norm2, float3.dot, float3.sub]
  · rintro ⟨t, ht⟩
    norm_num [sphere.quadratic, float3.norm2, float3.dot, float3.sub] at ht
    nlinarith [sq_nonneg (t - 4097)]

/-- C3, amended: over exact arithmetic (an ordered field with an exact square root), for
every sphere and every ray of non-zero direction, `sphere::intersect` returns a hit if and
only if the quadratic `a t² + b t + c0` has a root in the ray's interval `[tmin, tmax]`;
and the `t` of a returned hit lies in `[tmin, tmax]` and is the smallest root in that
interval. -/
theorem sphere_intersect_iff_root_in_interval [LinearOrderedField K] (m : cmath K)
    (k : constants K) (hs : IsSqrt m.sqrt) (s : sphere K) (r : ray K)
    (hd : r.direction ≠ ⟨0, 0, 0⟩) :
    ((∃ h, s.intersect m k r = some h) ↔
        ∃ t, r.interval.x ≤ t ∧ t ≤ r.interval.y ∧ s.quadratic r t = 0) ∧
    ∀ h, s.intersect m k r = some h →
        r.interval.x ≤ h.t ∧ h.t ≤ r.interval.y ∧ s.quadratic r h.t = 0 ∧
        ∀ t, r.interval.x ≤ t → t ≤ r.interval.y → s.quadratic r t = 0 → h.t ≤ t := by
  obtain ⟨h1, h2⟩ := sphere.intersect_spec m k hs s r (sphere.norm2_pos_of_ne _ hd)
  exact ⟨h1, fun h hh => (h2 h hh).2⟩

/-- Witness of C3, amended: the unit sphere at the origin and the ray from `(0,0,5)` along
`(0,0,-1)` with interval `[0, 10]`, over the reals. -/
theorem sphere_intersect_iff_root_in_interval_witness :
    (IsSqrt Real.sqrt ∧ (⟨0, 0, -1⟩ : vector ℝ) ≠ ⟨0, 0, 0⟩) ∧
    (((∃ h, sphere.intersect ⟨Real.sqrt, fun y x => Complex.arg ⟨x, y⟩, Real.arccos, Real.sin⟩
          ⟨Real.pi, 2 * Real.pi, 2 * Real.pi, 0, Real.pi⟩ ⟨⟨0, 0, 0⟩, 1⟩
          ⟨⟨0, 0, 5⟩, ⟨0, 0, -1⟩, ⟨0, 10⟩⟩ = some h) ↔
        ∃ t, (0 : ℝ) ≤ t ∧ t ≤ 10 ∧
          sphere.quadratic ⟨⟨0, 0, 0⟩, 1⟩ ⟨⟨0, 0, 5⟩, ⟨0, 0, -1⟩, ⟨0, 10⟩⟩ t = 0) ∧
      ∀ h, sphere.intersect ⟨Real.sqrt, fun y x => Complex.arg ⟨x, y⟩, Real.arccos, Real.sin⟩
          ⟨Real.pi, 2 * Real.pi, 2 * Real.pi, 0, Real.pi⟩ ⟨⟨0, 0, 0⟩, 1⟩
          ⟨⟨0, 0, 5⟩, ⟨0, 0, -1⟩, ⟨0, 10⟩⟩ = some h →
        (0 : ℝ) ≤ h.t ∧ h.t ≤ 10 ∧
        sphere.quadratic ⟨⟨0, 0, 0⟩, 1⟩ ⟨⟨0, 0, 5⟩, ⟨0, 0, -1⟩, ⟨0, 10⟩⟩ h.t = 0 ∧
        ∀ t, (0 : ℝ) ≤ t → t ≤ 10 →
          sphere.quadratic ⟨⟨0, 0, 0⟩, 1⟩ ⟨⟨0, 0, 5⟩, ⟨0, 0, -1⟩, ⟨0, 10⟩⟩ t = 0 → h.t ≤ t) :=
  ⟨⟨isSqrt_real, by simp⟩,
    sphere_intersect_iff_root_in_interval
      ⟨Real.sqrt, fun y x => Complex.arg ⟨x, y⟩, Real.arccos, Real.sin⟩
      ⟨Real.pi, 2 * Real.pi, 2 * Real.pi, 0, Real.pi⟩ isSqrt_real ⟨⟨0, 0, 0⟩, 1⟩
      ⟨⟨0, 0, 5⟩, ⟨0, 0, -1⟩, ⟨0, 10⟩⟩ (by simp)⟩

/-- Counterexample to C5 as stated, in binary32: the unit sphere at the origin and the ray
from `(4097,0,0)` along the unit direction `(-1,0,0)` with interval `[0, 8192]` meet every
hypothesis with `D = 4097`, and `sphere::intersect` returns a hit with `t = 4097`, not
`D - r = 4096`. -/
theorem sphere_intersect_binary32_aimed_at_center :
    ((0 : ℚ) < 1 ∧ float3.norm2 (⟨-1, 0, 0⟩ : vector ℚ) = 1 ∧
      (⟨4097, 0, 0⟩ : point ℚ) = float3.sub ⟨0, 0, 0⟩ (float3.smul 4097 ⟨-1, 0, 0⟩) ∧
      (1 : ℚ) < 4097 ∧ (0 : ℚ) ≤ 4097 - 1 ∧ (4097 - 1 : ℚ) ≤ 8192) ∧
    sphere.intersect_t32 ⟨⟨0, 0, 0⟩, 1⟩ ⟨⟨4097, 0, 0⟩, ⟨-1, 0, 0⟩, ⟨0, 8192⟩⟩
      = some (some 4097) ∧
    (4097 : ℚ) ≠ 4097 - 1 := by
  refine ⟨⟨by norm_num, by norm_num [float3.norm2, float3.dot],
    by norm_num [float3.sub, float3.smul], by norm_num, by norm_num, by norm_num⟩,
    sphere.intersect_t32_grazing, by norm_num⟩

/-- C5, amended: over exact arithmetic (an ordered field with an exact square root), for
every sphere of centre `c` and radius `r > 0` and every ray of unit direction `d` whose
origin is `c - D d` with `D > r` and whose interval contains `D - r`, `sphere::intersect`
returns a hit with `t = D - r`, hit point `c - r d` and normal `-d`. -/
theorem sphere_intersect_aimed_at_center [LinearOrderedField K] (m : cmath K)
    (k : constants K) (hs : IsSqrt m.sqrt) (s : sphere K) (r : ray K) (D : K)
    (hr : 0 < s.radius) (hunit : float3.norm2 r.direction = 1)
    (ho : r.origin = float3.sub s.center (float3.smul D r.direction))
    (_hD : s.radius < D) (h1 : r.interval.x ≤ D - s.radius)
    (h2 : D - s.radius ≤ r.interval.y) :
    ∃ h, s.intersect m k r = some h ∧ h.t = D - s.radius ∧
      h.dg.point = float3.sub s.center (float3.smul s.radius r.direction) ∧
      h.dg.normal = float3.neg r.direction := by
  obtain ⟨hp, hn⟩ := sphere.hit_aimed_at_center m k hs s r D hr hunit ho
  exact ⟨_, sphere.intersect_aimed_at_center m k hs s r D hr hunit ho h1 h2, rfl, hp, hn⟩

/-- Witness of C5, amended: the unit sphere at the origin and the ray from `(0,0,5)` along
`(0,0,-1)` with interval `[0, 10]` give `t = 4`, hit point `(0,0,1)` and normal
`(0,0,1)`. -/
theorem sphere_intersect_aimed_at_center_witness :
    ∃ h, sphere.intersect ⟨Real.sqrt, fun y x => Complex.arg ⟨x, y⟩, Real.arccos, Real.sin⟩
        ⟨Real.pi, 2 * Real.pi, 2 * Real.pi, 0, Real.pi⟩ ⟨⟨0, 0, 0⟩, 1⟩
        ⟨⟨0, 0, 5⟩, ⟨0, 0, -1⟩, ⟨0, 10⟩⟩ = some h ∧
      h.t = 4 ∧ h.dg.point = ⟨0, 0, 1⟩ ∧ h.dg.normal = ⟨0, 0, 1⟩ := by
  obtain ⟨h, hh, ht, hp, hn⟩ := sphere_intersect_aimed_at_center
    ⟨Real.sqrt, fun y x => Complex.arg ⟨x, y⟩, Real.arccos, Real.sin⟩
    ⟨Real.pi, 2 * Real.pi, 2 * Real.pi, 0, Real.pi⟩ isSqrt_real ⟨⟨0, 0, 0⟩, 1⟩
    ⟨⟨0, 0, 5⟩, ⟨0, 0, -1⟩, ⟨0, 10⟩⟩ 5 (by norm_num)
    (by norm_num [float3.norm2, float3.dot])
    (by norm_num [float3.sub, float3.smul]) (by norm_num) (by norm_num) (by norm_num)
  refine ⟨h, hh, ?_, ?_, ?_⟩
  · rw [ht]; norm_num
  · rw [hp]; norm_num [float3.sub, float3.smul]
  · rw [hn]; norm_num [float3.neg]

/-- Counterexample to C6 as stated: the unit sphere at the origin and the ray from
`(0,0,5)` along `(0,0,1)` with interval `[-10, 10]`; `sphere::intersect` returns a hit
whose parameter is `-6`, which is not positive (every operation of this run is exact, in
binary32 too). And in binary32, for the ray from `(4097,0,0)` along `(-1,0,0)` with
interval `[0, 8192]`, it returns a hit with `t = 4097`, which is not a root of the
quadratic, while `4096` is a positive root in the interval. -/
theorem sphere_intersect_negative_t :
    (∃ h, sphere.intersect ⟨Real.sqrt, fun y x => Complex.arg ⟨x, y⟩, Real.arccos, Real.sin⟩
        ⟨Real.pi, 2 * Real.pi, 2 * Real.pi, 0, Real.pi⟩ ⟨⟨0, 0, 0⟩, 1⟩
        ⟨⟨0, 0, 5⟩, ⟨0, 0, 1⟩, ⟨-10, 10⟩⟩ = some h ∧ h.t = -6 ∧ ¬ 0 < h.t) ∧
    sphere.intersect_t32 ⟨⟨0, 0, 0⟩, 1⟩ ⟨⟨4097, 0, 0⟩, ⟨-1, 0, 0⟩, ⟨0, 8192⟩⟩
      = some (some 4097) ∧
    sphere.quadratic (⟨⟨0, 0, 0⟩, 1⟩ : sphere ℝ)
      ⟨⟨4097, 0, 0⟩, ⟨-1, 0, 0⟩, ⟨0, 8192⟩⟩ 4097 ≠ 0 ∧
    sphere.quadratic (⟨⟨0, 0, 0⟩, 1⟩ : sphere ℝ)
      ⟨⟨4097, 0, 0⟩, ⟨-1, 0, 0⟩, ⟨0, 8192⟩⟩ 4096 = 0 := by
  refine ⟨?_, sphere.intersect_t32_grazing,
    by norm_num [sphere.quadratic, float3.norm2, float3.dot, float3.sub],
    by norm_num [sphere.quadratic, float3.norm2, float3.dot, float3.sub]⟩
  obtain ⟨h1, h2⟩ := sphere.intersect_spec
    ⟨Real.sqrt, fun y x => Complex.arg ⟨x, y⟩, Real.arccos, Real.sin⟩
    ⟨Real.pi, 2 * Real.pi, 2 * Real.pi, 0, Real.pi⟩ isSqrt_real ⟨⟨0, 0, 0⟩, 1⟩
    ⟨⟨0, 0, 5⟩, ⟨0, 0, 1⟩, ⟨-10, 10⟩⟩ (by norm_num [float3.norm2, float3.dot])
  obtain ⟨h, hh⟩ := h1.2 ⟨-6, by norm_num, by norm_num,
    by norm_num [sphere.quadratic, float3.norm2, float3.dot, float3.sub]⟩
  obtain ⟨-, -, -, hq, hmin⟩ := h2 h hh
  have hle : h.t ≤ -6 := hmin (-6) (by norm_num) (by norm_num)
    (by norm_num [sphere.quadratic, float3.norm2, float3.dot, float3.sub])
  have hq2 : (h.t + 6) * (h.t + 4) = 0 := by
    norm_num [sphere.quadratic, float3.norm2, float3.dot, float3.sub] at hq
    linear_combination hq
  have ht : h.t = -6 := by
    rcases mul_eq_zero.1 hq2 with h6 | h4
    · linarith
    · linarith
  exact ⟨h, hh, ht, by rw [ht]; norm_num⟩

/-- C6, amended: over exact arithmetic (an ordered field with an exact square root), for
every sphere and every ray, the `t` of a hit returned by `sphere::intersect` lies in the
ray's interval `[tmin, tmax]` and is the least root of the quadratic lying in that
interval; it is positive whenever `tmin` is positive. -/
theorem sphere_intersect_t_least_in_interval [LinearOrderedField K] (m : cmath K)
    (k : constants K) (hs : IsSqrt m.sqrt) (s : sphere K) (r : ray K)
    (h : intersection K) (hh : s.intersect m k r = some h) :
    r.interval.x ≤ h.t ∧ h.t ≤ r.interval.y ∧ s.quadratic r h.t = 0 ∧
    (∀ t, r.interval.x ≤ t → t ≤ r.interval.y → s.quadratic r t = 0 → h.t ≤ t) ∧
    (0 < r.interval.x → 0 < h.t) := by
  have ha : 0 < float3.norm2 r.direction := by
    rcases (sphere.norm2_nonneg r.direction).eq_or_lt with h0 | h0
    · rw [sphere.intersect_none_of_norm2_zero m k s r h0.symm] at hh
      simp at hh
    · exact h0
  obtain ⟨-, h1, h2, h3, h4⟩ := (sphere.intersect_spec m k hs s r ha).2 h hh
  exact ⟨h1, h2, h3, h4, fun h0 => lt_of_lt_of_le h0 h1⟩

/-- Witness of C6, amended: the unit sphere at the origin and the ray from `(0,0,5)` along
`(0,0,-1)` with interval `[1, 10]`; the hit is the one built at `t = 5 - 1`. -/
theorem sphere_intersect_t_least_in_interval_witness :
    ∃ h, sphere.intersect ⟨Real.sqrt, fun y x => Complex.arg ⟨x, y⟩, Real.arccos, Real.sin⟩
        ⟨Real.pi, 2 * Real.pi, 2 * Real.pi, 0, Real.pi⟩ ⟨⟨0, 0, 0⟩, 1⟩
        ⟨⟨0, 0, 5⟩, ⟨0, 0, -1⟩, ⟨1, 10⟩⟩ = some h ∧
      ((1 : ℝ) ≤ h.t ∧ h.t ≤ 10 ∧
        sphere.quadratic ⟨⟨0, 0, 0⟩, 1⟩ ⟨⟨0, 0, 5⟩, ⟨0, 0, -1⟩, ⟨1, 10⟩⟩ h.t = 0 ∧
        (∀ t, (1 : ℝ) ≤ t → t ≤ 10 →
          sphere.quadratic ⟨⟨0, 0, 0⟩, 1⟩ ⟨⟨0, 0, 5⟩, ⟨0, 0, -1⟩, ⟨1, 10⟩⟩ t = 0 → h.t ≤ t) ∧
        ((0 : ℝ) < 1 → 0 < h.t)) :=
  ⟨_, sphere.intersect_aimed_at_center _ _ isSqrt_real ⟨⟨0, 0, 0⟩, 1⟩
      ⟨⟨0, 0, 5⟩, ⟨0, 0, -1⟩, ⟨1, 10⟩⟩ 5 (by norm_num)
      (by norm_num [float3.norm2, float3.dot])
      (by norm_num [float3.sub, float3.smul]) (by norm_num) (by norm_num),
    sphere_intersect_t_least_in_interval _ _ isSqrt_real _ _ _
      (sphere.intersect_aimed_at_center _ _ isSqrt_real ⟨⟨0, 0, 0⟩, 1⟩
        ⟨⟨0, 0, 5⟩, ⟨0, 0, -1⟩, ⟨1, 10⟩⟩ 5 (by norm_num)
        (by norm_num [float3.norm2, float3.dot])
        (by norm_num [float3.sub, float3.smul]) (by norm_num) (by norm_num))⟩

/-! ## Claims on `sphere::parametric_geometry_at` -/

/-- C7, failing input: the rays from `(3,0,4)` along `(-3/5,0,-4/5)` and from `(3,0,-4)`
along `(-3/5,0,4/5)` both hit the unit sphere at the origin; the two hits have the same
`phi`, the same `theta` and the same `uv`, but different unit normals. -/
theorem sphere_hits_same_uv_different_normals :
    ∃ h1 h2,
      sphere.intersect ⟨Real.sqrt, fun y x => Complex.arg ⟨x, y⟩, Real.arccos, Real.sin⟩
        ⟨Real.pi, 2 * Real.pi, 2 * Real.pi, 0, Real.pi⟩ ⟨⟨0, 0, 0⟩, 1⟩
        ⟨⟨3, 0, 4⟩, ⟨-3 / 5, 0, -4 / 5⟩, ⟨0, 10⟩⟩ = some h1 ∧
      sphere.intersect ⟨Real.sqrt, fun y x => Complex.arg ⟨x, y⟩, Real.arccos, Real.sin⟩
        ⟨Real.pi, 2 * Real.pi, 2 * Real.pi, 0, Real.pi⟩ ⟨⟨0, 0, 0⟩, 1⟩
        ⟨⟨3, 0, -4⟩, ⟨-3 / 5, 0, 4 / 5⟩, ⟨0, 10⟩⟩ = some h2 ∧
      h1.dg.normal = ⟨3 / 5, 0, 4 / 5⟩ ∧ h2.dg.normal = ⟨3 / 5, 0, -4 / 5⟩ ∧
      float3.norm2 h1.dg.normal = 1 ∧ float3.norm2 h2.dg.normal = 1 ∧
      sphere.phi ⟨Real.sqrt, fun y x => Complex.arg ⟨x, y⟩, Real.arccos, Real.sin⟩
          ⟨Real.pi, 2 * Real.pi, 2 * Real.pi, 0, Real.pi⟩ h1.dg.normal
        = sphere.phi ⟨Real.sqrt, fun y x => Complex.arg ⟨x, y⟩, Real.arccos, Real.sin⟩
          ⟨Real.pi, 2 * Real.pi, 2 * Real.pi, 0, Real.pi⟩ h2.dg.normal ∧
      sphere.theta ⟨Real.sqrt, fun y x => Complex.arg ⟨x, y⟩, Real.arccos, Real.sin⟩
          h1.dg.normal
        = sphere.theta ⟨Real.sqrt, fun y x => Complex.arg ⟨x, y⟩, Real.arccos, Real.sin⟩
          h2.dg.normal ∧
      h1.dg.uv = h2.dg.uv ∧ h1.dg.normal ≠ h2.dg.normal := by
  have e1 := sphere.intersect_aimed_at_center
    ⟨Real.sqrt, fun y x => Complex.arg ⟨x, y⟩, Real.arccos, Real.sin⟩
    ⟨Real.pi, 2 * Real.pi, 2 * Real.pi, 0, Real.pi⟩ isSqrt_real ⟨⟨0, 0, 0⟩, 1⟩
    ⟨⟨3, 0, 4⟩, ⟨-3 / 5, 0, -4 / 5⟩, ⟨0, 10⟩⟩ 5 (by norm_num)
    (by norm_num [float3.norm2, float3.dot])
    (by norm_num [float3.sub, float3.smul]) (by norm_num) (by norm_num)
  have e2 := sphere.intersect_aimed_at_center
    ⟨Real.sqrt, fun y x => Complex.arg ⟨x, y⟩, Real.arccos, Real.sin⟩
    ⟨Real.pi, 2 * Real.pi, 2 * Real.pi, 0, Real.pi⟩ isSqrt_real ⟨⟨0, 0, 0⟩, 1⟩
    ⟨⟨3, 0, -4⟩, ⟨-3 / 5, 0, 4 / 5⟩, ⟨0, 10⟩⟩ 5 (by norm_num)
    (by norm_num [float3.norm2, float3.dot])
    (by norm_num [float3.sub, float3.smul]) (by norm_num) (by norm_num)
  have n1 := (sphere.hit_aimed_at_center
    ⟨Real.sqrt, fun y x => Complex.arg ⟨x, y⟩, Real.arccos, Real.sin⟩
    ⟨Real.pi, 2 * Real.pi, 2 * Real.pi, 0, Real.pi⟩ isSqrt_real ⟨⟨0, 0, 0⟩, 1⟩
    ⟨⟨3, 0, 4⟩, ⟨-3 / 5, 0, -4 / 5⟩, ⟨0, 10⟩⟩ 5 (by norm_num)
    (by norm_num [float3.norm2, float3.dot])
    (by norm_num [float3.sub, float3.smul])).2
  have n2 := (sphere.hit_aimed_at_center
    ⟨Real.sqrt, fun y x => Complex.arg ⟨x, y⟩, Real.arccos, Real.sin⟩
    ⟨Real.pi, 2 * Real.pi, 2 * Real.pi, 0, Real.pi⟩ isSqrt_real ⟨⟨0, 0, 0⟩, 1⟩
    ⟨⟨3, 0, -4⟩, ⟨-3 / 5, 0, 4 / 5⟩, ⟨0, 10⟩⟩ 5 (by norm_num)
    (by norm_num [float3.norm2, float3.dot])
    (by norm_num [float3.sub, float3.smul])).2
  have n1e : float3.neg (⟨-3 / 5, 0, -4 / 5⟩ : vector ℝ) = ⟨3 / 5, 0, 4 / 5⟩ := by
    norm_num [float3.neg]
  have n2e : float3.neg (⟨-3 / 5, 0, 4 / 5⟩ : vector ℝ) = ⟨3 / 5, 0, -4 / 5⟩ := by
    norm_num [float3.neg]
  simp only [n1e, n2e] at n1 n2
  refine ⟨_, _, e1, e2, n1, n2, ?_, ?_, ?_, ?_, ?_, ?_⟩
  · rw [n1]; norm_num [float3.norm2, float3.dot]
  · rw [n2]; norm_num [float3.norm2, float3.dot]
  · rw [n1, n2]; rfl
  · rw [n1, n2]; rfl
  · rw [sphere.hit_uv, sphere.hit_uv, n1, n2]; rfl
  · rw [n1, n2]
    intro h
    have hz := congrArg float3.z h
    norm_num at hz

/-- C8, failing input: for the unit sphere at the origin and the unit normal
`(0, 3/5, 4/5)`, which is not parallel to the z axis, `parametric_geometry_at` returns a
`dpdu` orthogonal to the normal and a `dpdv` that is not: their dot product is
`-(8/25) π`. -/
theorem sphere_dpdv_not_orthogonal :
    float3.norm2 (⟨0, 3 / 5, 4 / 5⟩ : normal ℝ) = 1 ∧
    float3.dot (sphere.parametric_geometry_at
        ⟨Real.sqrt, fun y x => Complex.arg ⟨x, y⟩, Real.arccos, Real.sin⟩
        ⟨Real.pi, 2 * Real.pi, 2 * Real.pi, 0, Real.pi⟩ ⟨⟨0, 0, 0⟩, 1⟩
        ⟨0, 3 / 5, 4 / 5⟩).2.1 ⟨0, 3 / 5, 4 / 5⟩ = 0 ∧
    float3.dot (sphere.parametric_geometry_at
        ⟨Real.sqrt, fun y x => Complex.arg ⟨x, y⟩, Real.arccos, Real.sin⟩
        ⟨Real.pi, 2 * Real.pi, 2 * Real.pi, 0, Real.pi⟩ ⟨⟨0, 0, 0⟩, 1⟩
        ⟨0, 3 / 5, 4 / 5⟩).2.2 ⟨0, 3 / 5, 4 / 5⟩ = -(8 / 25) * Real.pi ∧
    float3.dot (sphere.parametric_geometry_at
        ⟨Real.sqrt, fun y x => Complex.arg ⟨x, y⟩, Real.arccos, Real.sin⟩
        ⟨Real.pi, 2 * Real.pi, 2 * Real.pi, 0, Real.pi⟩ ⟨⟨0, 0, 0⟩, 1⟩
        ⟨0, 3 / 5, 4 / 5⟩).2.2 ⟨0, 3 / 5, 4 / 5⟩ ≠ 0 := by
  have hsq : Real.sqrt (1 * 0 * (1 * 0) + 1 * (3 / 5) * (1 * (3 / 5))) = 3 / 5 :=
    isSqrt_real.eq_of_mul_self (by norm_num) (by norm_num)
  have hdot : float3.dot (sphere.parametric_geometry_at
        ⟨Real.sqrt, fun y x => Complex.arg ⟨x, y⟩, Real.arccos, Real.sin⟩
        ⟨Real.pi, 2 * Real.pi, 2 * Real.pi, 0, Real.pi⟩ ⟨⟨0, 0, 0⟩, 1⟩
        ⟨0, 3 / 5, 4 / 5⟩).2.2 ⟨0, 3 / 5, 4 / 5⟩ = -(8 / 25) * Real.pi := by
    simp only [sphere.parametric_geometry_at, sphere.theta, float3.smul, float3.dot, hsq,
      Real.arccos_zero, Real.sin_pi_div_two]
    ring
  refine ⟨by norm_num [float3.norm2, float3.dot], ?_, hdot, ?_⟩
  · simp only [sphere.parametric_geometry_at, float3.smul, float3.dot]
    ring
  · rw [hdot]
    have := Real.pi_pos
    intro h
    linarith

/-! ## Claims on `mesh.cpp` -/

/-- C9: for every point list and every list of triangles with in-range indices,
`face_normals` returns one normal per triangle; for every triangle whose vertices
`v0, v1, v2` are not collinear, its normal has unit length, is orthogonal to both edges
`v1 - v0` and `v2 - v0`, and is a positive multiple of `cross(v1 - v0, v2 - v0)`. -/
theorem face_normals_unit_orthogonal [LinearOrderedField K] (m : cmath K)
    (hs : IsSqrt m.sqrt) (points : List (point K)) (triangles : List uint3)
    (hin : ∀ tri ∈ triangles, tri.InRange points.length) :
    ∃ ns, face_normals m points triangles = some ns ∧ ns.length = triangles.length ∧
      ∀ (j : Nat) (tri : uint3) (n v0 v1 v2 : float3 K), triangles[j]? = some tri → ns[j]? = some n →
        points[tri.i0]? = some v0 → points[tri.i1]? = some v1 →
        points[tri.i2]? = some v2 →
        float3.cross (float3.sub v1 v0) (float3.sub v2 v0) ≠ ⟨0, 0, 0⟩ →
        float3.norm2 n = 1 ∧ float3.dot n (float3.sub v1 v0) = 0 ∧
        float3.dot n (float3.sub v2 v0) = 0 ∧
        ∃ a, 0 < a ∧ n = float3.smul a (float3.cross (float3.sub v1 v0) (float3.sub v2 v0)) := by
  refine ⟨_, face_normals_eq_map m points triangles hin, by simp, ?_⟩
  intro j tri n v0 v1 v2 htri hn h0 h1 h2 hc
  rw [List.getElem?_map, htri, Option.map_some', face_normal_eq m points tri v0 v1 v2 h0 h1 h2] at hn
  simp only [Option.getD_some, Option.some.injEq] at hn
  obtain ⟨hunit, a, ha, hsm⟩ := normalize_spec m.sqrt hs _ hc
  rw [← hn]
  refine ⟨hunit, ?_, ?_, a, ha, hsm⟩
  · rw [hsm, dot_smul, dot_cross_left, mul_zero]
  · rw [hsm, dot_smul, dot_cross_right, mul_zero]

/-- Witness of C9: the vertices `(0,0,0)`, `(1,0,0)`, `(0,1,0)` and the triangle
`(0,1,2)` give the single normal `(0,0,1)`. -/
theorem face_normals_unit_orthogonal_witness :
    face_normals ⟨Real.sqrt, fun y x => Complex.arg ⟨x, y⟩, Real.arccos, Real.sin⟩
        [⟨0, 0, 0⟩, ⟨1, 0, 0⟩, ⟨0, 1, 0⟩] [⟨0, 1, 2⟩] = some [⟨0, 0, 1⟩] ∧
    ∃ ns, face_normals ⟨Real.sqrt, fun y x => Complex.arg ⟨x, y⟩, Real.arccos, Real.sin⟩
        [⟨0, 0, 0⟩, ⟨1, 0, 0⟩, ⟨0, 1, 0⟩] [⟨0, 1, 2⟩] = some ns ∧
      ns.length = [(⟨0, 1, 2⟩ : uint3)].length ∧
      ∀ (j : Nat) (tri : uint3) (n v0 v1 v2 : float3 ℝ),
        [(⟨0, 1, 2⟩ : uint3)][j]? = some tri → ns[j]? = some n →
        [(⟨0, 0, 0⟩ : point ℝ), ⟨1, 0, 0⟩, ⟨0, 1, 0⟩][tri.i0]? = some v0 →
        [(⟨0, 0, 0⟩ : point ℝ), ⟨1, 0, 0⟩, ⟨0, 1, 0⟩][tri.i1]? = some v1 →
        [(⟨0, 0, 0⟩ : point ℝ), ⟨1, 0, 0⟩, ⟨0, 1, 0⟩][tri.i2]? = some v2 →
        float3.cross (float3.sub v1 v0) (float3.sub v2 v0) ≠ ⟨0, 0, 0⟩ →
        float3.norm2 n = 1 ∧ float3.dot n (float3.sub v1 v0) = 0 ∧
        float3.dot n (float3.sub v2 v0) = 0 ∧
        ∃ a, 0 < a ∧ n = float3.smul a (float3.cross (float3.sub v1 v0) (float3.sub v2 v0)) := by
  refine ⟨?_, face_normals_unit_orthogonal _ isSqrt_real _ _ ?_⟩
  · rw [face_normals_eq_map]
    · simp [face_normal, float3.normalize, float3.cross, float3.sub, float3.norm2,
        float3.dot]
    · intro tri htri
      rw [List.mem_singleton] at htri
      subst htri
      simp [uint3.InRange]
  · intro tri htri
    rw [List.mem_singleton] at htri
    subst htri
    simp [uint3.InRange]

/-- Counterexample to C10 as stated: with a triangle-mesh constructor that accepts every
argument list, the four-argument `mesh` constructor produces a mesh from one point, no
parametrics, no normals and the triangle `(0, 1, 7)`; and the three-argument constructor
produces a mesh from three points and an empty parametrics array. -/
theorem mesh_constructors_accept_invalid :
    mesh.mk3 some [(⟨0, 0, 0⟩ : point ℝ)] [] [] [⟨0, 1, 7⟩]
      = some ⟨[⟨0, 0, 0⟩], some [], [], [⟨0, 1, 7⟩]⟩ ∧
    mesh.mk2 some ⟨Real.sqrt, fun y x => Complex.arg ⟨x, y⟩, Real.arccos, Real.sin⟩
        [⟨0, 0, 0⟩, ⟨1, 0, 0⟩, ⟨0, 1, 0⟩] [] [⟨0, 1, 2⟩]
      = some ⟨[⟨0, 0, 0⟩, ⟨1, 0, 0⟩, ⟨0, 1, 0⟩], some [], [⟨0, 0, 1⟩], [⟨0, 1, 2⟩]⟩ := by
  refine ⟨rfl, ?_⟩
  have hf : face_normals ⟨Real.sqrt, fun y x => Complex.arg ⟨x, y⟩, Real.arccos, Real.sin⟩
      [⟨0, 0, 0⟩, ⟨1, 0, 0⟩, ⟨0, 1, 0⟩] [⟨0, 1, 2⟩] = some [⟨0, 0, 1⟩] := by
    rw [face_normals_eq_map]
    · simp [face_normal, float3.normalize, float3.cross, float3.sub, float3.norm2,
        float3.dot]
    · intro tri htri
      rw [List.mem_singleton] at htri
      subst htri
      simp [uint3.InRange]
  simp only [mesh.mk2, mesh.args2, hf, Option.map_some', Option.some_bind]

/-- C10, amended: the `mesh` constructors validate nothing themselves. The four-argument
constructor returns whatever the triangle-mesh constructor returns on the unchanged
`points`, `parametrics`, `normals` and `triangles`, for every input; when all triangle
indices are in range, the two- and three-argument constructors return whatever it returns
on `points`, `triangles`, the unchanged `parametrics` if any, and
`face_normals(points, triangles)`, which has one normal per triangle. -/
theorem mesh_constructors_forward [LinearOrderedField K] {TM : Type}
    (tm : triangle_mesh_args K → Option TM) (m : cmath K) (points : List (point K))
    (parametrics : List (parametric K)) (normals : List (normal K))
    (triangles : List uint3) :
    mesh.mk3 tm points parametrics normals triangles
      = tm ⟨points, some parametrics, normals, triangles⟩ ∧
    ((∀ tri ∈ triangles, tri.InRange points.length) →
      ∃ ns, face_normals m points triangles = some ns ∧ ns.length = triangles.length ∧
        mesh.mk1 tm m points triangles = tm ⟨points, none, ns, triangles⟩ ∧
        mesh.mk2 tm m points parametrics triangles
          = tm ⟨points, some parametrics, ns, triangles⟩) := by
  refine ⟨rfl, fun hin => ?_⟩
  have hf := face_normals_eq_map m points triangles hin
  refine ⟨_, hf, by simp, ?_, ?_⟩
  · simp only [mesh.mk1, mesh.args1, hf, Option.map_some', Option.some_bind]
  · simp only [mesh.mk2, mesh.args2, hf, Option.map_some', Option.some_bind]

/-- Witness of C10, amended: three points, an empty parametrics array, an empty normals
array and the triangle `(0, 1, 2)`, with a triangle-mesh constructor that accepts every
argument list. -/
theorem mesh_constructors_forward_witness :
    (∀ tri ∈ [(⟨0, 1, 2⟩ : uint3)],
      tri.InRange [(⟨0, 0, 0⟩ : point ℝ), ⟨1, 0, 0⟩, ⟨0, 1, 0⟩].length) ∧
    ∃ ns, face_normals ⟨Real.sqrt, fun y x => Complex.arg ⟨x, y⟩, Real.arccos, Real.sin⟩
        [⟨0, 0, 0⟩, ⟨1, 0, 0⟩, ⟨0, 1, 0⟩] [⟨0, 1, 2⟩] = some ns ∧
      ns.length = [(⟨0, 1, 2⟩ : uint3)].length ∧
      mesh.mk1 some ⟨Real.sqrt, fun y x => Complex.arg ⟨x, y⟩, Real.arccos, Real.sin⟩
          [⟨0, 0, 0⟩, ⟨1, 0, 0⟩, ⟨0, 1, 0⟩] [⟨0, 1, 2⟩]
        = some ⟨[⟨0, 0, 0⟩, ⟨1, 0, 0⟩, ⟨0, 1, 0⟩], none, ns, [⟨0, 1, 2⟩]⟩ ∧
      mesh.mk2 some ⟨Real.sqrt, fun y x => Complex.arg ⟨x, y⟩, Real.arccos, Real.sin⟩
          [⟨0, 0, 0⟩, ⟨1, 0, 0⟩, ⟨0, 1, 0⟩] [] [⟨0, 1, 2⟩]
        = some ⟨[⟨0, 0, 0⟩, ⟨1, 0, 0⟩, ⟨0, 1, 0⟩], some [], ns, [⟨0, 1, 2⟩]⟩ := by
  have hin : ∀ tri ∈ [(⟨0, 1, 2⟩ : uint3)],
      tri.InRange [(⟨0, 0, 0⟩ : point ℝ), ⟨1, 0, 0⟩, ⟨0, 1, 0⟩].length := by
    intro tri htri
    rw [List.mem_singleton] at htri
    subst htri
    simp [uint3.InRange]
  exact ⟨hin, (mesh_constructors_forward some
    ⟨Real.sqrt, fun y x => Complex.arg ⟨x, y⟩, Real.arccos, Real.sin⟩
    [⟨0, 0, 0⟩, ⟨1, 0, 0⟩, ⟨0, 1, 0⟩] [] [] [⟨0, 1, 2⟩]).2 hin⟩

/-! ## Claims on determinant, transpose, products and adjoint -/

/-- C11: `determinant(identity())` is `1` for the 3x3 and for the 4x4 matrix type. -/
theorem determinant_identity [CommRing K] :
    (matrix3x3.identity : matrix3x3 K).determinant = 1 ∧
    (matrix4x4.identity : matrix4x4 K).determinant = 1 := by
  constructor
  · rw [matrix3x3.identity_eq3, matrix3x3.determinant_eq3]
    ring
  · rw [matrix4x4.identity_eq4]
    simp only [matrix4x4.determinant, matrix4x4.minor_, matrix4x4.elem, matrix4x4.idx,
      Nat.reduceMul, Nat.reduceAdd]
    ring

/-- C12: for every 3x3 and every 4x4 matrix `M`, `M.transpose().transpose()` is `M`, and
`M.transpose()(i,j)` is `M(j,i)` for all in-range `i`, `j`. -/
theorem transpose_transpose [Zero K] (M3 : matrix3x3 K) (M4 : matrix4x4 K) :
    M3.transpose.transpose = M3 ∧ M4.transpose.transpose = M4 ∧
    (∀ i j : Fin 3, M3.transpose.elem i.val j.val = M3.elem j.val i.val) ∧
    (∀ i j : Fin 4, M4.transpose.elem i.val j.val = M4.elem j.val i.val) := by
  refine ⟨?_, ?_, ?_, ?_⟩
  · cases M3; rfl
  · cases M4; rfl
  · intro i j
    rw [transpose_eq3]
    fin_cases i <;> fin_cases j <;>
      simp only [matrix3x3.elem, matrix3x3.idx, Nat.reduceMul, Nat.reduceAdd, Fin.val_zero,
        Fin.val_one, Fin.val_two, Fin.zero_eta, Fin.mk_one, Fin.reduceFinMk, Fin.isValue]
  · intro i j
    rw [transpose_eq4]
    fin_cases i <;> fin_cases j <;>
      simp only [matrix4x4.elem, matrix4x4.idx, Nat.reduceMul, Nat.reduceAdd, Fin.val_zero,
        Fin.val_one, Fin.val_two, Fin.zero_eta, Fin.mk_one, Fin.reduceFinMk, Fin.isValue,
        Fin.coe_ofNat_eq_mod, Nat.reduceMod]

/-- C13: for all 4x4 matrices `A`, `B` and every 4-vector `v`, `(A * B) * v` is
`A * (B * v)`, and component `i` of `M * v` is the dot product of row `i` of `M`
with `v`. -/
theorem mul_mulVec [CommRing K] (A B : matrix4x4 K) (v : float4 K) :
    (A.mul B).mulVec v = A.mulVec (B.mulVec v) ∧
    ∀ i : Fin 4, (A.mulVec v).idx i.val = float4.dot (A.row i.val) v := by
  constructor
  · rw [matrix4x4.mul_eq4, mulVec_eq, mulVec_eq, mulVec_eq]
    ext <;> simp only <;> ring
  · intro i
    rw [mulVec_eq]
    fin_cases i <;>
      simp only [float4.idx, float4.dot, matrix4x4.row, matrix4x4.elem, matrix4x4.idx,
        Nat.reduceMul, Nat.reduceAdd] <;> ring

/-- C14: for every 3x3 and every 4x4 matrix, `determinant()`, the cofactor expansion
along the first row built from `minor_`, equals the Leibniz permutation sum. -/
theorem determinant_eq_leibniz [CommRing K] (A3 : matrix3x3 K) (A4 : matrix4x4 K) :
    A3.determinant = A3.leibniz ∧ A4.determinant = A4.leibniz :=
  ⟨by rw [leibniz_eq_det3, det_toMatrix3], by rw [leibniz_eq_det4, det_toMatrix4]⟩

/-- C15: for every 3x3 and every 4x4 matrix `A`, singular or not, entry `(i,j)` of
`adjoint()` is `(-1)^(i+j)` times the minor of `A` with row `j` and column `i` deleted,
and `A * A.adjoint()` and `A.adjoint() * A` are both `identity()` scaled by
`determinant()`. -/
theorem adjoint_is_adjugate [CommRing K] (A3 : matrix3x3 K) (A4 : matrix4x4 K) :
    ((∀ i j : Fin 3,
        A3.adjoint.elem i.val j.val = (-1) ^ (i.val + j.val) * A3.deleted_minor j i) ∧
      A3.mul A3.adjoint = matrix3x3.identity.scale A3.determinant ∧
      A3.adjoint.mul A3 = matrix3x3.identity.scale A3.determinant) ∧
    ((∀ i j : Fin 4,
        A4.adjoint.elem i.val j.val = (-1) ^ (i.val + j.val) * A4.deleted_minor j i) ∧
      A4.mul A4.adjoint = matrix4x4.identity.scale A4.determinant ∧
      A4.adjoint.mul A4 = matrix4x4.identity.scale A4.determinant) :=
  ⟨⟨adjoint_entry3 A3, matrix3x3.mul_adjoint3 A3, matrix3x3.adjoint_mul3 A3⟩,
    ⟨adjoint_entry4 A4, matrix4x4.mul_adjoint4 A4, matrix4x4.adjoint_mul4 A4⟩⟩

/-! ## Further claims on `mesh.cpp` and `sphere.cpp` -/

/-- Counterexample to C16 as stated: the unit square of the Cornell box, four points and
the two triangles `(0,1,3)` and `(1,2,3)`; the two-argument `mesh` constructor hands two
normals to the triangle mesh, not four. -/
theorem mesh_cornell_square_normals :
    ∃ a, mesh.args1 ⟨Real.sqrt, fun y x => Complex.arg ⟨x, y⟩, Real.arccos, Real.sin⟩
        [⟨-1 / 2, 0, 1 / 2⟩, ⟨1 / 2, 0, 1 / 2⟩, ⟨1 / 2, 0, -1 / 2⟩, ⟨-1 / 2, 0, -1 / 2⟩]
        [⟨0, 1, 3⟩, ⟨1, 2, 3⟩] = some a ∧
      a.points.length = 4 ∧ a.normals.length = 2 ∧ a.normals.length ≠ a.points.length := by
  have hin : ∀ tri ∈ [(⟨0, 1, 3⟩ : uint3), ⟨1, 2, 3⟩],
      tri.InRange [(⟨-1 / 2, 0, 1 / 2⟩ : point ℝ), ⟨1 / 2, 0, 1 / 2⟩, ⟨1 / 2, 0, -1 / 2⟩,
        ⟨-1 / 2, 0, -1 / 2⟩].length := by
    intro tri htri
    simp only [List.mem_cons, List.mem_singleton, List.not_mem_nil, or_false] at htri
    rcases htri with rfl | rfl <;> simp [uint3.InRange]
  refine ⟨_, by rw [mesh.args1, face_normals_eq_map _ _ _ hin]; rfl, ?_, ?_, ?_⟩ <;> simp

/-- C16, amended: for every mesh built from points and in-range triangles, the
constructors without a normals argument hand to the triangle mesh the unchanged points
and the sequence `face_normals(points, triangles)`, which has the same length as
`triangles`; the constructor with a normals argument hands over the supplied normals
unchanged. -/
theorem mesh_normals_length [LinearOrderedField K] (m : cmath K) (points : List (point K))
    (parametrics : List (parametric K)) (normals : List (normal K))
    (triangles : List uint3) (hin : ∀ tri ∈ triangles, tri.InRange points.length) :
    (∃ a, mesh.args1 m points triangles = some a ∧ a.points = points ∧
      face_normals m points triangles = some a.normals ∧
      a.normals.length = triangles.length) ∧
    (∃ a, mesh.args2 m points parametrics triangles = some a ∧ a.points = points ∧
      face_normals m points triangles = some a.normals ∧
      a.normals.length = triangles.length) ∧
    (mesh.args3 points parametrics normals triangles).points = points ∧
    (mesh.args3 points parametrics normals triangles).normals = normals := by
  have hf := face_normals_eq_map m points triangles hin
  refine ⟨⟨_, by rw [mesh.args1, hf]; rfl, rfl, hf, by simp⟩,
    ⟨_, by rw [mesh.args2, hf]; rfl, rfl, hf, by simp⟩, rfl, rfl⟩

/-- Witness of C16, amended: the unit square of the Cornell box. -/
theorem mesh_normals_length_witness :
    (∃ a, mesh.args1 ⟨Real.sqrt, fun y x => Complex.arg ⟨x, y⟩, Real.arccos, Real.sin⟩
        [⟨-1 / 2, 0, 1 / 2⟩, ⟨1 / 2, 0, 1 / 2⟩, ⟨1 / 2, 0, -1 / 2⟩, ⟨-1 / 2, 0, -1 / 2⟩]
        [⟨0, 1, 3⟩, ⟨1, 2, 3⟩] = some a ∧
      a.normals.length = [(⟨0, 1, 3⟩ : uint3), ⟨1, 2, 3⟩].length) := by
  have hin : ∀ tri ∈ [(⟨0, 1, 3⟩ : uint3), ⟨1, 2, 3⟩],
      tri.InRange [(⟨-1 / 2, 0, 1 / 2⟩ : point ℝ), ⟨1 / 2, 0, 1 / 2⟩, ⟨1 / 2, 0, -1 / 2⟩,
        ⟨-1 / 2, 0, -1 / 2⟩].length := by
    intro tri htri
    simp only [List.mem_cons, List.mem_singleton, List.not_mem_nil, or_false] at htri
    rcases htri with rfl | rfl <;> simp [uint3.InRange]
  obtain ⟨a, ha, -, -, hl⟩ := (mesh_normals_length
    ⟨Real.sqrt, fun y x => Complex.arg ⟨x, y⟩, Real.arccos, Real.sin⟩ _ [] [] _ hin).1
  exact ⟨a, ha, hl⟩

/-- C17: for every sphere, `area()` is `4 π radius²`; it is the same for two spheres of
equal radius, whatever their centres, and it is non-negative (the constant `pi` being
non-negative). -/
theorem sphere_area [LinearOrderedField K] (k : constants K) (s s2 : sphere K)
    (hpi : 0 ≤ k.pi) (hr : s2.radius = s.radius) :
    s.area k = 4 * k.pi * s.radius ^ 2 ∧ s2.area k = s.area k ∧ 0 ≤ s.area k := by
  refine ⟨by simp only [sphere.area]; ring, by simp only [sphere.area, hr], ?_⟩
  have h : s.area k = 4 * k.pi * (s.radius * s.radius) := by simp only [sphere.area]; ring
  rw [h]
  exact mul_nonneg (mul_nonneg (by norm_num) hpi) (mul_self_nonneg _)

/-- Witness of C17: over the reals with `pi = π`, the spheres of radius `-2` centred at
`(0,0,0)` and at `(1,2,3)`. -/
theorem sphere_area_witness :
    (0 ≤ Real.pi ∧ (-2 : ℝ) = -2) ∧
    sphere.area ⟨Real.pi, 2 * Real.pi, 2 * Real.pi, 0, Real.pi⟩ ⟨⟨0, 0, 0⟩, -2⟩
      = 4 * Real.pi * (-2 : ℝ) ^ 2 ∧
    sphere.area ⟨Real.pi, 2 * Real.pi, 2 * Real.pi, 0, Real.pi⟩ ⟨⟨1, 2, 3⟩, -2⟩
      = sphere.area ⟨Real.pi, 2 * Real.pi, 2 * Real.pi, 0, Real.pi⟩ ⟨⟨0, 0, 0⟩, -2⟩ ∧
    0 ≤ sphere.area ⟨Real.pi, 2 * Real.pi, 2 * Real.pi, 0, Real.pi⟩ ⟨⟨0, 0, 0⟩, (-2 : ℝ)⟩ :=
  ⟨⟨Real.pi_pos.le, rfl⟩,
    sphere_area ⟨Real.pi, 2 * Real.pi, 2 * Real.pi, 0, Real.pi⟩ ⟨⟨0, 0, 0⟩, -2⟩
      ⟨⟨1, 2, 3⟩, -2⟩ Real.pi_pos.le rfl⟩

/-- C20: for all `a`, `b`, `c` with `a ≠ 0` (of either sign) and `b² − 4ac ≥ 0`,
`solve_quadratic` returns a pair `(x0, x1)` with `x0 ≤ x1` whose members are exactly the
solutions of `a x² + b x + c = 0`, equal when the discriminant is `0`; when `a = 0` or
the discriminant is negative it returns the no-root marker, whatever `b` and `c`. -/
theorem solve_quadratic_roots [LinearOrderedField K] (m : cmath K) (hs : IsSqrt m.sqrt)
    (a b c : K) :
    (a ≠ 0 → 0 ≤ b * b - 4 * a * c →
      ∃ x0 x1, sphere.solve_quadratic m a b c = some (x0, x1) ∧ x0 ≤ x1 ∧
        (b * b - 4 * a * c = 0 → x0 = x1) ∧
        ∀ t, a * t ^ 2 + b * t + c = 0 ↔ t = x0 ∨ t = x1) ∧
    (a = 0 ∨ b * b - 4 * a * c < 0 → sphere.solve_quadratic m a b c = none) := by
  refine ⟨fun ha hd => sphere.solve_quadratic_some m hs a b c ha hd, fun h => ?_⟩
  rcases h with h | h
  · exact sphere.solve_quadratic_none_of_denom m a b c (by rw [h, mul_zero])
  · exact sphere.solve_quadratic_none_of_discr m a b c h

/-- Witness of C20: over the reals, `a = -1`, `b = 10`, `c = -24` (discriminant `4`), and
the degenerate `a = 0`, `b = 1`, `c = -1`, whose linear equation has the solution `1`. -/
theorem solve_quadratic_roots_witness :
    (IsSqrt Real.sqrt ∧ (-1 : ℝ) ≠ 0 ∧ (0 : ℝ) ≤ 10 * 10 - 4 * (-1) * (-24)) ∧
    (∃ x0 x1, sphere.solve_quadratic
        ⟨Real.sqrt, fun y x => Complex.arg ⟨x, y⟩, Real.arccos, Real.sin⟩ (-1) 10 (-24)
          = some (x0, x1) ∧ x0 ≤ x1 ∧
        ((10 : ℝ) * 10 - 4 * (-1) * (-24) = 0 → x0 = x1) ∧
        ∀ t, (-1 : ℝ) * t ^ 2 + 10 * t + (-24) = 0 ↔ t = x0 ∨ t = x1) ∧
    sphere.solve_quadratic
      ⟨Real.sqrt, fun y x => Complex.arg ⟨x, y⟩, Real.arccos, Real.sin⟩ (0 : ℝ) 1 (-1)
      = none ∧ (1 : ℝ) * 1 + (-1) = 0 :=
  ⟨⟨isSqrt_real, by norm_num, by norm_num⟩,
    (solve_quadratic_roots _ isSqrt_real (-1) 10 (-24)).1 (by norm_num) (by norm_num),
    (solve_quadratic_roots
      ⟨Real.sqrt, fun y x => Complex.arg ⟨x, y⟩, Real.arccos, Real.sin⟩ isSqrt_real
      0 1 (-1)).2 (Or.inl rfl), by norm_num⟩

/-! ## Claims on the scene and the path-tracing loop -/

/-- C18: for every scene whose surfaces meet the surface contract and every ray,
`Scene.intersect` returns Miss exactly when no surface intersects the ray within its
interval; otherwise it returns a hit of one of the surfaces, together with the material
of that surface, whose `t` lies in the interval and is the least among the hits of all
surfaces; and its result is the one exhaustive testing gives. -/
theorem scene_intersect_nearest [LinearOrderedField K] {M : Type}
    (sc : List (surface_primitive K M)) (r : ray K)
    (hc : ∀ e ∈ sc, SurfaceContract e.intersect) :
    (scene.intersect sc r = none ↔ ∀ e ∈ sc, e.intersect r = none) ∧
    (∀ h mat, scene.intersect sc r = some (h, mat) →
      (∃ e ∈ sc, e.intersect r = some h ∧ e.material = mat) ∧
      r.interval.x ≤ h.t ∧ h.t ≤ r.interval.y ∧
      ∀ e ∈ sc, ∀ h2, e.intersect r = some h2 → h.t ≤ h2.t) ∧
    scene.intersect sc r = scene.exhaustive sc r := by
  have heq := intersect_eq_exhaustive sc r hc
  obtain ⟨hnone, hsome⟩ := bestOf_exhaustive sc r
  rw [heq]
  refine ⟨hnone, fun h mat hb => ?_, rfl⟩
  obtain ⟨⟨e, he, h1, h2⟩, hmin⟩ := hsome h mat hb
  obtain ⟨g1, g2⟩ := (hc e he r).1 h h1
  exact ⟨⟨e, he, h1, h2⟩, g1, g2, hmin⟩

/-- Witness of C18: the unit spheres centred at `(0,0,0)` (material `0`) and at `(0,0,2)`
(material `1`) overlap along the ray from `(0,0,5)` along `(0,0,-1)`; the scene returns
the hit of the nearer sphere, at `t = 5 - 3`, with material `1`. -/
theorem scene_intersect_nearest_witness :
    scene.intersect
      [⟨sphere.intersect ⟨Real.sqrt, fun y x => Complex.arg ⟨x, y⟩, Real.arccos, Real.sin⟩
          ⟨Real.pi, 2 * Real.pi, 2 * Real.pi, 0, Real.pi⟩ ⟨⟨0, 0, 0⟩, 1⟩, (0 : Nat)⟩,
        ⟨sphere.intersect ⟨Real.sqrt, fun y x => Complex.arg ⟨x, y⟩, Real.arccos, Real.sin⟩
          ⟨Real.pi, 2 * Real.pi, 2 * Real.pi, 0, Real.pi⟩ ⟨⟨0, 0, 2⟩, 1⟩, 1⟩]
      ⟨⟨0, 0, 5⟩, ⟨0, 0, -1⟩, ⟨0, 10⟩⟩
    = some (sphere.hit ⟨Real.sqrt, fun y x => Complex.arg ⟨x, y⟩, Real.arccos, Real.sin⟩
        ⟨Real.pi, 2 * Real.pi, 2 * Real.pi, 0, Real.pi⟩ ⟨⟨0, 0, 2⟩, 1⟩
        ⟨⟨0, 0, 5⟩, ⟨0, 0, -1⟩, ⟨0, 10⟩⟩ (3 - 1), 1) := by
  have hA := sphere.intersect_aimed_at_center
    ⟨Real.sqrt, fun y x => Complex.arg ⟨x, y⟩, Real.arccos, Real.sin⟩
    ⟨Real.pi, 2 * Real.pi, 2 * Real.pi, 0, Real.pi⟩ isSqrt_real ⟨⟨0, 0, 0⟩, 1⟩
    ⟨⟨0, 0, 5⟩, ⟨0, 0, -1⟩, ⟨0, 10⟩⟩ 5 (by norm_num)
    (by norm_num [float3.norm2, float3.dot])
    (by norm_num [float3.sub, float3.smul]) (by norm_num) (by norm_num)
  have hB := sphere.intersect_aimed_at_center
    ⟨Real.sqrt, fun y x => Complex.arg ⟨x, y⟩, Real.arccos, Real.sin⟩
    ⟨Real.pi, 2 * Real.pi, 2 * Real.pi, 0, Real.pi⟩ isSqrt_real ⟨⟨0, 0, 2⟩, 1⟩
    ⟨⟨0, 0, 5⟩, ⟨0, 0, -1⟩, ⟨0, 10⟩⟩ 3 (by norm_num)
    (by norm_num [float3.norm2, float3.dot])
    (by norm_num [float3.sub, float3.smul]) (by norm_num) (by norm_num)
  rw [(scene_intersect_nearest _ _ (by
    intro e he
    simp only [List.mem_cons, List.mem_singleton, List.not_mem_nil, or_false] at he
    rcases he with rfl | rfl
    · exact sphere.surfaceContract _ _ isSqrt_real _
    · exact sphere.surfaceContract _ _ isSqrt_real _)).2.2]
  simp only [scene.exhaustive, List.foldl_cons, List.foldl_nil, hA, hB, sphere.hit_t]
  norm_num

/-- C21: for every sphere of radius `r ≠ 0` and every ray, when `sphere::intersect`
returns a hit, the hit point is `origin + t * direction` and lies on the sphere
(`|x − center|² = r²`), the normal has unit length, and `x = center + |r| * normal`. -/
theorem sphere_hit_on_surface [LinearOrderedField K] (m : cmath K) (k : constants K)
    (hs : IsSqrt m.sqrt) (s : sphere K) (r : ray K) (hr : s.radius ≠ 0)
    (h : intersection K) (hh : s.intersect m k r = some h) :
    h.dg.point = r.at h.t ∧
    float3.norm2 (float3.sub h.dg.point s.center) = s.radius ^ 2 ∧
    float3.norm2 h.dg.normal = 1 ∧
    h.dg.point = float3.add s.center (float3.smul |s.radius| h.dg.normal) := by
  obtain ⟨-, heq, -, -, hq, -⟩ := sphere.intersect_some_spec m k hs s r h hh
  obtain ⟨h1, h2, h3⟩ := sphere.hit_on_surface m k hs s r h.t hr hq
  rw [← heq] at h1 h2 h3
  refine ⟨?_, h1, h2, h3⟩
  rw [heq]; rfl

/-- Witness of C21: the unit sphere at the origin and the ray from `(0,0,5)` along
`(0,0,-1)` with interval `[0, 10]`, over the reals. -/
theorem sphere_hit_on_surface_witness :
    ∃ h, sphere.intersect ⟨Real.sqrt, fun y x => Complex.arg ⟨x, y⟩, Real.arccos, Real.sin⟩
        ⟨Real.pi, 2 * Real.pi, 2 * Real.pi, 0, Real.pi⟩ ⟨⟨0, 0, 0⟩, 1⟩
        ⟨⟨0, 0, 5⟩, ⟨0, 0, -1⟩, ⟨0, 10⟩⟩ = some h ∧
      h.dg.point = ray.at ⟨⟨0, 0, 5⟩, ⟨0, 0, -1⟩, ⟨0, 10⟩⟩ h.t ∧
      float3.norm2 (float3.sub h.dg.point ⟨0, 0, 0⟩) = (1 : ℝ) ^ 2 ∧
      float3.norm2 h.dg.normal = 1 ∧
      h.dg.point = float3.add ⟨0, 0, 0⟩ (float3.smul |(1 : ℝ)| h.dg.normal) :=
  ⟨_, sphere.intersect_aimed_at_center _ _ isSqrt_real ⟨⟨0, 0, 0⟩, 1⟩
      ⟨⟨0, 0, 5⟩, ⟨0, 0, -1⟩, ⟨0, 10⟩⟩ 5 (by norm_num)
      (by norm_num [float3.norm2, float3.dot])
      (by norm_num [float3.sub, float3.smul]) (by norm_num) (by norm_num),
    sphere_hit_on_surface _ _ isSqrt_real ⟨⟨0, 0, 0⟩, 1⟩ _ (by norm_num) _
      (sphere.intersect_aimed_at_center _ _ isSqrt_real ⟨⟨0, 0, 0⟩, 1⟩
        ⟨⟨0, 0, 5⟩, ⟨0, 0, -1⟩, ⟨0, 10⟩⟩ 5 (by norm_num)
        (by norm_num [float3.norm2, float3.dot])
        (by norm_num [float3.sub, float3.smul]) (by norm_num) (by norm_num))⟩

/-- Counterexample to C22 as stated, in binary32: for the radius `1` and the normal
`(2^-100, 0, 1)`, of squared length `1` in binary32 and not parallel to the z axis,
`p.x*p.x = 2^-200` underflows to `0` and `z_radius` is `0`. -/
theorem sphere_z_radius_binary32_underflow :
    sphere.z_radius32 ⟨⟨0, 0, 0⟩, 1⟩ ⟨(2 : ℚ) ^ (-100 : ℤ), 0, 1⟩ = some 0 ∧
    (1 : ℚ) ≠ 0 ∧ ¬ ((2 : ℚ) ^ (-100 : ℤ) = 0 ∧ (0 : ℚ) = 0) ∧
    float3.norm2_32 ⟨(2 : ℚ) ^ (-100 : ℤ), 0, 1⟩ = some 1 :=
  ⟨sphere.z_radius32_underflow _ binary32.round_nearest_small binary32.round_nearest_tiny,
    one_ne_zero, fun h => zpow_ne_zero _ two_ne_zero h.1,
    (float3.norm2_32_underflow _ binary32.round_nearest_tiny).1⟩

/-- C22, amended: over exact arithmetic (an ordered field with an exact square root), in
`parametric_geometry_at` the divisor `z_radius` is non-zero exactly when the radius is
non-zero and the normal is not parallel to the z axis; `dpdv` is computed from
`1 / z_radius`; and for the unit sphere at the origin and the ray from `(0,0,5)` along
`(0,0,-1)` the hit has the normal `(0,0,1)`, for which `z_radius` is zero. -/
theorem sphere_z_radius_zero [LinearOrderedField K] (m : cmath K) (k : constants K)
    (hs : IsSqrt m.sqrt) (s : sphere K) (n : normal K) (tmin tmax : K)
    (h1 : tmin ≤ 4) (h2 : 4 ≤ tmax) :
    (s.z_radius m n ≠ 0 ↔ s.radius ≠ 0 ∧ ¬ (n.x = 0 ∧ n.y = 0)) ∧
    (s.parametric_geometry_at m k n).2.2 =
      float3.smul (k.max_theta - k.min_theta)
        ⟨s.radius * n.z * (s.radius * n.x * (1 / s.z_radius m n)),
          s.radius * n.z * (s.radius * n.y * (1 / s.z_radius m n)),
          -s.radius * m.sin (sphere.theta m n)⟩ ∧
    ∃ h, sphere.intersect m k ⟨⟨0, 0, 0⟩, 1⟩ ⟨⟨0, 0, 5⟩, ⟨0, 0, -1⟩, ⟨tmin, tmax⟩⟩ = some h ∧
      h.dg.normal = ⟨0, 0, 1⟩ ∧ sphere.z_radius m ⟨⟨0, 0, 0⟩, 1⟩ h.dg.normal = 0 := by
  refine ⟨sphere.z_radius_ne_zero_iff m hs s n, sphere.dpdv_eq m k s n, ?_⟩
  have hi := sphere.intersect_aimed_at_center m k hs ⟨⟨0, 0, 0⟩, 1⟩
    ⟨⟨0, 0, 5⟩, ⟨0, 0, -1⟩, ⟨tmin, tmax⟩⟩ 5 (by norm_num)
    (by norm_num [float3.norm2, float3.dot])
    (by norm_num [float3.sub, float3.smul])
    (by simp only; linarith) (by simp only; linarith)
  have hn := (sphere.hit_aimed_at_center m k hs ⟨⟨0, 0, 0⟩, 1⟩
    ⟨⟨0, 0, 5⟩, ⟨0, 0, -1⟩, ⟨tmin, tmax⟩⟩ 5 (by norm_num)
    (by norm_num [float3.norm2, float3.dot])
    (by norm_num [float3.sub, float3.smul])).2
  have hn2 : (sphere.hit m k ⟨⟨0, 0, 0⟩, 1⟩ ⟨⟨0, 0, 5⟩, ⟨0, 0, -1⟩, ⟨tmin, tmax⟩⟩
      (5 - 1)).dg.normal = ⟨0, 0, 1⟩ := by
    rw [hn]; simp [float3.neg]
  refine ⟨_, hi, hn2, ?_⟩
  rw [hn2]
  have hz : ¬ sphere.z_radius m ⟨⟨0, 0, 0⟩, (1 : K)⟩ ⟨0, 0, 1⟩ ≠ 0 := by
    rw [sphere.z_radius_ne_zero_iff m hs]
    simp
  exact not_not.1 hz

/-- Witness of C22, amended: over the reals, the interval `[0, 10]` and the normal
`(0, 3/5, 4/5)` of a sphere of radius `2`. -/
theorem sphere_z_radius_zero_witness :
    ((0 : ℝ) ≤ 4 ∧ (4 : ℝ) ≤ 10) ∧
    sphere.z_radius ⟨Real.sqrt, fun y x => Complex.arg ⟨x, y⟩, Real.arccos, Real.sin⟩
      ⟨⟨0, 0, 0⟩, (2 : ℝ)⟩ ⟨0, 3 / 5, 4 / 5⟩ ≠ 0 ∧
    ∃ h, sphere.intersect ⟨Real.sqrt, fun y x => Complex.arg ⟨x, y⟩, Real.arccos, Real.sin⟩
        ⟨Real.pi, 2 * Real.pi, 2 * Real.pi, 0, Real.pi⟩ ⟨⟨0, 0, 0⟩, 1⟩
        ⟨⟨0, 0, 5⟩, ⟨0, 0, -1⟩, ⟨0, 10⟩⟩ = some h ∧
      h.dg.normal = ⟨0, 0, 1⟩ ∧
      sphere.z_radius ⟨Real.sqrt, fun y x => Complex.arg ⟨x, y⟩, Real.arccos, Real.sin⟩
        ⟨⟨0, 0, 0⟩, (1 : ℝ)⟩ h.dg.normal = 0 := by
  obtain ⟨hiff, -, hex⟩ := sphere_z_radius_zero
    ⟨Real.sqrt, fun y x => Complex.arg ⟨x, y⟩, Real.arccos, Real.sin⟩
    ⟨Real.pi, 2 * Real.pi, 2 * Real.pi, 0, Real.pi⟩ isSqrt_real ⟨⟨0, 0, 0⟩, (2 : ℝ)⟩
    ⟨0, 3 / 5, 4 / 5⟩ 0 10 (by norm_num) (by norm_num)
  exact ⟨⟨by norm_num, by norm_num⟩, hiff.2 ⟨by norm_num, by norm_num⟩, hex⟩

/-- Counterexample to C24 as stated, in binary32, with `two_pi = max_phi` the value
`13176795 / 2^21` nearest to `2π` (within half the spacing `2^-21`): for the normal
`(1, -2^-100, 0)`, of squared length `1` in binary32, `atan2(n.y, n.x)` is `-2^-100`
(the function `fun y _ => y` takes the place of `std::atan2`, whose correctly rounded
value at `(-2^-100, 1)` is `-2^-100`), `phi += two_pi` is rounded to `two_pi`, and the
returned `u = phi / max_phi` is `1`. -/
theorem sphere_phi_binary32_two_pi :
    |2 * Real.pi - 13176795 / 2097152| < 1 / 4194304 ∧
    float3.norm2_32 ⟨1, -(2 : ℚ) ^ (-100 : ℤ), 0⟩ = some 1 ∧
    sphere.phi32 (fun y _ => y) (13176795 / 2097152) ⟨1, -(2 : ℚ) ^ (-100 : ℤ), 0⟩
      = some (13176795 / 2097152) ∧
    sphere.u32 (fun y _ => y) (13176795 / 2097152) (13176795 / 2097152)
      ⟨1, -(2 : ℚ) ^ (-100 : ℤ), 0⟩ = some 1 ∧
    ¬ ((13176795 / 2097152 : ℚ) < 13176795 / 2097152) ∧ ¬ ((1 : ℚ) < 1) := by
  have h := sphere.u32_one ((2 : ℚ) ^ (-100 : ℤ)) (13176795 / 2097152)
    (zpow_pos (by norm_num) _) (by norm_num) binary32.round_nearest_below_two_pi
  refine ⟨?_, (float3.norm2_32_underflow _ binary32.round_nearest_tiny).2, h.1, h.2,
    lt_irrefl _, lt_irrefl _⟩
  rw [abs_lt]
  constructor
  · have := Real.pi_gt_d20
    norm_num at this ⊢
    linarith
  · have := Real.pi_lt_d20
    norm_num at this ⊢
    linarith

/-- C24, amended: over exact arithmetic, the angle `phi` computed by
`parametric_geometry_at`, `atan2(n.y, n.x)` plus `two_pi` when negative, lies in
`[0, 2π)`, and with `max_phi = 2π` the returned `u = phi / max_phi` lies in `[0, 1)`;
here `atan2` has its values in `[-π, π]` and `two_pi` is `2π`. -/
theorem sphere_phi_range [LinearOrderedField K] (m : cmath K) (k : constants K)
    (s : sphere K) (n : normal K) (hpi : 0 < k.pi) (h2 : k.two_pi = 2 * k.pi)
    (hmax : k.max_phi = 2 * k.pi)
    (hat : -k.pi ≤ m.atan2 n.y n.x ∧ m.atan2 n.y n.x ≤ k.pi) :
    (0 ≤ sphere.phi m k n ∧ sphere.phi m k n < 2 * k.pi) ∧
    (s.parametric_geometry_at m k n).1.x = sphere.phi m k n / k.max_phi ∧
    0 ≤ (s.parametric_geometry_at m k n).1.x ∧ (s.parametric_geometry_at m k n).1.x < 1 := by
  obtain ⟨p1, p2⟩ := sphere.phi_range m k n hpi h2 hat
  have hu : (s.parametric_geometry_at m k n).1.x = sphere.phi m k n / k.max_phi := rfl
  have h2pi : 0 < 2 * k.pi := by linarith
  refine ⟨⟨p1, p2⟩, hu, ?_, ?_⟩
  · rw [hu, hmax]; exact div_nonneg p1 h2pi.le
  · rw [hu, hmax, div_lt_one h2pi]; exact p2

/-- Witness of C24, amended: over the reals, with `atan2(y, x) = arg(x + i y)`, the unit normal
`(0, -1, 0)`, whose `atan2` is negative. -/
theorem sphere_phi_range_witness :
    (0 ≤ sphere.phi ⟨Real.sqrt, fun y x => Complex.arg ⟨x, y⟩, Real.arccos, Real.sin⟩
        ⟨Real.pi, 2 * Real.pi, 2 * Real.pi, 0, Real.pi⟩ ⟨0, -1, 0⟩ ∧
      sphere.phi ⟨Real.sqrt, fun y x => Complex.arg ⟨x, y⟩, Real.arccos, Real.sin⟩
        ⟨Real.pi, 2 * Real.pi, 2 * Real.pi, 0, Real.pi⟩ ⟨0, -1, 0⟩ < 2 * Real.pi) ∧
    (sphere.parametric_geometry_at
        ⟨Real.sqrt, fun y x => Complex.arg ⟨x, y⟩, Real.arccos, Real.sin⟩
        ⟨Real.pi, 2 * Real.pi, 2 * Real.pi, 0, Real.pi⟩ ⟨⟨0, 0, 0⟩, 1⟩ ⟨0, -1, 0⟩).1.x
      = sphere.phi ⟨Real.sqrt, fun y x => Complex.arg ⟨x, y⟩, Real.arccos, Real.sin⟩
        ⟨Real.pi, 2 * Real.pi, 2 * Real.pi, 0, Real.pi⟩ ⟨0, -1, 0⟩ / (2 * Real.pi) ∧
    0 ≤ (sphere.parametric_geometry_at
        ⟨Real.sqrt, fun y x => Complex.arg ⟨x, y⟩, Real.arccos, Real.sin⟩
        ⟨Real.pi, 2 * Real.pi, 2 * Real.pi, 0, Real.pi⟩ ⟨⟨0, 0, 0⟩, 1⟩ ⟨0, -1, 0⟩).1.x ∧
    (sphere.parametric_geometry_at
        ⟨Real.sqrt, fun y x => Complex.arg ⟨x, y⟩, Real.arccos, Real.sin⟩
        ⟨Real.pi, 2 * Real.pi, 2 * Real.pi, 0, Real.pi⟩ ⟨⟨0, 0, 0⟩, 1⟩ ⟨0, -1, 0⟩).1.x < 1 :=
  sphere_phi_range ⟨Real.sqrt, fun y x => Complex.arg ⟨x, y⟩, Real.arccos, Real.sin⟩
    ⟨Real.pi, 2 * Real.pi, 2 * Real.pi, 0, Real.pi⟩ ⟨⟨0, 0, 0⟩, 1⟩ ⟨0, -1, 0⟩
    Real.pi_pos rfl rfl ⟨(Complex.neg_pi_lt_arg _).le, Complex.arg_le_pi _⟩

/-! ## Claims on `look_at` and `sphere::triangulate` -/

/-- C25: in `look_at`, for every `eye ≠ center` and every non-zero `up`, the matrix `m`
maps the camera's -z axis `(0,0,-1,0)` to the view direction `(f, 0)`, with
`f = normalize(center - eye)`, and `m * transpose(m)` is `identity()` if and only if
`up` is perpendicular to `f`. -/
theorem look_at_matrix_orthogonal [LinearOrderedField K] (m : cmath K) (hs : IsSqrt m.sqrt)
    (eye center up : float3 K) (he : eye ≠ center) (hup : up ≠ ⟨0, 0, 0⟩) :
    (look_at_matrix m eye center up).mulVec ⟨0, 0, -1, 0⟩
      = ⟨(float3.normalize m.sqrt (float3.sub center eye)).x,
          (float3.normalize m.sqrt (float3.sub center eye)).y,
          (float3.normalize m.sqrt (float3.sub center eye)).z, 0⟩ ∧
    ((look_at_matrix m eye center up).mul (look_at_matrix m eye center up).transpose
        = matrix4x4.identity ↔
      float3.dot (float3.normalize m.sqrt (float3.sub center eye)) up = 0) := by
  obtain ⟨hA, -⟩ := normalize_spec m.sqrt hs _ (sub_ne_zero_of_ne eye center he)
  obtain ⟨hB, c, hc, hbc⟩ := normalize_spec m.sqrt hs up hup
  constructor
  · rw [look_at_matrix_eq, mulVec_eq]
    ext <;> simp only <;> ring
  · rw [look_at_matrix_eq, frame_mul_transpose _ _ hA hB]
    have hdot : float3.dot (float3.normalize m.sqrt (float3.sub center eye))
        (float3.normalize m.sqrt up)
        = c * float3.dot (float3.normalize m.sqrt (float3.sub center eye)) up := by
      rw [hbc]; simp only [float3.dot, float3.smul]; ring
    simp only [float3.dot] at hdot ⊢
    rw [hdot]
    constructor
    · intro h
      rcases mul_eq_zero.1 h with h0 | h0
      · exact absurd h0 hc.ne'
      · exact h0
    · intro h
      rw [h, mul_zero]

/-- Witness of C25: `look_at((0,0,3), (0,0,-1), (0,1,0))` gives the identity matrix; `up`
is perpendicular to the view direction `(0,0,-1)`. -/
theorem look_at_matrix_orthogonal_witness :
    ((⟨0, 0, 3⟩ : float3 ℝ) ≠ ⟨0, 0, -1⟩ ∧ (⟨0, 1, 0⟩ : float3 ℝ) ≠ ⟨0, 0, 0⟩) ∧
    look_at_matrix ⟨Real.sqrt, fun y x => Complex.arg ⟨x, y⟩, Real.arccos, Real.sin⟩
      ⟨0, 0, 3⟩ ⟨0, 0, -1⟩ ⟨0, 1, 0⟩ = matrix4x4.identity ∧
    (look_at_matrix ⟨Real.sqrt, fun y x => Complex.arg ⟨x, y⟩, Real.arccos, Real.sin⟩
      ⟨0, 0, 3⟩ ⟨0, 0, -1⟩ ⟨0, 1, 0⟩).mulVec ⟨0, 0, -1, 0⟩ = ⟨0, 0, -1, 0⟩ ∧
    ((look_at_matrix ⟨Real.sqrt, fun y x => Complex.arg ⟨x, y⟩, Real.arccos, Real.sin⟩
        ⟨0, 0, 3⟩ ⟨0, 0, -1⟩ ⟨0, 1, 0⟩).mul
        (look_at_matrix ⟨Real.sqrt, fun y x => Complex.arg ⟨x, y⟩, Real.arccos, Real.sin⟩
          ⟨0, 0, 3⟩ ⟨0, 0, -1⟩ ⟨0, 1, 0⟩).transpose = matrix4x4.identity ↔
      float3.dot (float3.normalize Real.sqrt (float3.sub ⟨0, 0, -1⟩ ⟨0, 0, 3⟩))
        (⟨0, 1, 0⟩ : float3 ℝ) = 0) := by
  have he : (⟨0, 0, 3⟩ : float3 ℝ) ≠ ⟨0, 0, -1⟩ := by
    intro h
    have := congrArg float3.z h
    norm_num at this
  have hup : (⟨0, 1, 0⟩ : float3 ℝ) ≠ ⟨0, 0, 0⟩ := by
    intro h
    have := congrArg float3.y h
    norm_num at this
  have h16 : Real.sqrt (0 * 0 + 0 * 0 + (-1 - 3) * (-1 - 3)) = 4 :=
    isSqrt_real.eq_of_mul_self (by norm_num) (by norm_num)
  have h1 : Real.sqrt (0 * 0 + 1 * 1 + 0 * 0) = 1 :=
    isSqrt_real.eq_of_mul_self (by norm_num) (by norm_num)
  have hf : float3.normalize Real.sqrt (float3.sub (⟨0, 0, -1⟩ : float3 ℝ) ⟨0, 0, 3⟩)
      = ⟨0, 0, -1⟩ := by
    simp only [float3.normalize, float3.sub, float3.norm2, float3.dot, sub_self, h16]
    norm_num
  have hu : float3.normalize Real.sqrt (⟨0, 1, 0⟩ : float3 ℝ) = ⟨0, 1, 0⟩ := by
    simp only [float3.normalize, float3.norm2, float3.dot, h1]
    norm_num
  obtain ⟨t1, t2⟩ := look_at_matrix_orthogonal
    ⟨Real.sqrt, fun y x => Complex.arg ⟨x, y⟩, Real.arccos, Real.sin⟩ isSqrt_real
    ⟨0, 0, 3⟩ ⟨0, 0, -1⟩ ⟨0, 1, 0⟩ he hup
  refine ⟨⟨he, hup⟩, ?_, ?_, t2⟩
  · rw [look_at_matrix_eq, matrix4x4.identity_eq4]
    simp only [hf, hu, float3.cross]
    norm_num
  · rw [t1]
    simp only [hf]

/-- C23: `sphere::triangulate` always returns, without any write past the end of a
vector: `points`, `parametrics` and `normals` have 40000 entries and `triangles` has
20000; the triangle slots are assigned in the order `0, 1, ..., 19999`, each once; cell
`k` writes `(4k, 4k+1, 4k+2)` to slot `2k` and `(4k, 4k+2, 4k+3)` to slot `2k + 1`; and
every triangle index is below 40000. -/
theorem sphere_triangulate_valid [Field K] (us : K → K → point K) (s : sphere K) :
    ∃ st a, sphere.triangulate_loops us 100 100 = some st ∧ s.triangulate us = some a ∧
      a.points.length = 40000 ∧
      (∃ ps, a.parametrics = some ps ∧ ps.length = 40000) ∧
      a.normals.length = 40000 ∧ a.triangles.length = 20000 ∧
      st.slots = List.range 20000 ∧
      (∀ k : Fin 10000,
        a.triangles[2 * k.val]? = some ⟨4 * k.val, 4 * k.val + 1, 4 * k.val + 2⟩ ∧
        a.triangles[2 * k.val + 1]? = some ⟨4 * k.val, 4 * k.val + 2, 4 * k.val + 3⟩) ∧
      ∀ tri ∈ a.triangles, tri.InRange 40000 := by
  obtain ⟨st, hst, hI⟩ := sphere.triangulate_loops_inv us 100 100
  have e1 : 4 * 100 * 100 = 40000 := by norm_num
  have e2 : 2 * 100 * 100 = 20000 := by norm_num
  have e3 : 100 * 100 = 10000 := by norm_num
  rw [e1, e2, e3] at hI
  have hr := sphere.triangulate_inRange 40000 20000 10000 st hI (by norm_num) (by norm_num)
  obtain ⟨hp, hq, hn, ht, -, hs, htri⟩ := hI
  have e4 : 2 * 10000 = 20000 := by norm_num
  rw [e4] at hs
  refine ⟨st,
    { points := st.points.map fun x => float3.add (float3.smul s.radius x) s.center
      parametrics := some st.parametrics
      normals := st.normals
      triangles := st.triangles },
    hst, by simp only [sphere.triangulate, hst, Option.map_some'], ?_,
    ⟨_, rfl, hq⟩, hn, ht, hs, fun k => htri k.val k.isLt, hr⟩
  simp only [List.length_map]
  exact hp

/-- Witness of C23: over the rationals, with `unit_sphere(u, v) = (u, v, 0)` and the
sphere of centre `(1, 2, 3)` and radius `2`. -/
theorem sphere_triangulate_valid_witness :
    ∃ st a, sphere.triangulate_loops (fun u v => (⟨u, v, 0⟩ : point ℚ)) 100 100 = some st ∧
      sphere.triangulate (fun u v => (⟨u, v, 0⟩ : point ℚ)) ⟨⟨1, 2, 3⟩, 2⟩ = some a ∧
      a.points.length = 40000 ∧
      (∃ ps, a.parametrics = some ps ∧ ps.length = 40000) ∧
      a.normals.length = 40000 ∧ a.triangles.length = 20000 ∧
      st.slots = List.range 20000 ∧
      (∀ k : Fin 10000,
        a.triangles[2 * k.val]? = some ⟨4 * k.val, 4 * k.val + 1, 4 * k.val + 2⟩ ∧
        a.triangles[2 * k.val + 1]? = some ⟨4 * k.val, 4 * k.val + 2, 4 * k.val + 3⟩) ∧
      ∀ tri ∈ a.triangles, tri.InRange 40000 :=
  sphere_triangulate_valid (fun u v => (⟨u, v, 0⟩ : point ℚ)) ⟨⟨1, 2, 3⟩, 2⟩

end Igloo
